import Mathlib

/-!
Verification of the logos-refs plugin's string-processing core.

Strings are modelled as `List Char`.  JavaScript's `String.replace` with a
global literal pattern (leftmost, non-overlapping, replacement not rescanned)
is modelled by `replaceSub`.  The escaping/unescaping performed by
`bibtexToMetadata` / `metadataToBibtex` (src/unnamed/part_003) is built from it.
-/

/-- JS `String.replace` with a global one-character literal pattern:
every occurrence of `a` is replaced by `rep` (the replacement is not
rescanned). -/
def replaceSub1 (a : Char) (rep : List Char) : List Char → List Char
  | [] => []
  | c :: rest =>
    if c = a then rep ++ replaceSub1 a rep rest
    else c :: replaceSub1 a rep rest

/-- JS `String.replace` with a global two-character literal pattern `ab`:
leftmost-first, non-overlapping, replacement not rescanned. -/
def replaceSub2 (a b : Char) (rep : List Char) : List Char → List Char
  | [] => []
  | [c] => [c]
  | c :: d :: rest =>
    if c = a ∧ d = b then rep ++ replaceSub2 a b rep rest
    else c :: replaceSub2 a b rep (d :: rest)

/-- Value escaping performed by `bibtexToMetadata` (src/unnamed/part_003 lines
56-61): backslash first, then double-quote, newline, carriage-return, tab. -/
def escapeValue (v : List Char) : List Char :=
  replaceSub1 '\t' ['\\', 't']
    (replaceSub1 '\r' ['\\', 'r']
      (replaceSub1 '\n' ['\\', 'n']
        (replaceSub1 '"' ['\\', '"']
          (replaceSub1 '\\' ['\\', '\\'] v))))

/-- Value unescaping performed by `metadataToBibtex` (src/unnamed/part_003
lines 91-96): newline, carriage-return, tab, double-quote, backslash last. -/
def unescapeValue (v : List Char) : List Char :=
  replaceSub2 '\\' '\\' ['\\']
    (replaceSub2 '\\' '"' ['"']
      (replaceSub2 '\\' 't' ['\t']
        (replaceSub2 '\\' 'r' ['\r']
          (replaceSub2 '\\' 'n' ['\n'] v))))

/-- The five characters handled by the escape/unescape pair. -/
def specialChars : List Char := ['\\', '"', '\n', '\r', '\t']

/-- Concatenation of per-character token lists (used to describe the
intermediate states of the escape and unescape passes). -/
def flatMapL (f : Char → List Char) : List Char → List Char
  | [] => []
  | c :: rest => f c ++ flatMapL f rest

/-- One single-character replacement step, per character. -/
def escStep (a : Char) (rep : List Char) (c : Char) : List Char :=
  if c = a then rep else [c]

/-- Per-character form of the full escape. -/
def escTok (c : Char) : List Char :=
  if c = '\\' then ['\\', '\\']
  else if c = '"' then ['\\', '"']
  else if c = '\n' then ['\\', 'n']
  else if c = '\r' then ['\\', 'r']
  else if c = '\t' then ['\\', 't']
  else [c]

/-- Stream state after undoing the newline escapes. -/
def tok1 (c : Char) : List Char := if c = '\n' then ['\n'] else escTok c

/-- Stream state after undoing newline and carriage-return escapes. -/
def tok2 (c : Char) : List Char := if c = '\r' then ['\r'] else tok1 c

/-- Stream state after undoing newline, carriage-return and tab escapes. -/
def tok3 (c : Char) : List Char := if c = '\t' then ['\t'] else tok2 c

/-- Stream state after undoing all escapes except the backslash doubling. -/
def tok4 (c : Char) : List Char := if c = '"' then ['"'] else tok3 c

lemma isPrefixOf_head_neq (a d : Char) (p S : List Char) (h : ¬ a = d) :
    ((a :: p).isPrefixOf (d :: S)) = false := by
  simp only [List.isPrefixOf]
  rw [beq_false_of_ne h]
  exact Bool.false_and _

lemma flatMapL_append (f : Char → List Char) (a b : List Char) :
    flatMapL f (a ++ b) = flatMapL f a ++ flatMapL f b := by
  induction a with
  | nil => simp [flatMapL]
  | cons c rest ih => simp [flatMapL, ih]

lemma flatMapL_comp (f g : Char → List Char) (s : List Char) :
    flatMapL g (flatMapL f s) = flatMapL (fun c => flatMapL g (f c)) s := by
  induction s with
  | nil => simp [flatMapL]
  | cons c rest ih => simp [flatMapL, flatMapL_append, ih]

lemma flatMapL_id (s : List Char) : flatMapL (fun c => [c]) s = s := by
  induction s with
  | nil => rfl
  | cons c rest ih => simp [flatMapL, ih]

lemma replaceSub1_flatMapL (a : Char) (rep : List Char) (s : List Char) :
    replaceSub1 a rep s = flatMapL (escStep a rep) s := by
  induction s with
  | nil => rfl
  | cons c rest ih =>
    rw [replaceSub1]
    by_cases hc : c = a
    · rw [if_pos hc, ih]
      simp [flatMapL, escStep, hc]
    · rw [if_neg hc, ih]
      simp [flatMapL, escStep, hc]

lemma escStep_chain (c : Char) :
    flatMapL (escStep '\t' ['\\', 't'])
      (flatMapL (escStep '\r' ['\\', 'r'])
        (flatMapL (escStep '\n' ['\\', 'n'])
          (flatMapL (escStep '"' ['\\', '"'])
            (escStep '\\' ['\\', '\\'] c)))) = escTok c := by
  by_cases h1 : c = '\\'
  · subst h1; decide
  by_cases h2 : c = '"'
  · subst h2; decide
  by_cases h3 : c = '\n'
  · subst h3; decide
  by_cases h4 : c = '\r'
  · subst h4; decide
  by_cases h5 : c = '\t'
  · subst h5; decide
  simp [escStep, escTok, flatMapL, h1, h2, h3, h4, h5]

lemma escapeValue_eq_flatMapL (v : List Char) :
    escapeValue v = flatMapL escTok v := by
  unfold escapeValue
  rw [replaceSub1_flatMapL, replaceSub1_flatMapL, replaceSub1_flatMapL,
    replaceSub1_flatMapL, replaceSub1_flatMapL]
  induction v with
  | nil => simp [flatMapL]
  | cons c rest ih =>
    simp only [flatMapL, flatMapL_append]
    rw [escStep_chain c, ih]

/-- Heads of the token streams: every token is nonempty, so a nonempty stream
starts with the head of some token. -/
lemma flatMapL_head_cases (t : Char → List Char) (v : List Char)
    (hv : ∀ c ∈ v, c ∈ specialChars) (ht : ∀ c ∈ specialChars, t c ≠ []) :
    flatMapL t v = [] ∨
      ∃ d w, flatMapL t v = d :: w ∧ ∃ c ∈ specialChars, (t c).head? = some d := by
  cases v with
  | nil => exact Or.inl rfl
  | cons c rest =>
    have hc : c ∈ specialChars := hv c (List.mem_cons_self _ _)
    right
    rcases hd : t c with _ | ⟨d, ds⟩
    · exact absurd hd (ht c hc)
    · refine ⟨d, ds ++ flatMapL t rest, ?_, c, hc, ?_⟩
      · simp [flatMapL, hd]
      · simp [hd]

/-- One unescape pass over a token stream: the pattern `['\\', x]` rewrites the
target two-character token to `[r]` and leaves every other token unchanged. -/
lemma pass_general (x r : Char) (t t' : Char → List Char)
    (htok : ∀ c ∈ specialChars,
      (t c = ['\\', x] ∧ t' c = [r]) ∨
      (t' c = t c ∧
        ((∃ d, t c = [d] ∧ d ≠ '\\') ∨
         (∃ y, t c = ['\\', y] ∧ y ≠ x ∧ y ≠ '\\') ∨
         t c = ['\\', '\\'])))
    (hhead : ∀ c ∈ specialChars, (t c).head? ≠ some x)
    (v : List Char) (hv : ∀ c ∈ v, c ∈ specialChars) :
    replaceSub2 '\\' x [r] (flatMapL t v) = flatMapL t' v := by
  induction v with
  | nil => simp [flatMapL, replaceSub2]
  | cons c rest ih =>
    have hrest : ∀ c ∈ rest, c ∈ specialChars :=
      fun d hd => hv d (List.mem_cons_of_mem _ hd)
    have hc : c ∈ specialChars := hv c (List.mem_cons_self _ _)
    have ihr := ih hrest
    have htne : ∀ a ∈ specialChars, t a ≠ [] := by
      intro a ha
      rcases htok a ha with ⟨h1, -⟩ | ⟨-, ⟨d, hd, -⟩ | ⟨y, hy, -, -⟩ | hb⟩
      · simp [h1]
      · simp [hd]
      · simp [hy]
      · simp [hb]
    have hheadS : ∀ e w, flatMapL t rest = e :: w → ¬ e = x := by
      intro e w hw he
      rcases flatMapL_head_cases t rest hrest htne with hnil | ⟨d, w', hw', cc, hcc, hccd⟩
      · rw [hnil] at hw; cases hw
      · rw [hw'] at hw
        injection hw with h1 h2
        subst h1
        subst he
        exact hhead cc hcc hccd
    rcases htok c hc with ⟨hmatch, hrep⟩ | ⟨hkeep, hshape⟩
    · -- target token: the pattern matches and consumes both characters
      rw [show flatMapL t (c :: rest) = '\\' :: x :: flatMapL t rest by
            simp [flatMapL, hmatch]]
      rw [replaceSub2, if_pos ⟨rfl, rfl⟩]
      simp [hrep, flatMapL, ihr]
    · rcases hshape with ⟨d, hd, hdbs⟩ | ⟨y, hy, hyx, hybs⟩ | hbs
      · -- singleton token [d] with d ≠ backslash
        rw [show flatMapL t (c :: rest) = d :: flatMapL t rest by simp [flatMapL, hd]]
        rcases hS : flatMapL t rest with _ | ⟨e, w⟩
        · rw [hS] at ihr
          have hrest0 : flatMapL t' rest = [] := by
            cases rest with
            | nil => rfl
            | cons c2 r2 =>
              exfalso
              have hc2 : c2 ∈ specialChars := hrest c2 (List.mem_cons_self _ _)
              rcases he : t c2 with _ | ⟨e2, es2⟩
              · exact htne c2 hc2 he
              · have : flatMapL t (c2 :: r2) = e2 :: (es2 ++ flatMapL t r2) := by
                  simp [flatMapL, he]
                rw [this] at hS
                cases hS
          rw [replaceSub2]
          simp [flatMapL, hkeep, hd, hrest0]
        · rw [replaceSub2, if_neg (by rintro ⟨h1, -⟩; exact hdbs h1)]
          rw [hS] at ihr
          rw [ihr]
          simp [flatMapL, hkeep, hd]
      · -- token ['\\', y] with y not in {x, backslash}
        rw [show flatMapL t (c :: rest) = '\\' :: y :: flatMapL t rest by
              simp [flatMapL, hy]]
        rw [replaceSub2, if_neg (by rintro ⟨-, h2⟩; exact hyx h2)]
        rcases hS : flatMapL t rest with _ | ⟨e, w⟩
        · rw [hS] at ihr
          have hrest0 : flatMapL t' rest = [] := by
            cases rest with
            | nil => rfl
            | cons c2 r2 =>
              exfalso
              have hc2 : c2 ∈ specialChars := hrest c2 (List.mem_cons_self _ _)
              rcases he : t c2 with _ | ⟨e2, es2⟩
              · exact htne c2 hc2 he
              · have : flatMapL t (c2 :: r2) = e2 :: (es2 ++ flatMapL t r2) := by
                  simp [flatMapL, he]
                rw [this] at hS
                cases hS
          rw [replaceSub2]
          simp [flatMapL, hkeep, hy, hrest0]
        · rw [replaceSub2, if_neg (by rintro ⟨h1, -⟩; exact hybs h1)]
          rw [hS] at ihr
          rw [ihr]
          simp [flatMapL, hkeep, hy]
      · -- token ['\\', '\\']: neither position starts a match (x is not a
        -- backslash, and no token starts with x)
        have hx_ne_bs : ¬ x = '\\' := by
          have := hhead c hc
          rw [hbs] at this
          simp only [List.head?] at this
          intro h
          exact this (by rw [h])
        rw [show flatMapL t (c :: rest) = '\\' :: '\\' :: flatMapL t rest by
              simp [flatMapL, hbs]]
        rw [replaceSub2, if_neg (by rintro ⟨-, h2⟩; exact hx_ne_bs h2.symm)]
        rcases hS : flatMapL t rest with _ | ⟨e, w⟩
        · rw [hS] at ihr
          have hrest0 : flatMapL t' rest = [] := by
            cases rest with
            | nil => rfl
            | cons c2 r2 =>
              exfalso
              have hc2 : c2 ∈ specialChars := hrest c2 (List.mem_cons_self _ _)
              rcases he : t c2 with _ | ⟨e2, es2⟩
              · exact htne c2 hc2 he
              · have : flatMapL t (c2 :: r2) = e2 :: (es2 ++ flatMapL t r2) := by
                  simp [flatMapL, he]
                rw [this] at hS
                cases hS
          rw [replaceSub2]
          simp [flatMapL, hkeep, hbs, hrest0]
        · rw [replaceSub2, if_neg (by rintro ⟨-, h2⟩; exact hheadS e w hS h2)]
          rw [hS] at ihr
          rw [ihr]
          simp [flatMapL, hkeep, hbs]

lemma unescape_pass1 (v : List Char) (hv : ∀ c ∈ v, c ∈ specialChars) :
    replaceSub2 '\\' 'n' ['\n'] (flatMapL escTok v) = flatMapL tok1 v := by
  refine pass_general 'n' '\n' escTok tok1 ?_ ?_ v hv
  · intro c hc
    simp only [specialChars, List.mem_cons, List.not_mem_nil, or_false] at hc
    rcases hc with rfl | rfl | rfl | rfl | rfl
    · exact Or.inr ⟨by decide, Or.inr (Or.inr (by decide))⟩
    · exact Or.inr ⟨by decide, Or.inr (Or.inl ⟨'"', by decide, by decide, by decide⟩)⟩
    · exact Or.inl ⟨by decide, by decide⟩
    · exact Or.inr ⟨by decide, Or.inr (Or.inl ⟨'r', by decide, by decide, by decide⟩)⟩
    · exact Or.inr ⟨by decide, Or.inr (Or.inl ⟨'t', by decide, by decide, by decide⟩)⟩
  · intro c hc
    simp only [specialChars, List.mem_cons, List.not_mem_nil, or_false] at hc
    rcases hc with rfl | rfl | rfl | rfl | rfl <;> decide

lemma unescape_pass2 (v : List Char) (hv : ∀ c ∈ v, c ∈ specialChars) :
    replaceSub2 '\\' 'r' ['\r'] (flatMapL tok1 v) = flatMapL tok2 v := by
  refine pass_general 'r' '\r' tok1 tok2 ?_ ?_ v hv
  · intro c hc
    simp only [specialChars, List.mem_cons, List.not_mem_nil, or_false] at hc
    rcases hc with rfl | rfl | rfl | rfl | rfl
    · exact Or.inr ⟨by decide, Or.inr (Or.inr (by decide))⟩
    · exact Or.inr ⟨by decide, Or.inr (Or.inl ⟨'"', by decide, by decide, by decide⟩)⟩
    · exact Or.inr ⟨by decide, Or.inl ⟨'\n', by decide, by decide⟩⟩
    · exact Or.inl ⟨by decide, by decide⟩
    · exact Or.inr ⟨by decide, Or.inr (Or.inl ⟨'t', by decide, by decide, by decide⟩)⟩
  · intro c hc
    simp only [specialChars, List.mem_cons, List.not_mem_nil, or_false] at hc
    rcases hc with rfl | rfl | rfl | rfl | rfl <;> decide

lemma unescape_pass3 (v : List Char) (hv : ∀ c ∈ v, c ∈ specialChars) :
    replaceSub2 '\\' 't' ['\t'] (flatMapL tok2 v) = flatMapL tok3 v := by
  refine pass_general 't' '\t' tok2 tok3 ?_ ?_ v hv
  · intro c hc
    simp only [specialChars, List.mem_cons, List.not_mem_nil, or_false] at hc
    rcases hc with rfl | rfl | rfl | rfl | rfl
    · exact Or.inr ⟨by decide, Or.inr (Or.inr (by decide))⟩
    · exact Or.inr ⟨by decide, Or.inr (Or.inl ⟨'"', by decide, by decide, by decide⟩)⟩
    · exact Or.inr ⟨by decide, Or.inl ⟨'\n', by decide, by decide⟩⟩
    · exact Or.inr ⟨by decide, Or.inl ⟨'\r', by decide, by decide⟩⟩
    · exact Or.inl ⟨by decide, by decide⟩
  · intro c hc
    simp only [specialChars, List.mem_cons, List.not_mem_nil, or_false] at hc
    rcases hc with rfl | rfl | rfl | rfl | rfl <;> decide

lemma unescape_pass4 (v : List Char) (hv : ∀ c ∈ v, c ∈ specialChars) :
    replaceSub2 '\\' '"' ['"'] (flatMapL tok3 v) = flatMapL tok4 v := by
  refine pass_general '"' '"' tok3 tok4 ?_ ?_ v hv
  · intro c hc
    simp only [specialChars, List.mem_cons, List.not_mem_nil, or_false] at hc
    rcases hc with rfl | rfl | rfl | rfl | rfl
    · exact Or.inr ⟨by decide, Or.inr (Or.inr (by decide))⟩
    · exact Or.inl ⟨by decide, by decide⟩
    · exact Or.inr ⟨by decide, Or.inl ⟨'\n', by decide, by decide⟩⟩
    · exact Or.inr ⟨by decide, Or.inl ⟨'\r', by decide, by decide⟩⟩
    · exact Or.inr ⟨by decide, Or.inl ⟨'\t', by decide, by decide⟩⟩
  · intro c hc
    simp only [specialChars, List.mem_cons, List.not_mem_nil, or_false] at hc
    rcases hc with rfl | rfl | rfl | rfl | rfl <;> decide

/-- The final unescape pass undoes the backslash doubling and recovers the
original string. -/
lemma unescape_pass5 (v : List Char) (hv : ∀ c ∈ v, c ∈ specialChars) :
    replaceSub2 '\\' '\\' ['\\'] (flatMapL tok4 v) = v := by
  induction v with
  | nil => simp [flatMapL, replaceSub2]
  | cons c rest ih =>
    have hrest : ∀ c ∈ rest, c ∈ specialChars :=
      fun d hd => hv d (List.mem_cons_of_mem _ hd)
    have hc : c ∈ specialChars := hv c (List.mem_cons_self _ _)
    have ihr := ih hrest
    have hsingle : ∀ d : Char, ¬ d = '\\' →
        tok4 c = [d] →
        replaceSub2 '\\' '\\' ['\\'] (flatMapL tok4 (c :: rest)) =
          d :: replaceSub2 '\\' '\\' ['\\'] (flatMapL tok4 rest) := by
      intro d hd htok
      rw [show flatMapL tok4 (c :: rest) = d :: flatMapL tok4 rest by
            simp [flatMapL, htok]]
      rcases hS : flatMapL tok4 rest with _ | ⟨e, w⟩
      · simp [replaceSub2]
      · rw [replaceSub2, if_neg (by rintro ⟨h1, -⟩; exact hd h1)]
    simp only [specialChars, List.mem_cons, List.not_mem_nil, or_false] at hc
    rcases hc with rfl | rfl | rfl | rfl | rfl
    · rw [show flatMapL tok4 ('\\' :: rest) = '\\' :: '\\' :: flatMapL tok4 rest by
            simp [flatMapL, tok4, tok3, tok2, tok1, escTok]]
      rw [replaceSub2, if_pos ⟨rfl, rfl⟩, ihr]
      rfl
    · rw [hsingle '"' (by decide) (by decide), ihr]
    · rw [hsingle '\n' (by decide) (by decide), ihr]
    · rw [hsingle '\r' (by decide) (by decide), ihr]
    · rw [hsingle '\t' (by decide) (by decide), ihr]

/-- C1: for every string made up of any mix of backslash, double-quote,
newline, tab and carriage-return characters, the metadata-value escaping of
`bibtexToMetadata` followed by the unescaping of `metadataToBibtex` is the
identity. -/
theorem escape_unescape_roundtrip (v : List Char)
    (hv : ∀ c ∈ v, c ∈ specialChars) :
    unescapeValue (escapeValue v) = v := by
  rw [escapeValue_eq_flatMapL]
  unfold unescapeValue
  rw [unescape_pass1 v hv, unescape_pass2 v hv, unescape_pass3 v hv,
    unescape_pass4 v hv, unescape_pass5 v hv]

/-- Witness for C1 at a concrete all-special-character string. -/
theorem escape_unescape_roundtrip_witness :
    (∀ c ∈ ['\\', '"', '\n', '\t', '\r', '\\'], c ∈ specialChars) ∧
      unescapeValue (escapeValue ['\\', '"', '\n', '\t', '\r', '\\']) =
        ['\\', '"', '\n', '\t', '\r', '\\'] :=
  ⟨by decide, escape_unescape_roundtrip _ (by decide)⟩

/-! ### Cite-key extraction (src/src/utils/clipboard-parser.ts, `extractCiteKey`) -/

/-- JS `\w`: ASCII letters, digits and underscore. -/
def isWordChar (c : Char) : Bool := c.isAlphanum || c == '_'

/-- The anchored match `/^@\w+\{([^,]+),/`: `@`, a maximal nonempty word-run,
`{`, a nonempty comma-free capture, then `,`. -/
def matchCiteKeyHeader (s : List Char) : Option (List Char) :=
  match s with
  | '@' :: rest =>
    let tw := rest.takeWhile isWordChar
    let rest2 := rest.dropWhile isWordChar
    if tw = [] then none
    else
      match rest2 with
      | '\x7b' :: rest3 =>
        let key := rest3.takeWhile (fun c => c ≠ ',')
        let rest4 := rest3.dropWhile (fun c => c ≠ ',')
        if key = [] then none
        else
          match rest4 with
          | ',' :: _ => some key
          | _ => none
      | _ => none
  | _ => none

/-- Replace every maximal run of characters satisfying `p` by a single `'-'`
(JS `replace` with a global character-class-run pattern); `inRun` records
whether the previous character was part of a run. -/
def dashRuns (p : Char → Bool) (inRun : Bool) : List Char → List Char
  | [] => []
  | c :: rest =>
    if p c then (if inRun then [] else ['-']) ++ dashRuns p true rest
    else c :: dashRuns p false rest

/-- JS replace of the anchored pattern hyphen-at-start or hyphen-at-end with
the empty string: removes one leading and one trailing hyphen. -/
def stripEdgeDashes (s : List Char) : List Char :=
  let s1 := if s.head? = some '-' then s.tail else s
  if s1.getLast? = some '-' then s1.dropLast else s1

/-- The cite-key normalization in `extractCiteKey`: replace runs of
non-alphanumeric characters by a hyphen, collapse runs of hyphens, then trim
one leading and one trailing hyphen. -/
def normalizeCiteKey (raw : List Char) : List Char :=
  stripEdgeDashes
    (dashRuns (fun c => c == '-') false
      (dashRuns (fun c => !c.isAlphanum) false raw))

/-- `extractCiteKey` (clipboard-parser.ts lines 24-31); `none` models the
thrown "Could not extract cite key" error. -/
def extractCiteKey (bibtex : List Char) : Option (List Char) :=
  (matchCiteKeyHeader bibtex).map normalizeCiteKey

/-- Absence of two adjacent hyphens. -/
def noDoubleDash : List Char → Bool
  | a :: b :: t => !(a == '-' && b == '-') && noDoubleDash (b :: t)
  | _ => true

lemma dashRuns_mem (p : Char → Bool) (flag : Bool) (s : List Char) (c : Char)
    (hc : c ∈ dashRuns p flag s) : c = '-' ∨ (p c = false ∧ c ∈ s) := by
  induction s generalizing flag with
  | nil => simp [dashRuns] at hc
  | cons d rest ih =>
    rw [dashRuns] at hc
    by_cases hd : p d
    · rw [if_pos hd] at hc
      rcases List.mem_append.mp hc with h | h
      · left
        rcases hdd : (if flag then ([] : List Char) else ['-']) with _ | ⟨e, es⟩ <;>
          rw [hdd] at h
        · simp at h
        · have : e = '-' ∧ es = [] := by
            split at hdd
            · cases hdd
            · injection hdd with h1 h2
              exact ⟨h1.symm, h2.symm⟩
          rcases this with ⟨rfl, rfl⟩
          simpa using h
      · rcases ih true h with h' | ⟨h1, h2⟩
        · exact Or.inl h'
        · exact Or.inr ⟨h1, List.mem_cons_of_mem _ h2⟩
    · rw [if_neg hd] at hc
      rcases List.mem_cons.mp hc with h | h
      · subst h
        exact Or.inr ⟨Bool.eq_false_iff.mpr hd, List.mem_cons_self _ _⟩
      · rcases ih false h with h' | ⟨h1, h2⟩
        · exact Or.inl h'
        · exact Or.inr ⟨h1, List.mem_cons_of_mem _ h2⟩

lemma head_dropWhile_false (p : Char → Bool) (l : List Char) (e : Char)
    (h : (l.dropWhile p).head? = some e) : p e = false := by
  induction l with
  | nil => simp [List.dropWhile] at h
  | cons c rest ih =>
    by_cases hc : p c
    · rw [List.dropWhile_cons_of_pos hc] at h
      exact ih h
    · rw [List.dropWhile_cons_of_neg hc] at h
      simp only [List.head?] at h
      cases h
      exact Bool.eq_false_iff.mpr hc

lemma noDD_dashRuns_aux (s : List Char) :
    noDoubleDash (dashRuns (fun c => c == '-') true s) = true ∧
    (dashRuns (fun c => c == '-') true s).head? ≠ some '-' ∧
    noDoubleDash (dashRuns (fun c => c == '-') false s) = true := by
  induction s with
  | nil => exact ⟨rfl, by simp [dashRuns], rfl⟩
  | cons c rest ih =>
    by_cases hc : c = '-'
    · subst hc
      have hp : ((fun c => c == '-') '-') = true := by decide
      constructor
      · rw [dashRuns, if_pos hp]
        simpa using ih.1
      constructor
      · rw [dashRuns, if_pos hp]
        simpa using ih.2.1
      · rw [dashRuns, if_pos hp]
        simp only [if_neg (Bool.false_ne_true), List.singleton_append]
        rcases hX : dashRuns (fun c => c == '-') true rest with _ | ⟨e, w⟩
        · rfl
        · have he : ¬ e = '-' := by
            have := ih.2.1
            rw [hX] at this
            simpa using this
          rw [noDoubleDash]
          have h1 := ih.1
          rw [hX] at h1
          simp [beq_false_of_ne he, h1]
    · have hp : ((fun c => c == '-') c) = false := by
        simpa using hc
      have hcons : ∀ Y, noDoubleDash Y = true →
          noDoubleDash (c :: Y) = true := by
        intro Y hY
        cases Y with
        | nil => rfl
        | cons e w =>
          rw [noDoubleDash]
          simp [beq_false_of_ne hc, hY]
      refine ⟨?_, ?_, ?_⟩
      · rw [dashRuns, if_neg (by simp [hp])]
        exact hcons _ ih.2.2
      · rw [dashRuns, if_neg (by simp [hp])]
        simpa using hc
      · rw [dashRuns, if_neg (by simp [hp])]
        exact hcons _ ih.2.2

lemma noDD_dashRuns (s : List Char) :
    noDoubleDash (dashRuns (fun c => c == '-') false s) = true :=
  (noDD_dashRuns_aux s).2.2

lemma noDD_tail (a : Char) (t : List Char) (h : noDoubleDash (a :: t) = true) :
    noDoubleDash t = true := by
  cases t with
  | nil => rfl
  | cons b t' =>
    rw [noDoubleDash, Bool.and_eq_true] at h
    exact h.2

lemma noDD_dropLast (s : List Char) (h : noDoubleDash s = true) :
    noDoubleDash s.dropLast = true := by
  induction s with
  | nil => rfl
  | cons a t ih =>
    cases t with
    | nil => rfl
    | cons b t' =>
      cases t' with
      | nil => rfl
      | cons c t'' =>
        have h' := noDD_tail a _ h
        have hab : (a == '-' && b == '-') = false := by
          rw [noDoubleDash, Bool.and_eq_true] at h
          have h1 := h.1
          simp only [Bool.not_and, Bool.or_eq_true, Bool.not_eq_true',
            beq_eq_false_iff_ne, ne_eq] at h1
          rcases h1 with h1 | h1 <;> simp [h1]
        show noDoubleDash (a :: b :: (c :: t'').dropLast) = true
        rw [noDoubleDash, hab]
        simpa using ih h'

lemma noDD_head_of_last_dash (a : Char) (b : Char) (t : List Char)
    (h : noDoubleDash (a :: t) = true) (hl : t.getLast? = some b) (hb : b = '-')
    (ht : t.dropLast = []) : ¬ a = '-' := by
  cases t with
  | nil => simp at hl
  | cons c t' =>
    cases t' with
    | nil =>
      simp at hl
      subst hl hb
      rw [noDoubleDash] at h
      intro ha
      subst ha
      simp at h
    | cons d t'' => simp at ht

lemma stripTrail_getLast (s : List Char) (h : noDoubleDash s = true) :
    (if s.getLast? = some '-' then s.dropLast else s).getLast? ≠ some '-' := by
  induction s with
  | nil => simp
  | cons a t ih =>
    cases t with
    | nil =>
      by_cases ha : a = '-'
      · subst ha; simp
      · rw [if_neg (by simpa using ha)]
        simpa using ha
    | cons b t' =>
      have h' : noDoubleDash (b :: t') = true := noDD_tail a _ h
      have ihr := ih h'
      rw [show (a :: b :: t').getLast? = (b :: t').getLast? from rfl]
      by_cases hl : (b :: t').getLast? = some '-'
      · rw [if_pos hl]
        rw [if_pos hl] at ihr
        rw [show (a :: b :: t').dropLast = a :: (b :: t').dropLast from rfl]
        rcases hdl : (b :: t').dropLast with _ | ⟨f, fs⟩
        · have : ¬ a = '-' := by
            rcases hlv : (b :: t').getLast? with _ | ⟨e⟩
            · simp at hlv
            · have he : e = '-' := by rw [hlv] at hl; cases hl; rfl
              exact noDD_head_of_last_dash a e (b :: t') h hlv he hdl
          simpa using this
        · rw [hdl] at ihr
          rw [show (a :: f :: fs).getLast? = (f :: fs).getLast? from rfl]
          exact ihr
      · rw [if_neg hl]
        rw [show (a :: b :: t').getLast? = (b :: t').getLast? from rfl]
        exact hl

lemma head?_dropLast (s : List Char) (c : Char) (h : s.dropLast.head? = some c) :
    s.head? = some c := by
  cases s with
  | nil => simp at h
  | cons a t =>
    cases t with
    | nil => simp at h
    | cons b t' =>
      rw [show (a :: b :: t').dropLast = a :: (b :: t').dropLast from rfl] at h
      simpa using h

lemma stripEdgeDashes_spec (s : List Char) (h : noDoubleDash s = true) :
    (stripEdgeDashes s).head? ≠ some '-' ∧
    (stripEdgeDashes s).getLast? ≠ some '-' ∧
    noDoubleDash (stripEdgeDashes s) = true ∧
    ∀ c ∈ stripEdgeDashes s, c ∈ s := by
  have hE : stripEdgeDashes s =
      (if (if s.head? = some '-' then s.tail else s).getLast? = some '-'
        then (if s.head? = some '-' then s.tail else s).dropLast
        else (if s.head? = some '-' then s.tail else s)) := rfl
  rw [hE]
  set s1 := if s.head? = some '-' then s.tail else s with hs1
  have hs1noDD : noDoubleDash s1 = true := by
    rw [hs1]
    split
    · cases s with
      | nil => rfl
      | cons a t => exact noDD_tail a t h
    · exact h
  have hs1head : s1.head? ≠ some '-' := by
    rw [hs1]
    split
    case isTrue hh =>
      cases s with
      | nil => simp at hh
      | cons a t =>
        have ha : a = '-' := by simpa using hh
        subst ha
        cases t with
        | nil => simp
        | cons b t' =>
          rw [noDoubleDash] at h
          have hb : ¬ b = '-' := by
            intro hb
            subst hb
            simp at h
          simpa using hb
    case isFalse hh => exact hh
  have hs1mem : ∀ c ∈ s1, c ∈ s := by
    rw [hs1]
    split
    · intro c hc
      exact (List.tail_sublist s).mem hc
    · intro c hc
      exact hc
  refine ⟨?_, stripTrail_getLast s1 hs1noDD, ?_, ?_⟩
  · split
    case isTrue hh =>
      intro hhead
      exact hs1head (head?_dropLast s1 '-' hhead)
    case isFalse hh => exact hs1head
  · split
    · exact noDD_dropLast s1 hs1noDD
    · exact hs1noDD
  · split
    · intro c hc
      exact hs1mem c ((List.dropLast_sublist s1).mem hc)
    · exact hs1mem

/-- C6 counterexample: the entry text `@book{_,` is accepted by cite-key
extraction (the raw key `_` is nonempty), but the returned cite key is the
empty string, which is not a nonempty `[A-Za-z0-9-]+` token. -/
theorem extractCiteKey_empty_key_cex :
    extractCiteKey ("@book\x7b_,".toList) = some [] := by decide

/-- C6 (amended): for every entry text accepted by cite-key extraction, every
character of the returned cite key is alphanumeric or a hyphen, the key
contains no two consecutive hyphens, and it neither starts nor ends with a
hyphen; the key can however be empty (exactly when the raw key contains no
alphanumeric character), so it matches `[A-Za-z0-9-]*`, not `[A-Za-z0-9-]+`. -/
theorem extractCiteKey_normalized (bt k : List Char)
    (h : extractCiteKey bt = some k) :
    (∀ c ∈ k, c.isAlphanum = true ∨ c = '-') ∧
    noDoubleDash k = true ∧
    k.head? ≠ some '-' ∧ k.getLast? ≠ some '-' := by
  unfold extractCiteKey at h
  rcases hm : matchCiteKeyHeader bt with _ | raw
  · rw [hm] at h; cases h
  · rw [hm] at h
    rw [Option.map_some'] at h
    injection h with h
    subst h
    have hw : noDoubleDash (dashRuns (fun c => c == '-') false
        (dashRuns (fun c => !c.isAlphanum) false raw)) = true := noDD_dashRuns _
    obtain ⟨h1, h2, h3, h4⟩ := stripEdgeDashes_spec _ hw
    refine ⟨?_, h3, h1, h2⟩
    intro c hc
    have hcw := h4 c hc
    rcases dashRuns_mem _ _ _ _ hcw with h' | ⟨h5, h6⟩
    · exact Or.inr h'
    · rcases dashRuns_mem _ _ _ _ h6 with h' | ⟨h7, _⟩
      · exact absurd h' (by simpa using h5)
      · left
        simpa using h7

/-- Witness for the amended C6 at the entry text `@book{Wright2013,`. -/
theorem extractCiteKey_normalized_witness :
    extractCiteKey ("@book\x7bWright2013,".toList) = some ("Wright2013".toList) ∧
      ((∀ c ∈ ("Wright2013".toList), c.isAlphanum = true ∨ c = '-') ∧
        noDoubleDash ("Wright2013".toList) = true ∧
        ("Wright2013".toList).head? ≠ some '-' ∧
        ("Wright2013".toList).getLast? ≠ some '-') :=
  ⟨by decide,
    extractCiteKey_normalized ("@book\x7bWright2013,".toList) ("Wright2013".toList)
      (by decide)⟩

/-! ### Shared text utilities (JS whitespace, trim, lowercase, line split) -/

/-- JS whitespace (ASCII part): space, tab, newline, carriage return,
vertical tab, form feed. -/
def isSpaceJS (c : Char) : Bool :=
  c == ' ' || c == '\t' || c == '\n' || c == '\r' || c == '\x0b' || c == '\x0c'

/-- JS `String.trim`. -/
def trimL (s : List Char) : List Char :=
  ((s.dropWhile isSpaceJS).reverse.dropWhile isSpaceJS).reverse

/-- JS `String.toLowerCase` (ASCII). -/
def toLowerL (s : List Char) : List Char := s.map Char.toLower

/-- JS `String.split('\n')`. -/
def splitNL : List Char → List (List Char)
  | [] => [[]]
  | c :: rest =>
    if c = '\n' then [] :: splitNL rest
    else
      match splitNL rest with
      | [] => [[c]]
      | p :: ps => (c :: p) :: ps

/-! ### The metadata parser `metadataToBibtex` (src/unnamed/part_003 lines 70-131) -/

/-- Split one metadata line at its first colon; `none` models a skipped
colon-free line.  The key is trimmed and lower-cased (the code lower-cases on
insertion), the raw value is trimmed. -/
def parseLine (line : List Char) : Option (List Char × List Char) :=
  let key := line.takeWhile (fun c => c ≠ ':')
  if key.length = line.length then none
  else some (toLowerL (trimL key), trimL (line.drop (key.length + 1)))

/-- Strip one layer of matching surrounding quotes and unescape
(part_003 lines 83-98); values not wrapped in quotes pass through. -/
def processValue (v : List Char) : List Char :=
  if 2 ≤ v.length ∧
      ((v.head? = some '"' ∧ v.getLast? = some '"') ∨
       (v.head? = some '\'' ∧ v.getLast? = some '\'')) then
    unescapeValue ((v.drop 1).dropLast)
  else v

/-- The `fields` record: later lines overwrite earlier ones, modelled by
prepending and first-match lookup. -/
def parseFieldsAux (acc : List (List Char × List Char)) :
    List (List Char) → List (List Char × List Char)
  | [] => acc
  | line :: rest =>
    parseFieldsAux
      (match parseLine line with
        | none => acc
        | some (k, v) => (k, processValue v) :: acc)
      rest

/-- All key/value pairs of a metadata block, newest first. -/
def parseFields (lines : List (List Char)) : List (List Char × List Char) :=
  parseFieldsAux [] lines

/-- `fields[key]` lookup (last write wins). -/
def lookupField (m : List (List Char × List Char)) (k : List Char) :
    Option (List Char) :=
  (m.find? (fun p => p.1 == k)).map (fun p => p.2)

/-- The serialization order of `metadataToBibtex` (part_003 lines 112-118). -/
def fieldOrderMB : List (List Char) :=
  ["author", "title", "booktitle", "editor", "year",
   "publisher", "address", "edition", "journal", "volume",
   "number", "pages", "chapter", "series", "organization",
   "school", "institution", "howpublished", "month",
   "doi", "isbn", "issn", "url", "note"].map String.toList

/-- The `  field = {value},` lines emitted for present (truthy) fields. -/
def mbFieldLines (fields : List (List Char × List Char)) : List (List Char) :=
  fieldOrderMB.filterMap fun f =>
    match lookupField fields f with
    | some v =>
      if v ≠ [] ∧ f ≠ ("type".toList) ∧ f ≠ ("citekey".toList) then
        some ("  ".toList ++ f ++ " = \x7b".toList ++ v ++ "\x7d,".toList)
      else none
    | none => none

/-- `metadataToBibtex` (part_003 lines 70-131): `none` models the `null`
returns (missing or empty `type`/`citekey`; the catch-all never fires in the
model, which is total). -/
def metadataToBibtex (metadata : List Char) : Option (List Char) :=
  let fields := parseFields (splitNL (trimL metadata))
  match lookupField fields ("type".toList), lookupField fields ("citekey".toList) with
  | some t, some k =>
    if t = [] ∨ k = [] then none
    else
      some (List.intercalate ['\n']
        (('@' :: t ++ '\x7b' :: (k ++ [','])) :: (mbFieldLines fields ++ [['\x7d']])))
  | some _, none => none
  | none, _ => none

lemma parseFieldsAux_append (acc : List (List Char × List Char))
    (xs ys : List (List Char)) :
    parseFieldsAux acc (xs ++ ys) = parseFieldsAux (parseFieldsAux acc xs) ys := by
  induction xs generalizing acc with
  | nil => simp [parseFieldsAux]
  | cons l rest ih =>
    rw [List.cons_append, parseFieldsAux, parseFieldsAux]
    exact ih _

lemma parseLine_no_colon (l : List Char) (h : ∀ c ∈ l, c ≠ ':') :
    parseLine l = none := by
  unfold parseLine
  have : l.takeWhile (fun c => c ≠ ':') = l := by
    rw [List.takeWhile_eq_self_iff]
    intro c hc
    simpa using h c hc
  rw [if_pos (by rw [this])]

lemma lookup_parseFieldsAux_none (lines : List (List Char)) (k : List Char)
    (acc : List (List Char × List Char)) (hacc : lookupField acc k = none)
    (h : ∀ l ∈ lines, (parseLine l).map Prod.fst ≠ some k) :
    lookupField (parseFieldsAux acc lines) k = none := by
  induction lines generalizing acc with
  | nil => simpa [parseFieldsAux] using hacc
  | cons l rest ih =>
    rw [parseFieldsAux]
    refine ih _ ?_ fun l' hl' => h l' (List.mem_cons_of_mem _ hl')
    rcases hp : parseLine l with _ | ⟨k', v⟩
    · exact hacc
    · have hk' : k' ≠ k := by
        have := h l (List.mem_cons_self _ _)
        rw [hp] at this
        simpa using this
      unfold lookupField at hacc ⊢
      rw [List.find?_cons_of_neg]
      · exact hacc
      · simpa using hk'

lemma lookup_parseFields_none (lines : List (List Char)) (k : List Char)
    (h : ∀ l ∈ lines, (parseLine l).map Prod.fst ≠ some k) :
    lookupField (parseFields lines) k = none := by
  unfold parseFields
  exact lookup_parseFieldsAux_none lines k [] rfl h

/-- C9: a metadata block that lacks a `type` line or lacks a `citekey` line
makes `metadataToBibtex` return null (the model is total, so it never throws),
and lines without a colon are skipped rather than treated as errors. -/
theorem metadataToBibtex_malformed_returns_none :
    (∀ metadata : List Char,
      ((∀ l ∈ splitNL (trimL metadata),
          (parseLine l).map Prod.fst ≠ some ("type".toList)) ∨
       (∀ l ∈ splitNL (trimL metadata),
          (parseLine l).map Prod.fst ≠ some ("citekey".toList))) →
      metadataToBibtex metadata = none) ∧
    (∀ pre post l, (∀ c ∈ l, c ≠ ':') →
      parseFields (pre ++ l :: post) = parseFields (pre ++ post)) := by
  constructor
  · intro metadata h
    simp only [metadataToBibtex]
    rcases h with h | h
    · rw [lookup_parseFields_none _ _ h]
    · rw [lookup_parseFields_none _ _ h]
      rcases ht : lookupField (parseFields (splitNL (trimL metadata)))
          ("type".toList) with _ | t <;> rfl
  · intro pre post l h
    unfold parseFields
    rw [parseFieldsAux_append, parseFieldsAux_append, parseFieldsAux,
      parseLine_no_colon l h]

/-- Witness for C9: a block with only an `author` line (no `type` line) maps
to null, and a colon-free line is skipped. -/
theorem metadataToBibtex_malformed_witness :
    (∀ l ∈ splitNL (trimL ("author: \"Smith\"".toList)),
        (parseLine l).map Prod.fst ≠ some ("type".toList)) ∧
      metadataToBibtex ("author: \"Smith\"".toList) = none ∧
      (∀ c ∈ ("no colon here".toList), c ≠ ':') ∧
      parseFields ([("type: book".toList)] ++ ("no colon here".toList) ::
          [("citekey: K".toList)]) =
        parseFields ([("type: book".toList)] ++ [("citekey: K".toList)]) :=
  ⟨by decide,
    metadataToBibtex_malformed_returns_none.1 _ (Or.inl (by decide)),
    by decide,
    metadataToBibtex_malformed_returns_none.2 [("type: book".toList)]
      [("citekey: K".toList)] ("no colon here".toList) (by decide)⟩

/-! ### Clipboard splitting (src/src/utils/clipboard-parser.ts, `parseLogosClipboard`) -/

/-- JS `split(/\n(?=@)/)`: split at every newline immediately followed by `@`
(the newline is consumed, the `@` is kept). -/
def splitClip : List Char → List (List Char)
  | [] => [[]]
  | c :: rest =>
    if c = '\n' ∧ rest.head? = some '@' then [] :: splitClip rest
    else
      match splitClip rest with
      | [] => [[c]]
      | p :: ps => (c :: p) :: ps

/-- Whether a string contains a split boundary (a newline followed by `@`). -/
def hasBoundaryB : List Char → Bool
  | [] => false
  | c :: rest =>
    (decide (c = '\n') && decide (rest.head? = some '@')) || hasBoundaryB rest

/-- Try the page-extraction pattern at the start of the string:
`pages` (case-insensitive), optional whitespace, `=`, optional whitespace,
`{`, a nonempty brace-free capture, `}`. -/
def matchPagesExtractAt (s : List Char) : Option (List Char) :=
  if toLowerL (s.take 5) = ("pages".toList) then
    match (s.drop 5).dropWhile isSpaceJS with
    | '=' :: r2 =>
      match r2.dropWhile isSpaceJS with
      | '\x7b' :: r4 =>
        let cap := r4.takeWhile (fun c => c ≠ '\x7d')
        if cap = [] then none
        else
          match r4.dropWhile (fun c => c ≠ '\x7d') with
          | '\x7d' :: _ => some cap
          | _ => none
      | _ => none
    | _ => none
  else none

/-- First match of the page-extraction pattern (JS `String.match`, leftmost). -/
def searchPagesExtract : List Char → Option (List Char)
  | [] => none
  | c :: r =>
    match matchPagesExtractAt (c :: r) with
    | some cap => some cap
    | none => searchPagesExtract r

/-- Try the page-removal pattern at the start of the string, returning the
remainder after the match: `pages` (ci), whitespace, `=`, whitespace, `{`,
a possibly-empty brace-free body, `}`, an optional comma, then any whitespace
(the greedy whitespace run absorbs the optional trailing newline). -/
def matchPagesRemoveAt (s : List Char) : Option (List Char) :=
  if toLowerL (s.take 5) = ("pages".toList) then
    match (s.drop 5).dropWhile isSpaceJS with
    | '=' :: r2 =>
      match r2.dropWhile isSpaceJS with
      | '\x7b' :: r4 =>
        match r4.dropWhile (fun c => c ≠ '\x7d') with
        | '\x7d' :: r6 =>
          let r7 := if r6.head? = some ',' then r6.tail else r6
          some (r7.dropWhile isSpaceJS)
        | _ => none
      | _ => none
    | _ => none
  else none

lemma matchPagesRemoveAt_shrink (s rest : List Char)
    (h : matchPagesRemoveAt s = some rest) : rest.length < s.length := by
  unfold matchPagesRemoveAt at h
  split at h
  case isFalse => cases h
  case isTrue hp =>
    have h5 : 5 ≤ s.length := by
      have hlen := congrArg List.length hp
      simp only [toLowerL, List.length_map, List.length_take] at hlen
      have : s.length ⊓ 5 = 5 := by simpa using hlen
      omega
    rcases h1 : (s.drop 5).dropWhile isSpaceJS with _ | ⟨e, r2⟩ <;> rw [h1] at h
    · cases h
    · have hr2 : r2.length + 1 ≤ s.length - 5 := by
        have := (List.dropWhile_sublist (l := s.drop 5) isSpaceJS).length_le
        rw [h1] at this
        simpa [List.length_drop] using this
      split at h
      case h_2 => cases h
      case h_1 e' r2' heq =>
        injection heq with he hr
        subst hr
        rcases h2 : r2.dropWhile isSpaceJS with _ | ⟨f, r4⟩ <;> rw [h2] at h
        · cases h
        · have hr4 : r4.length + 1 ≤ r2.length := by
            have := (List.dropWhile_sublist (l := r2) isSpaceJS).length_le
            rw [h2] at this
            simpa using this
          split at h
          case h_2 => cases h
          case h_1 f' r4' heq2 =>
            injection heq2 with hf hr'
            subst hr'
            rcases h3 : r4.dropWhile (fun c => c ≠ '\x7d') with _ | ⟨g, r6⟩ <;>
              rw [h3] at h
            · cases h
            · have hr6 : r6.length + 1 ≤ r4.length := by
                have := (List.dropWhile_sublist (l := r4)
                  (fun c => c ≠ '\x7d')).length_le
                rw [h3] at this
                simpa using this
              split at h
              case h_2 => cases h
              case h_1 g' r6' heq3 =>
                injection heq3 with hg hr''
                subst hr''
                injection h with h
                subst h
                have hr7 : ((if r6.head? = some ',' then r6.tail
                    else r6).dropWhile isSpaceJS).length ≤ r6.length := by
                  have h7 := (List.dropWhile_sublist
                    (l := if r6.head? = some ',' then r6.tail else r6)
                    isSpaceJS).length_le
                  have h8 : (if r6.head? = some ',' then r6.tail
                      else r6).length ≤ r6.length := by
                    split
                    · simp [List.length_tail]
                    · exact le_refl _
                  omega
                omega

/-- JS `replace(pattern, "")` with the global page-removal pattern. -/
def removePages : List Char → List Char
  | [] => []
  | c :: r =>
    match hm : matchPagesRemoveAt (c :: r) with
    | some rest => removePages rest
    | none => c :: removePages r
termination_by s => s.length
decreasing_by
  · exact matchPagesRemoveAt_shrink _ _ hm
  · simp only [List.length_cons]
    omega

/-- The result record of `parseLogosClipboard`. -/
structure ClipResult where
  mainText : List Char
  bibtex : List Char
  page : Option (List Char)
  deriving DecidableEq, Repr

/-- `parseLogosClipboard` (clipboard-parser.ts lines 5-22): split before the
bibtex, extract the page before removing the `pages` field. -/
def parseLogosClipboard (clipboard : List Char) : ClipResult :=
  let parts := splitClip clipboard
  let mainText := trimL (parts.headD [])
  let bibtex0 := match parts.get? 1 with
    | some p => trimL p
    | none => []
  { mainText := mainText
    bibtex := removePages bibtex0
    page := searchPagesExtract bibtex0 }

lemma splitClip_ne_nil (s : List Char) : splitClip s ≠ [] := by
  cases s with
  | nil => simp [splitClip]
  | cons c rest =>
    rw [splitClip]
    split
    · simp
    · split <;> simp

lemma splitClip_no_boundary (s : List Char) (h : hasBoundaryB s = false) :
    splitClip s = [s] := by
  induction s with
  | nil => rfl
  | cons c rest ih =>
    rw [hasBoundaryB, Bool.or_eq_false_iff, Bool.and_eq_false_iff] at h
    rw [splitClip]
    rw [if_neg (by
      rintro ⟨h1, h2⟩
      rcases h.1 with h' | h'
      · exact absurd (by simpa using h1) (by simpa using h')
      · exact absurd (by simpa using h2) (by simpa using h'))]
    rw [ih h.2]

lemma splitClip_append (x y p : List Char) (ps : List (List Char))
    (hx : hasBoundaryB x = false)
    (hxy : ¬(x.getLast? = some '\n' ∧ y.head? = some '@'))
    (hy : splitClip y = p :: ps) :
    splitClip (x ++ y) = (x ++ p) :: ps := by
  induction x with
  | nil => simpa using hy
  | cons c x' ih =>
    rw [hasBoundaryB, Bool.or_eq_false_iff, Bool.and_eq_false_iff] at hx
    rw [List.cons_append, splitClip]
    rw [if_neg (by
      rintro ⟨h1, h2⟩
      cases x' with
      | nil =>
        exact hxy ⟨by simpa using h1, by simpa using h2⟩
      | cons d x'' =>
        rcases hx.1 with h' | h'
        · exact absurd (by simpa using h1) (by simpa using h')
        · rw [List.cons_append] at h2
          exact absurd (by simpa using h2) (by simpa using h'))]
    have hxy' : ¬ (x'.getLast? = some '\n' ∧ y.head? = some '@') := by
      cases x' with
      | nil => simp
      | cons d x'' =>
        intro ⟨h1, h2⟩
        exact hxy ⟨by simpa using h1, h2⟩
    rw [ih hx.2 hxy']
    rfl

/-- C10: when the clipboard contains two or more newline-before-`@`
boundaries, only the segment between the first and the second becomes the
entry text: the result equals that of the clipboard truncated at the second
boundary, the main text is the trimmed first segment, and the entry text is
the trimmed second segment with its `pages` field removed (its value is the
extracted page).  Everything from the second `@`-line on is dropped. -/
theorem parseLogosClipboard_drops_after_second (a b c2 : List Char)
    (hb : b.head? = some '@') (hc : c2.head? = some '@')
    (hA : hasBoundaryB a = false) (hB : hasBoundaryB b = false) :
    parseLogosClipboard (a ++ '\n' :: (b ++ '\n' :: c2)) =
      parseLogosClipboard (a ++ '\n' :: b) ∧
    parseLogosClipboard (a ++ '\n' :: (b ++ '\n' :: c2)) =
      { mainText := trimL a
        bibtex := removePages (trimL b)
        page := searchPagesExtract (trimL b) } := by
  have hbne : b ≠ [] := by
    intro h
    rw [h] at hb
    simp at hb
  have hbapp : (b ++ '\n' :: c2).head? = some '@' := by
    cases b with
    | nil => exact absurd rfl hbne
    | cons e b' => simpa using hb
  have hs2 : splitClip ('\n' :: (b ++ '\n' :: c2)) =
      [] :: (b :: splitClip c2) := by
    rw [splitClip, if_pos ⟨rfl, hbapp⟩]
    have : splitClip ('\n' :: c2) = [] :: splitClip c2 := by
      rw [splitClip, if_pos ⟨rfl, hc⟩]
    rcases hsc : splitClip c2 with _ | ⟨p, ps⟩
    · exact absurd hsc (splitClip_ne_nil c2)
    · rw [hsc] at this
      rw [splitClip_append b ('\n' :: c2) [] (p :: ps) hB
        (by rintro ⟨-, h2⟩; simp at h2) this]
      simp [hsc]
  have hs1 : splitClip (a ++ '\n' :: (b ++ '\n' :: c2)) =
      a :: (b :: splitClip c2) := by
    have := splitClip_append a ('\n' :: (b ++ '\n' :: c2)) []
      (b :: splitClip c2) hA (by rintro ⟨-, h2⟩; simp at h2) hs2
    simpa using this
  have hs3 : splitClip (a ++ '\n' :: b) = a :: [b] := by
    have hsb : splitClip ('\n' :: b) = [] :: [b] := by
      rw [splitClip, if_pos ⟨rfl, hb⟩, splitClip_no_boundary b hB]
    have := splitClip_append a ('\n' :: b) [] [b] hA
      (by rintro ⟨-, h2⟩; simp at h2) hsb
    simpa using this
  constructor
  · unfold parseLogosClipboard
    rw [hs1, hs3]
    rfl
  · unfold parseLogosClipboard
    rw [hs1]
    rfl

/-- Witness for C10 on a concrete clipboard with two `@`-boundaries. -/
theorem parseLogosClipboard_drops_witness :
    (("@book\x7bK,".toList).head? = some '@' ∧
     ("@junk".toList).head? = some '@' ∧
     hasBoundaryB ("Quote text".toList) = false ∧
     hasBoundaryB ("@book\x7bK,".toList) = false) ∧
    (parseLogosClipboard
        ("Quote text".toList ++ '\n' :: ("@book\x7bK,".toList ++ '\n' ::
          ("@junk".toList))) =
      parseLogosClipboard ("Quote text".toList ++ '\n' :: ("@book\x7bK,".toList)) ∧
    parseLogosClipboard
        ("Quote text".toList ++ '\n' :: ("@book\x7bK,".toList ++ '\n' ::
          ("@junk".toList))) =
      { mainText := trimL ("Quote text".toList)
        bibtex := removePages (trimL ("@book\x7bK,".toList))
        page := searchPagesExtract (trimL ("@book\x7bK,".toList)) }) :=
  ⟨⟨by decide, by decide, by decide, by decide⟩,
    parseLogosClipboard_drops_after_second ("Quote text".toList)
      ("@book\x7bK,".toList) ("@junk".toList)
      (by decide) (by decide) (by decide) (by decide)⟩

/-! ### Per-field extraction (part_003 `extractField`: brace regex with one
nesting level, then quote regex; citation-formatter `extractField`: a single
combined-delimiter regex) -/

/-- Greedy body of the brace regex `([^{}]*(?:\{[^{}]*\}[^{}]*)*)\}`:
at depth 0 a `}` ends the capture (excluded), a `{` opens a one-level group;
inside a group a nested `{` or end of input makes the whole match fail. -/
def braceValue : Nat → List Char → Option (List Char)
  | _, [] => none
  | depth, c :: r =>
    if c = '\x7d' then
      if depth = 0 then some []
      else (braceValue 0 r).map (fun rest => c :: rest)
    else if c = '\x7b' then
      if depth = 0 then (braceValue 1 r).map (fun rest => c :: rest)
      else none
    else (braceValue depth r).map (fun rest => c :: rest)

/-- Try `field\s*=\s*\{...\}` (case-insensitive field name) at the start. -/
def matchBraceAt (field s : List Char) : Option (List Char) :=
  if toLowerL (s.take field.length) = field then
    match (s.drop field.length).dropWhile isSpaceJS with
    | '=' :: r2 =>
      match r2.dropWhile isSpaceJS with
      | '\x7b' :: r4 => braceValue 0 r4
      | _ => none
    | _ => none
  else none

/-- Leftmost match of the brace regex (JS unanchored `String.match`). -/
def searchBrace (field : List Char) : List Char → Option (List Char)
  | [] => none
  | c :: r =>
    match matchBraceAt field (c :: r) with
    | some v => some v
    | none => searchBrace field r

/-- Try `field\s*=\s*"([^"]*)"` (case-insensitive field name) at the start. -/
def matchQuoteAt (field s : List Char) : Option (List Char) :=
  if toLowerL (s.take field.length) = field then
    match (s.drop field.length).dropWhile isSpaceJS with
    | '=' :: r2 =>
      match r2.dropWhile isSpaceJS with
      | '"' :: r4 =>
        match r4.dropWhile (fun c => c != '"') with
        | '"' :: _ => some (r4.takeWhile (fun c => c != '"'))
        | _ => none
      | _ => none
    | _ => none
  else none

/-- Leftmost match of the quote regex. -/
def searchQuote (field : List Char) : List Char → Option (List Char)
  | [] => none
  | c :: r =>
    match matchQuoteAt field (c :: r) with
    | some v => some v
    | none => searchQuote field r

/-- `extractField` of `bibtexToMetadata` (part_003 lines 16-30): brace form
first, quote form as fallback, the winning capture trimmed; no match is `none`,
never an error. -/
def extractField (field bibtex : List Char) : Option (List Char) :=
  match searchBrace field bibtex with
  | some v => some (trimL v)
  | none =>
    match searchQuote field bibtex with
    | some v => some (trimL v)
    | none => none

/-- Try the citation-formatter regex `field\s*=\s*[{"]([^}"]+)[}"]` at the
start: either delimiter opens, the capture stops at the first `}` or `"`. -/
def matchSimpleAt (field s : List Char) : Option (List Char) :=
  if toLowerL (s.take field.length) = field then
    match (s.drop field.length).dropWhile isSpaceJS with
    | '=' :: r2 =>
      match r2.dropWhile isSpaceJS with
      | d :: r4 =>
        if d = '\x7b' ∨ d = '"' then
          match r4.takeWhile (fun c => c != '\x7d' && c != '"') with
          | [] => none
          | cap =>
            match r4.dropWhile (fun c => c != '\x7d' && c != '"') with
            | _ :: _ => some cap
            | [] => none
        else none
      | [] => none
    | _ => none
  else none

/-- Leftmost match of the citation-formatter regex. -/
def searchSimple (field : List Char) : List Char → Option (List Char)
  | [] => none
  | c :: r =>
    match matchSimpleAt field (c :: r) with
    | some v => some v
    | none => searchSimple field r

/-- `extractField` of the citation formatter
(src/src/utils/citation-formatter.ts lines 10-14 and 100-103 etc.). -/
def extractFieldSimple (field bibtex : List Char) : Option (List Char) :=
  (searchSimple field bibtex).map trimL

/-- JS `String.includes`. -/
def containsSub (needle : List Char) : List Char → Bool
  | [] => needle.isEmpty
  | c :: r => needle.isPrefixOf (c :: r) || containsSub needle r

/-! ### Inline citations (citation-formatter.ts, `formatInlineCitation`) -/

/-- The `BibliographyFormat` union type (src/src/types.ts). -/
inductive BibliographyFormat
  | latex
  | mla
  | apa
  | chicago
  deriving DecidableEq, Repr

/-- JS truthiness of a nullable string. -/
def truthyO : Option (List Char) → Bool
  | some v => !v.isEmpty
  | none => false

/-- JS `s.split(sep)[0]` for a multi-character separator: the prefix before
the first occurrence of `sep` (the whole string when `sep` is absent). -/
def upToSub (sep : List Char) : List Char → List Char
  | [] => []
  | c :: r => if sep.isPrefixOf (c :: r) then [] else c :: upToSub sep r

/-- JS `String.split` on a single character. -/
def splitCh (sep : Char) : List Char → List (List Char)
  | [] => [[]]
  | c :: rest =>
    if c = sep then [] :: splitCh sep rest
    else
      match splitCh sep rest with
      | [] => [[c]]
      | p :: ps => (c :: p) :: ps

/-- The first-author last-name derivation of `formatInlineCitation`
(lines 27-37): first author before `" and "`, then `Last, First` comma form
or the final space-separated token. -/
def lastNameOf (author : List Char) : List Char :=
  let authorParts := upToSub (" and ".toList) author
  if ',' ∈ authorParts then trimL (authorParts.takeWhile (fun c => c ≠ ','))
  else (splitCh ' ' (trimL authorParts)).getLastD []

/-- `formatInlineCitation` (citation-formatter.ts lines 8-74); `none` models
the exception thrown by `extractCiteKey`. -/
def formatInlineCitation (bibtex : List Char) (page : Option (List Char))
    (format : BibliographyFormat) : Option (List Char) :=
  let author := extractFieldSimple ("author".toList) bibtex
  let year := extractFieldSimple ("year".toList) bibtex
  match extractCiteKey bibtex with
  | none => none
  | some citeKey =>
    let withPage : List Char :=
      match page with
      | some p => if p ≠ [] then citeKey ++ ", p. ".toList ++ p else citeKey
      | none => citeKey
    if truthyO author = false ∧ truthyO year = false then some withPage
    else
      let authorLastName := match author with
        | some a => if a ≠ [] then lastNameOf a else []
        | none => []
      if authorLastName = [] ∨ truthyO year = false then some withPage
      else
        let y := year.getD []
        match format with
        | .apa =>
          some ('(' :: (authorLastName ++ ", ".toList ++ y ++
            (match page with
              | some p => if p ≠ [] then ", p. ".toList ++ p else []
              | none => []) ++ [')']))
        | .chicago =>
          some ('(' :: (authorLastName ++ ' ' :: y ++
            (match page with
              | some p => if p ≠ [] then ", ".toList ++ p else []
              | none => []) ++ [')']))
        | .mla =>
          some ('(' :: (authorLastName ++
            (match page with
              | some p => if p ≠ [] then ' ' :: p else []
              | none => []) ++ [')']))
        | .latex =>
          some (citeKey ++
            (match page with
              | some p =>
                if p ≠ [] then
                  ", ".toList ++
                    (if '-' ∈ p ∨ '–' ∈ p then "pp.".toList else "p.".toList) ++
                    ' ' :: p
                else []
              | none => []))

/-- The `@book{Wright2013, ...}` example entry from the specification. -/
def wrightBib : List Char :=
  ("@book\x7bWright2013,\n  author = \x7bWright, N. T.\x7d,\n  title = \x7bPaul and the Faithfulness of God\x7d,\n  publisher = \x7bFortress Press\x7d,\n  year = \x7b2013\x7d\n\x7d").toList

/-- C8: with an extractable author last name and year and a non-null, nonempty
page, the MLA inline citation is `(Last Page)` with no page-unit label
inserted, while the latex inline citation is the citekey with a `p.`/`pp.`
label that pluralizes exactly when the page contains a hyphen or en-dash; in
particular the Wright2013 book entry with page `145-150` yields
`(Wright 145-150)` in MLA, which contains no `p.` substring. -/
theorem formatInline_mla_latex (bt a y k p : List Char)
    (ha : extractFieldSimple ("author".toList) bt = some a)
    (hy : extractFieldSimple ("year".toList) bt = some y) (hyne : y ≠ [])
    (hk : extractCiteKey bt = some k)
    (hane : a ≠ []) (hln : lastNameOf a ≠ []) (hp : p ≠ []) :
    formatInlineCitation bt (some p) BibliographyFormat.mla =
      some ('(' :: (lastNameOf a ++ ' ' :: p ++ [')'])) ∧
    formatInlineCitation bt (some p) BibliographyFormat.latex =
      some (k ++ ", ".toList ++
        (if '-' ∈ p ∨ '–' ∈ p then "pp.".toList else "p.".toList) ++
        ' ' :: p) ∧
    formatInlineCitation wrightBib (some ("145-150".toList))
        BibliographyFormat.mla = some ("(Wright 145-150)".toList) ∧
    containsSub ("p.".toList) ("(Wright 145-150)".toList) = false := by
  have hmain : ∀ fmt, formatInlineCitation bt (some p) fmt =
      (match fmt with
        | BibliographyFormat.apa =>
          some ('(' :: (lastNameOf a ++ ", ".toList ++ y ++
            (", p. ".toList ++ p) ++ [')']))
        | BibliographyFormat.chicago =>
          some ('(' :: (lastNameOf a ++ ' ' :: y ++ (", ".toList ++ p) ++ [')']))
        | BibliographyFormat.mla =>
          some ('(' :: (lastNameOf a ++ ' ' :: p ++ [')']))
        | BibliographyFormat.latex =>
          some (k ++ ", ".toList ++
            (if '-' ∈ p ∨ '–' ∈ p then "pp.".toList else "p.".toList) ++
            ' ' :: p)) := by
    intro fmt
    have hta : truthyO (some a) = true := by
      cases a with
      | nil => exact absurd rfl hane
      | cons x xs => rfl
    have hty : truthyO (some y) = true := by
      cases y with
      | nil => exact absurd rfl hyne
      | cons x xs => rfl
    simp only [formatInlineCitation, ha, hy, hk, hta, hty]
    rw [if_neg (by rintro ⟨h1, -⟩; exact absurd h1 (by decide))]
    simp only [ne_eq, hane, not_false_iff, if_true]
    rw [if_neg (by
      rintro (h1 | h1)
      · exact hln h1
      · exact absurd h1 (by decide))]
    cases fmt <;> simp [hp]
  refine ⟨hmain BibliographyFormat.mla, hmain BibliographyFormat.latex, ?_, by decide⟩
  decide

/-- Witness for C8 at the Wright2013 entry with page `145-150`. -/
theorem formatInline_mla_latex_witness :
    (extractFieldSimple ("author".toList) wrightBib =
        some ("Wright, N. T.".toList) ∧
      extractFieldSimple ("year".toList) wrightBib = some ("2013".toList) ∧
      extractCiteKey wrightBib = some ("Wright2013".toList) ∧
      lastNameOf ("Wright, N. T.".toList) ≠ []) ∧
    (formatInlineCitation wrightBib (some ("145-150".toList))
        BibliographyFormat.mla =
      some ('(' :: (lastNameOf ("Wright, N. T.".toList) ++
        ' ' :: ("145-150".toList) ++ [')']))) :=
  ⟨⟨by decide, by decide, by decide, by decide⟩,
    (formatInline_mla_latex wrightBib ("Wright, N. T.".toList) ("2013".toList)
      ("Wright2013".toList) ("145-150".toList)
      (by decide) (by decide) (by decide) (by decide) (by decide) (by decide)
      (by decide)).1⟩

/-! ### Bibliography conversion (citation-formatter.ts, `convertBibtexToAPA`
and `convertBibtexToChicago`), in particular the edition policy -/

/-- JS `String.split(' and ')` (structural specialization for the five
character separator used for author lists). -/
def splitAnd : List Char → List (List Char)
  | ' ' :: 'a' :: 'n' :: 'd' :: ' ' :: r => [] :: splitAnd r
  | c :: r =>
    match splitAnd r with
    | [] => [[c]]
    | p :: ps => (c :: p) :: ps
  | [] => [[]]

/-- Entry type: the word after `@` lower-cased, `misc` when the
`^@(\w+)\{` header is missing. -/
def entryTypeOf (bibtex : List Char) : List Char :=
  match bibtex with
  | '@' :: rest =>
    let tw := rest.takeWhile isWordChar
    if tw = [] then "misc".toList
    else
      match rest.dropWhile isWordChar with
      | '\x7b' :: _ => toLowerL tw
      | _ => "misc".toList
  | _ => "misc".toList

/-- Emit `f v` when the optional field is truthy (present and nonempty). -/
def optStr (o : Option (List Char)) (f : List Char → List Char) : List Char :=
  match o with
  | some v => if v ≠ [] then f v else []
  | none => []

/-- APA single-author formatting: `Last, F. M.` from `Last, First Middle`,
pass-through otherwise (citation-formatter.ts lines 229-240). -/
def formatAuthorAPA (name : List Char) : List Char :=
  let parts := splitCh ',' (trimL name)
  if 2 ≤ parts.length then
    let lastName := trimL (parts.headD [])
    let firstName := trimL (parts.getD 1 [])
    let initials := List.intercalate [' ']
      ((splitCh ' ' firstName).map (fun n =>
        (match n.head? with
          | some c0 => [c0.toUpper]
          | none => []) ++ ['.']))
    lastName ++ ", ".toList ++ initials
  else name

/-- APA author-list formatting with the twenty-author ellipsis rule
(lines 227-253). -/
def formattedAuthorAPA (author : Option (List Char)) : List Char :=
  match author with
  | none => []
  | some a =>
    if a = [] then []
    else
      let authors := splitAnd a
      if authors.length = 1 then formatAuthorAPA (authors.getD 0 [])
      else if authors.length = 2 then
        formatAuthorAPA (authors.getD 0 []) ++ ", & ".toList ++
          formatAuthorAPA (authors.getD 1 [])
      else if authors.length ≤ 20 then
        List.intercalate (", ".toList) (authors.dropLast.map formatAuthorAPA) ++
          ", & ".toList ++ formatAuthorAPA (authors.getLastD [])
      else
        List.intercalate (", ".toList) ((authors.take 19).map formatAuthorAPA) ++
          " . . . ".toList ++ formatAuthorAPA (authors.getLastD [])

/-- Chicago author-list formatting with the three-author threshold
(lines 333-345). -/
def formattedAuthorChicago (author : Option (List Char)) : List Char :=
  match author with
  | none => []
  | some a =>
    if a = [] then []
    else
      let authors := splitAnd a
      if authors.length = 1 then authors.getD 0 []
      else if authors.length = 2 then
        authors.getD 0 [] ++ ", and ".toList ++ authors.getD 1 []
      else if authors.length = 3 then
        authors.getD 0 [] ++ ", ".toList ++ authors.getD 1 [] ++
          ", and ".toList ++ authors.getD 2 []
      else authors.getD 0 [] ++ " et al.".toList

/-- Final cleanup of the narrative converters: trim, collapse runs of two or
more periods, collapse whitespace runs to single spaces. -/
def collapseRuns (p : Char → Bool) (rep : Char) : Bool → List Char → List Char
  | _, [] => []
  | inRun, c :: rest =>
    if p c then (if inRun then [] else [rep]) ++ collapseRuns p rep true rest
    else c :: collapseRuns p rep false rest

/-- `trim().replace(dot-runs, '.').replace(whitespace-runs, ' ')`. -/
def postProcess (s : List Char) : List Char :=
  collapseRuns isSpaceJS ' ' false
    (collapseRuns (fun c => c == '.') '.' false (trimL s))

/-- Decimal value of a digit string (JS `parseInt` on an all-digit string). -/
def digitsToNat (ds : List Char) : Nat :=
  ds.foldl (fun acc c => acc * 10 + (c.toNat - '0'.toNat)) 0

/-- The ordinal-suffix rule of `convertBibtexToChicago` (lines 354-357):
st/nd/rd with the 11/12/13 exception, else th. -/
def ordinalSuffix (n : Nat) : List Char :=
  if n % 10 = 1 ∧ n % 100 ≠ 11 then "st".toList
  else if n % 10 = 2 ∧ n % 100 ≠ 12 then "nd".toList
  else if n % 10 = 3 ∧ n % 100 ≠ 13 then "rd".toList
  else "th".toList

/-- The Chicago edition fragment for a truthy, non-`"1"` edition (lines
352-362): digits are extracted and parsed; if none, the value passes through
verbatim. -/
def chicagoEdition (edition : List Char) : List Char :=
  let digits := edition.filter Char.isDigit
  if digits = [] then edition ++ " ed. ".toList
  else
    let n := digitsToNat digits
    Nat.toDigits 10 n ++ ordinalSuffix n ++ " ed. ".toList

/-- `convertBibtexToAPA` (lines 196-302). -/
def convertBibtexToAPA (bibtex : List Char) : List Char :=
  let entryType := entryTypeOf bibtex
  let author := extractFieldSimple ("author".toList) bibtex
  let title := extractFieldSimple ("title".toList) bibtex
  let year := extractFieldSimple ("year".toList) bibtex
  let publisher := extractFieldSimple ("publisher".toList) bibtex
  let journal := extractFieldSimple ("journal".toList) bibtex
  let volume := extractFieldSimple ("volume".toList) bibtex
  let number := extractFieldSimple ("number".toList) bibtex
  let pages := extractFieldSimple ("pages".toList) bibtex
  let edition := extractFieldSimple ("edition".toList) bibtex
  let booktitle := extractFieldSimple ("booktitle".toList) bibtex
  let editor := extractFieldSimple ("editor".toList) bibtex
  let doi := extractFieldSimple ("doi".toList) bibtex
  let fa := formattedAuthorAPA author
  let body :=
    if entryType = ("book".toList) then
      (if fa ≠ [] then fa ++ [' '] else []) ++
      optStr year (fun y => '(' :: y ++ "). ".toList) ++
      optStr title (fun t => '*' :: t ++ ['*']) ++
      (match edition with
        | some e => if e ≠ [] ∧ e ≠ ("1".toList) then
            " (".toList ++ e ++ " ed.)".toList
          else []
        | none => []) ++
      ". ".toList ++
      optStr publisher (fun p => p ++ ['.'])
    else if entryType = ("article".toList) then
      (if fa ≠ [] then fa ++ [' '] else []) ++
      optStr year (fun y => '(' :: y ++ "). ".toList) ++
      optStr title (fun t => t ++ ". ".toList) ++
      optStr journal (fun j =>
        '*' :: j ++ ['*'] ++
        optStr volume (fun v =>
          ", *".toList ++ v ++ ['*'] ++
          optStr number (fun n => '(' :: n ++ [')'])) ++
        optStr pages (fun p => ", ".toList ++ p) ++ ['.']) ++
      optStr doi (fun d => " https://doi.org/".toList ++ d)
    else if entryType = ("incollection".toList) ∨ entryType = ("inbook".toList) then
      (if fa ≠ [] then fa ++ [' '] else []) ++
      optStr year (fun y => '(' :: y ++ "). ".toList) ++
      optStr title (fun t => t ++ ". ".toList) ++
      optStr editor (fun e => "In ".toList ++ e ++ " (Ed.), ".toList) ++
      optStr booktitle (fun b => '*' :: b ++ ['*']) ++
      optStr pages (fun p => " (pp. ".toList ++ p ++ [')']) ++
      ". ".toList ++
      optStr publisher (fun p => p ++ ['.'])
    else
      (if fa ≠ [] then fa ++ [' '] else []) ++
      optStr year (fun y => '(' :: y ++ "). ".toList) ++
      optStr title (fun t => '*' :: t ++ "*. ".toList) ++
      optStr publisher (fun p => p ++ ['.'])
  postProcess body

/-- `convertBibtexToChicago` (lines 304-426). -/
def convertBibtexToChicago (bibtex : List Char) : List Char :=
  let entryType := entryTypeOf bibtex
  let author := extractFieldSimple ("author".toList) bibtex
  let title := extractFieldSimple ("title".toList) bibtex
  let year := extractFieldSimple ("year".toList) bibtex
  let publisher := extractFieldSimple ("publisher".toList) bibtex
  let journal := extractFieldSimple ("journal".toList) bibtex
  let volume := extractFieldSimple ("volume".toList) bibtex
  let number := extractFieldSimple ("number".toList) bibtex
  let pages := extractFieldSimple ("pages".toList) bibtex
  let address := extractFieldSimple ("address".toList) bibtex
  let edition := extractFieldSimple ("edition".toList) bibtex
  let booktitle := extractFieldSimple ("booktitle".toList) bibtex
  let editor := extractFieldSimple ("editor".toList) bibtex
  let fa := formattedAuthorChicago author
  let pubParts : List (List Char) :=
    (match address with
      | some v => if v ≠ [] then [v] else []
      | none => []) ++
    (match publisher with
      | some v => if v ≠ [] then [v] else []
      | none => [])
  let pubYear : List Char :=
    (if pubParts ≠ [] then List.intercalate (": ".toList) pubParts else []) ++
    optStr year (fun y => (if pubParts ≠ [] then ", ".toList else []) ++ y)
  let body :=
    if entryType = ("book".toList) then
      (if fa ≠ [] then fa ++ ". ".toList else []) ++
      optStr title (fun t => '*' :: t ++ "*. ".toList) ++
      (match edition with
        | some e => if e ≠ [] ∧ e ≠ ("1".toList) then chicagoEdition e else []
        | none => []) ++
      pubYear ++ ['.']
    else if entryType = ("article".toList) then
      (if fa ≠ [] then fa ++ ". ".toList else []) ++
      optStr title (fun t => '"' :: t ++ ".\" ".toList) ++
      optStr journal (fun j =>
        '*' :: j ++ ['*'] ++
        (let details : List (List Char) :=
          (match volume with
            | some v => if v ≠ [] then [v] else []
            | none => []) ++
          (match number with
            | some n => if n ≠ [] then ["no. ".toList ++ n] else []
            | none => [])
        if details ≠ [] then
          ' ' :: List.intercalate (", ".toList) details
        else [])) ++
      optStr year (fun y => " (".toList ++ y ++ [')']) ++
      optStr pages (fun p => ": ".toList ++ p) ++ ['.']
    else if entryType = ("incollection".toList) ∨ entryType = ("inbook".toList) then
      (if fa ≠ [] then fa ++ ". ".toList else []) ++
      optStr title (fun t => '"' :: t ++ ".\" ".toList) ++
      optStr booktitle (fun b =>
        "In ".toList ++
        optStr editor (fun e => "edited by ".toList ++ e ++ ", ".toList) ++
        '*' :: b ++ ['*']) ++
      optStr pages (fun p => ", ".toList ++ p) ++
      ". ".toList ++
      pubYear ++ ['.']
    else
      (if fa ≠ [] then fa ++ ". ".toList else []) ++
      optStr title (fun t => '*' :: t ++ "*. ".toList) ++
      pubYear ++
      (if pubParts ≠ [] ∨ truthyO year = true then ['.'] else [])
  postProcess body

/-- A book entry with title `T` and the given edition value. -/
def bookEdEntry (ed : List Char) : List Char :=
  ("@book\x7bK,\n  title = \x7bT\x7d,\n  edition = \x7b").toList ++ ed ++
    ("\x7d\n\x7d").toList

/-- The same book entry with no edition field. -/
def bookNoEdEntry : List Char :=
  ("@book\x7bK,\n  title = \x7bT\x7d\n\x7d").toList

/-- C7 counterexample: in APA a numeric edition value `2` on a book is
rendered verbatim as `(2 ed.)`, not with the ordinal suffix `2nd` that the
claim requires. -/
theorem apa_edition_no_ordinal_cex :
    convertBibtexToAPA (bookEdEntry ("2".toList)) = ("*T* (2 ed.).".toList) ∧
    containsSub ("2nd".toList) (convertBibtexToAPA (bookEdEntry ("2".toList))) =
      false := by decide

/-- C7 (amended): edition `"1"` is suppressed in both APA and Chicago; a
digit-free edition is rendered verbatim as `<value> ed.` in both; the ordinal
suffix (standard rule with the 11/12/13 exception) is computed only by
Chicago, on the concatenated digits of the value, while APA renders every
non-`"1"` edition verbatim as `(<value> ed.)`. -/
theorem edition_policy :
    convertBibtexToAPA (bookEdEntry ("1".toList)) =
      convertBibtexToAPA bookNoEdEntry ∧
    convertBibtexToChicago (bookEdEntry ("1".toList)) =
      convertBibtexToChicago bookNoEdEntry ∧
    convertBibtexToAPA (bookEdEntry ("Revised".toList)) =
      ("*T* (Revised ed.).".toList) ∧
    convertBibtexToChicago (bookEdEntry ("Revised".toList)) =
      ("*T*. Revised ed. .".toList) ∧
    convertBibtexToChicago (bookEdEntry ("2".toList)) =
      ("*T*. 2nd ed. .".toList) ∧
    (∀ ed : List Char, ed.filter Char.isDigit = [] →
      chicagoEdition ed = ed ++ (" ed. ".toList)) ∧
    (∀ ed : List Char, ed.filter Char.isDigit ≠ [] →
      chicagoEdition ed =
        Nat.toDigits 10 (digitsToNat (ed.filter Char.isDigit)) ++
          ordinalSuffix (digitsToNat (ed.filter Char.isDigit)) ++
          (" ed. ".toList)) ∧
    (chicagoEdition ("11".toList) = ("11th ed. ".toList) ∧
     chicagoEdition ("12".toList) = ("12th ed. ".toList) ∧
     chicagoEdition ("13".toList) = ("13th ed. ".toList) ∧
     chicagoEdition ("21".toList) = ("21st ed. ".toList) ∧
     chicagoEdition ("22".toList) = ("22nd ed. ".toList) ∧
     chicagoEdition ("23".toList) = ("23rd ed. ".toList) ∧
     chicagoEdition ("111".toList) = ("111th ed. ".toList) ∧
     chicagoEdition ("3rd rev. 2".toList) = ("32nd ed. ".toList)) := by
  refine ⟨by decide, by decide, by decide, by decide, by decide, ?_, ?_, by decide⟩
  · intro ed hed
    unfold chicagoEdition
    rw [if_pos hed]
  · intro ed hed
    unfold chicagoEdition
    rw [if_neg hed]

/-- Witness for C7's quantified parts at `Revised` (digit-free) and
`3rd rev. 2` (digits `32`). -/
theorem edition_policy_witness :
    (("Revised".toList).filter Char.isDigit = [] ∧
      chicagoEdition ("Revised".toList) = ("Revised".toList) ++ (" ed. ".toList)) ∧
    (("3rd rev. 2".toList).filter Char.isDigit ≠ [] ∧
      chicagoEdition ("3rd rev. 2".toList) =
        Nat.toDigits 10 (digitsToNat (("3rd rev. 2".toList).filter Char.isDigit)) ++
          ordinalSuffix (digitsToNat (("3rd rev. 2".toList).filter Char.isDigit)) ++
          (" ed. ".toList)) :=
  ⟨⟨by decide, edition_policy.2.2.2.2.2.1 ("Revised".toList) (by decide)⟩,
   ⟨by decide, edition_policy.2.2.2.2.2.2.1 ("3rd rev. 2".toList) (by decide)⟩⟩

/-! ### The citations-list upsert (part_002 `createOrUpdateReferenceNote`,
update branch, lines 46-61) -/

/-- The literal `## Citations` heading. -/
def citHeading : List Char := "## Citations".toList

/-- Leftmost occurrence of `pat`: the text before it and the text from it. -/
def findSub (pat : List Char) : List Char → Option (List Char × List Char)
  | [] => if pat.isEmpty then some ([], []) else none
  | c :: r =>
    if pat.isPrefixOf (c :: r) then some ([], c :: r)
    else
      match findSub pat r with
      | some (pre, rest) => some (c :: pre, rest)
      | none => none

/-- The region terminator `(\n#+\s)` of the citations regex: a newline, one or
more hashes, one whitespace character; returns the matched text. -/
def citTermAt (s : List Char) : Option (List Char) :=
  match s with
  | [] => none
  | c :: r =>
    if c = '\n' then
      let hashes := r.takeWhile (fun d => d = '#')
      if hashes = [] then none
      else
        match r.dropWhile (fun d => d = '#') with
        | w :: _ => if isSpaceJS w then some ('\n' :: (hashes ++ [w])) else none
        | [] => none
    else none

/-- Lazy scan of `([\s\S]*?)((\n#+\s)|$)`: the shortest body followed by a
terminator or the end of the note; returns body, terminator text, and the
text after the terminator. -/
def lazyCit : List Char → List Char × List Char × List Char
  | [] => ([], [], [])
  | c :: r =>
    match citTermAt (c :: r) with
    | some term => ([], term, (c :: r).drop term.length)
    | none =>
      let (b, t, a) := lazyCit r
      (c :: b, t, a)

/-- The pure content update of `createOrUpdateReferenceNote`'s update branch:
find the citations region, leave the note unchanged when the link-back text
already occurs in the matched region, otherwise re-emit the region with the
trimmed old body followed by the new `- <linkBack>` line. -/
def upsertCitation (refNote linkBack : List Char) : List Char :=
  if containsSub citHeading refNote = true then
    match findSub citHeading refNote with
    | some (pre, rest) =>
      let afterHeading := rest.drop citHeading.length
      let citations := (lazyCit afterHeading).1
      let term := (lazyCit afterHeading).2.1
      let after := (lazyCit afterHeading).2.2
      if containsSub linkBack (citHeading ++ citations ++ term) = true then
        refNote
      else
        pre ++ citHeading ++ '\n' ::
          (trimL citations ++ '\n' ::
            (("- ".toList ++ linkBack) ++ '\n' :: (term ++ after)))
    | none => refNote
  else trimL refNote ++ ("\n\n## Citations\n- ".toList ++ linkBack)

lemma isPrefixOf_self_append (p x : List Char) : p.isPrefixOf (p ++ x) = true := by
  induction p with
  | nil => simp [List.isPrefixOf]
  | cons a p' ih => simpa [List.isPrefixOf] using ih

lemma contains_of_mid (n a b : List Char) :
    containsSub n (a ++ (n ++ b)) = true := by
  induction a with
  | nil =>
    simp only [List.nil_append]
    cases hnb : n ++ b with
    | nil =>
      have hn : n = [] := (List.append_eq_nil.mp hnb).1
      subst hn
      simp [containsSub, List.isEmpty]
    | cons d s =>
      rw [containsSub, ← hnb, isPrefixOf_self_append]
      simp
  | cons c a' ih =>
    rw [List.cons_append, containsSub, ih]
    simp

lemma isPrefixOf_append_decomp (p s : List Char) (h : p.isPrefixOf s = true) :
    s = p ++ s.drop p.length := by
  induction p generalizing s with
  | nil => simp
  | cons a p' ih =>
    cases s with
    | nil => simp [List.isPrefixOf] at h
    | cons b s' =>
      simp only [List.isPrefixOf, Bool.and_eq_true, beq_iff_eq] at h
      rw [h.1]
      simpa using ih s' h.2

lemma findSub_some (pat s pre rest : List Char)
    (h : findSub pat s = some (pre, rest)) :
    s = pre ++ rest ∧ pat.isPrefixOf rest = true := by
  induction s generalizing pre with
  | nil =>
    unfold findSub at h
    split at h
    next hp =>
      injection h with h
      injection h with h1 h2
      subst h1; subst h2
      have hpe : pat = [] := by simpa using hp
      subst hpe
      exact ⟨rfl, by simp [List.isPrefixOf]⟩
    next => cases h
  | cons c r ih =>
    unfold findSub at h
    split at h
    next hp =>
      injection h with h
      injection h with h1 h2
      subst h1; subst h2
      exact ⟨rfl, hp⟩
    next hp =>
      rcases hf : findSub pat r with _ | ⟨pre', rest'⟩ <;> rw [hf] at h
      · cases h
      · injection h with h
        injection h with h1 h2
        subst h2
        rcases ih pre' hf with ⟨hs, hpre⟩
        rw [← h1]
        exact ⟨by rw [List.cons_append, ← hs], hpre⟩

lemma take_append_stable (q x y : List Char) (n : Nat) (h : n ≤ q.length) :
    (q ++ x).take n = (q ++ y).take n := by
  rw [List.take_append_eq_append_take, List.take_append_eq_append_take]
  have h0 : n - q.length = 0 := by omega
  rw [h0]
  simp

lemma isPrefixOf_take (p s : List Char) :
    p.isPrefixOf s = p.isPrefixOf (s.take p.length) := by
  induction p generalizing s with
  | nil => simp [List.isPrefixOf]
  | cons a p' ih =>
    cases s with
    | nil => simp
    | cons b s' =>
      simp only [List.length_cons, List.take_succ_cons, List.isPrefixOf]
      rw [ih s']

lemma findSub_replay (pat pre rest t : List Char)
    (h : findSub pat (pre ++ rest) = some (pre, rest))
    (hpr : pat.isPrefixOf rest = true)
    (ht : pat.isPrefixOf t = true) :
    findSub pat (pre ++ t) = some (pre, t) := by
  induction pre with
  | nil =>
    simp only [List.nil_append]
    cases t with
    | nil =>
      cases pat with
      | nil => simp [findSub, List.isEmpty]
      | cons a p' => simp [List.isPrefixOf] at ht
    | cons c r =>
      unfold findSub
      rw [if_pos ht]
  | cons c pre' ih =>
    have hnp : pat.isPrefixOf (c :: (pre' ++ rest)) = false := by
      rw [List.cons_append] at h
      unfold findSub at h
      split at h
      next hp =>
        injection h with h
        injection h with h1 h2
        cases h1
      next hp => exact Bool.eq_false_iff.mpr hp
    have hnp' : pat.isPrefixOf (c :: (pre' ++ t)) = false := by
      have hr := isPrefixOf_append_decomp pat rest hpr
      have htd := isPrefixOf_append_decomp pat t ht
      rw [isPrefixOf_take] at hnp ⊢
      have heq : (c :: (pre' ++ t)).take pat.length =
          (c :: (pre' ++ rest)).take pat.length := by
        rw [hr, htd]
        rw [show c :: (pre' ++ (pat ++ List.drop pat.length t)) =
          ((c :: pre' ++ pat) ++ List.drop pat.length t) by simp]
        rw [show c :: (pre' ++ (pat ++ List.drop pat.length rest)) =
          ((c :: pre' ++ pat) ++ List.drop pat.length rest) by simp]
        refine take_append_stable _ _ _ _ ?_
        simp only [List.length_append, List.length_cons]
        omega
      rw [heq]
      exact hnp
    have hrec : findSub pat (pre' ++ rest) = some (pre', rest) := by
      rw [List.cons_append] at h
      unfold findSub at h
      split at h
      next hp => rw [hnp] at hp; cases hp
      next hp =>
        rcases hf : findSub pat (pre' ++ rest) with _ | ⟨pre2, rest2⟩ <;>
          rw [hf] at h
        · cases h
        · injection h with h
          injection h with h1 h2
          injection h1 with hhe hte
          subst hte
          subst h2
          rfl
    rw [List.cons_append]
    unfold findSub
    rw [if_neg (by rw [hnp']; exact fun hh => Bool.false_ne_true hh)]
    rw [ih hrec]

lemma takeWhile_append_of_all (p : Char → Bool) (a b : List Char)
    (h : ∀ c ∈ a, p c = true) : (a ++ b).takeWhile p = a ++ b.takeWhile p := by
  induction a with
  | nil => simp
  | cons c a' ih =>
    rw [List.cons_append, List.takeWhile_cons_of_pos (h c (by simp)),
      ih (fun d hd => h d (by simp [hd])), List.cons_append]

lemma dropWhile_append_of_all (p : Char → Bool) (a b : List Char)
    (h : ∀ c ∈ a, p c = true) : (a ++ b).dropWhile p = b.dropWhile p := by
  induction a with
  | nil => simp
  | cons c a' ih =>
    rw [List.cons_append, List.dropWhile_cons_of_pos (h c (by simp)),
      ih (fun d hd => h d (by simp [hd]))]

lemma citTermAt_cons_newline (r : List Char) :
    citTermAt ('\n' :: r) =
      (if r.takeWhile (fun d => d = '#') = [] then none
       else match r.dropWhile (fun d => d = '#') with
            | w :: _ => if isSpaceJS w then
                some ('\n' :: (r.takeWhile (fun d => d = '#') ++ [w])) else none
            | [] => none) := rfl

lemma citTermAt_cons_of_ne (c : Char) (r : List Char) (hc : c ≠ '\n') :
    citTermAt (c :: r) = none := by
  simp [citTermAt, hc]

lemma citTermAt_some (s t : List Char) (h : citTermAt s = some t) :
    ∃ hs w r2, s = '\n' :: (hs ++ w :: r2) ∧ t = '\n' :: (hs ++ [w]) ∧
      hs ≠ [] ∧ (∀ c ∈ hs, c = '#') ∧ isSpaceJS w = true ∧
      s.drop t.length = r2 := by
  cases s with
  | nil => cases h
  | cons c r =>
    by_cases hc : c = '\n'
    case neg => rw [citTermAt_cons_of_ne c r hc] at h; cases h
    subst hc
    rw [citTermAt_cons_newline] at h
    split at h
    next => cases h
    next hne =>
      rcases hd : r.dropWhile (fun d => d = '#') with _ | ⟨w, tail⟩
      · rw [hd] at h; cases h
      · cases hwv : isSpaceJS w with
        | false => rw [hd] at h; simp [hwv] at h
        | true =>
          rw [hd] at h
          simp only [hwv, if_true] at h
          injection h with h
          have hr : r.takeWhile (fun d => d = '#') ++ (w :: tail) = r := by
            rw [← hd]; exact List.takeWhile_append_dropWhile _ r
          refine ⟨r.takeWhile (fun d => d = '#'), w, tail, ?_, h.symm,
            hne, fun c hc => by simpa using List.mem_takeWhile_imp hc, hwv, ?_⟩
          · rw [hr]
          · rw [← h]
            have hr2 : ('\n' :: r) =
                '\n' :: (r.takeWhile (fun d => d = '#') ++ w :: tail) := by
              rw [hr]
            rw [hr2]
            simp only [List.length_cons, List.drop_succ_cons]
            rw [show r.takeWhile (fun d => d = '#') ++ w :: tail =
                (r.takeWhile (fun d => d = '#') ++ [w]) ++ tail by simp]
            exact List.drop_left _ _

lemma citTermAt_replay (s t x : List Char) (h : citTermAt s = some t) :
    citTermAt (t ++ x) = some t := by
  obtain ⟨hs, w, r2, hsEq, htEq, hne, hhash, hw, hdrop⟩ := citTermAt_some s t h
  have hwne : (decide (w = '#')) = false := by
    have h9 : isSpaceJS '#' = false := by decide
    by_cases hww : w = '#'
    · rw [hww, h9] at hw; cases hw
    · simp [hww]
  subst htEq
  have hform : ('\n' :: (hs ++ [w])) ++ x = '\n' :: (hs ++ w :: x) := by simp
  rw [hform, citTermAt_cons_newline]
  have htw : (hs ++ w :: x).takeWhile (fun d => d = '#') = hs := by
    rw [takeWhile_append_of_all _ _ _ (fun c hc => by simp [hhash c hc]),
      List.takeWhile_cons_of_neg (by simp [hwne]), List.append_nil]
  have hdw : (hs ++ w :: x).dropWhile (fun d => d = '#') = w :: x := by
    rw [dropWhile_append_of_all _ _ _ (fun c hc => by simp [hhash c hc]),
      List.dropWhile_cons_of_neg (by simp [hwne])]
  rw [htw, hdw, if_neg hne]
  simp only [hw, if_true]

lemma lazyCit_spec (s b t a : List Char) (h : lazyCit s = (b, t, a)) :
    s = b ++ (t ++ a) ∧ (t = [] → a = []) ∧
      (t ≠ [] → citTermAt (t ++ a) = some t) := by
  induction s generalizing b t a with
  | nil =>
    simp only [lazyCit, Prod.mk.injEq] at h
    obtain ⟨h1, h2, h3⟩ := h
    subst h1; subst h2; subst h3
    exact ⟨rfl, fun _ => rfl, fun hne => absurd rfl hne⟩
  | cons c r ih =>
    simp only [lazyCit] at h
    rcases hct : citTermAt (c :: r) with _ | term' <;> rw [hct] at h
    · simp only [Prod.mk.injEq] at h
      obtain ⟨h1, h2, h3⟩ := h
      rcases ih (lazyCit r).1 (lazyCit r).2.1 (lazyCit r).2.2 rfl with
        ⟨hs, hta, hterm⟩
      subst h1; subst h2; subst h3
      exact ⟨by rw [List.cons_append, ← hs], hta, hterm⟩
    · simp only [Prod.mk.injEq] at h
      obtain ⟨h1, h2, h3⟩ := h
      obtain ⟨hs, w, r2, hsEq, htEq, hne9, hhash, hw, hdrop⟩ :=
        citTermAt_some _ _ hct
      subst h1; subst h2
      have hrc : term' ++ a = c :: r := by
        rw [← h3, hdrop, hsEq, htEq]; simp
      refine ⟨by rw [List.nil_append, hrc], ?_, fun _ => by rw [hrc, hct]⟩
      intro ht0
      rw [ht0] at htEq
      cases htEq

lemma lazyCit_skip (x y : List Char)
    (hx : ∀ x2, x2 ≠ [] → List.IsSuffix x2 x → citTermAt (x2 ++ y) = none) :
    lazyCit (x ++ y) =
      (x ++ (lazyCit y).1, (lazyCit y).2.1, (lazyCit y).2.2) := by
  induction x with
  | nil => simp
  | cons c x' ih =>
    have hnone : citTermAt (c :: (x' ++ y)) = none := by
      have h9 := hx (c :: x') (by simp) (List.suffix_refl _)
      simpa using h9
    have ihx := ih (fun x2 hne hsuf =>
      hx x2 hne (hsuf.trans (List.suffix_cons c x')))
    rw [List.cons_append]
    simp only [lazyCit, hnone]
    rw [ihx]
    simp

lemma lazyCit_term (term after : List Char)
    (h : citTermAt (term ++ after) = some term) :
    lazyCit (term ++ after) = ([], term, after) := by
  obtain ⟨hs, w, r2, hsEq, htEq, hne, hhash, hw, hdrop⟩ := citTermAt_some _ _ h
  have hform : term ++ after = '\n' :: ((hs ++ [w]) ++ after) := by
    rw [htEq]; simp
  rw [hform] at h ⊢
  simp only [lazyCit, h]
  rw [← hform, List.drop_left]

lemma suffix_append_cases (x u v : List Char) (h : List.IsSuffix x (u ++ v)) :
    List.IsSuffix x v ∨ ∃ u2, List.IsSuffix u2 u ∧ u2 ≠ [] ∧ x = u2 ++ v := by
  induction u with
  | nil => exact Or.inl (by simpa using h)
  | cons c u' ih =>
    rcases h with ⟨t, ht⟩
    cases t with
    | nil =>
      right
      exact ⟨c :: u', List.suffix_refl _, by simp, by simpa using ht⟩
    | cons d t' =>
      have ht2 : d :: (t' ++ x) = c :: (u' ++ v) := by simpa using ht
      injection ht2 with h1 h2
      rcases ih ⟨t', h2⟩ with hv | ⟨u2, hsuf, hne, hx⟩
      · exact Or.inl hv
      · exact Or.inr ⟨u2, hsuf.trans (List.suffix_cons c u'), hne, hx⟩

lemma containsSub_of_suffix (a b : Char) (w z : List Char)
    (h : List.IsSuffix (a :: b :: w) z) : containsSub [a, b] z = true := by
  obtain ⟨t, ht⟩ := h
  rw [← ht]
  exact contains_of_mid [a, b] t w

lemma suffix_head_unique (c : Char) (L x2 : List Char) (hc : c ∉ L)
    (hsuf : List.IsSuffix x2 (c :: L)) (hh : x2.head? = some c) :
    x2 = c :: L := by
  obtain ⟨t, ht⟩ := hsuf
  cases t with
  | nil => simpa using ht
  | cons d t' =>
    exfalso
    have ht2 : d :: (t' ++ x2) = c :: L := by simpa using ht
    injection ht2 with h1 h2
    cases x2 with
    | nil => cases hh
    | cons e x2' =>
      have he : e = c := by simpa using hh
      apply hc
      rw [← h2, ← he]
      simp

lemma noTerm_in_block (A REST : List Char) (hA : A ≠ [])
    (hlast : A.getLast? ≠ some '\n')
    (hpair : containsSub ['\n', '#'] ('\n' :: A) = false) :
    ∀ x2, x2 ≠ [] → List.IsSuffix x2 ('\n' :: A) →
      citTermAt (x2 ++ REST) = none := by
  intro x2 hne hsuf
  cases x2 with
  | nil => exact absurd rfl hne
  | cons c w =>
    by_cases hc : c = '\n'
    · subst hc
      cases w with
      | nil =>
        exfalso
        obtain ⟨t, ht⟩ := hsuf
        have hgl := congrArg List.getLast? ht
        rw [List.getLast?_concat] at hgl
        cases hA2 : A with
        | nil => exact hA hA2
        | cons a A' =>
          apply hlast
          rw [hA2]
          rw [hA2, List.getLast?_cons_cons] at hgl
          exact hgl.symm
      | cons d w' =>
        have hd : d ≠ '#' := by
          intro hdd
          subst hdd
          rw [containsSub_of_suffix '\n' '#' w' _ hsuf] at hpair
          cases hpair
        rw [show ('\n' :: d :: w') ++ REST = '\n' :: (d :: (w' ++ REST)) by simp,
          citTermAt_cons_newline,
          List.takeWhile_cons_of_neg (by simp [hd]), if_pos rfl]
    · exact citTermAt_cons_of_ne c (w ++ REST) hc

lemma getLast?_of_suffix (u v : List Char) (h : List.IsSuffix u v)
    (hne : u ≠ []) : u.getLast? = v.getLast? := by
  obtain ⟨t, ht⟩ := h
  rw [← ht, List.getLast?_append]
  cases hu : u.getLast? with
  | none => exact absurd (List.getLast?_eq_none_iff.mp hu) hne
  | some c => simp

lemma trimL_head_spec (s : List Char) (c : Char)
    (h : (trimL s).head? = some c) : isSpaceJS c = false := by
  unfold trimL at h
  rw [List.head?_reverse] at h
  have hsuf := List.dropWhile_suffix (l := (s.dropWhile isSpaceJS).reverse)
    (p := isSpaceJS)
  have hne : ((s.dropWhile isSpaceJS).reverse.dropWhile isSpaceJS) ≠ [] := by
    intro h0
    rw [h0] at h
    cases h
  rw [getLast?_of_suffix _ _ hsuf hne, List.getLast?_reverse] at h
  exact head_dropWhile_false _ _ _ h

lemma trimL_last_spec (s : List Char) (c : Char)
    (h : (trimL s).getLast? = some c) : isSpaceJS c = false := by
  unfold trimL at h
  rw [List.getLast?_reverse] at h
  exact head_dropWhile_false _ _ _ h

lemma trimL_newline_wrap (x : List Char) (hne : x ≠ [])
    (hh : ∀ c, x.head? = some c → isSpaceJS c = false)
    (hl : ∀ c, x.getLast? = some c → isSpaceJS c = false) :
    trimL ('\n' :: (x ++ ['\n'])) = x := by
  cases x with
  | nil => exact absurd rfl hne
  | cons d x' =>
    have hd : isSpaceJS d = false := hh d rfl
    unfold trimL
    rw [List.dropWhile_cons_of_pos (by decide : isSpaceJS '\n' = true),
      List.cons_append, List.dropWhile_cons_of_neg (by simp [hd])]
    rcases hrev : (d :: x').reverse with _ | ⟨e, rev'⟩
    · simp at hrev
    · have hgl : (d :: x').getLast? = some e := by
        rw [← List.head?_reverse, hrev]; rfl
      have he : isSpaceJS e = false := hl e hgl
      rw [← List.cons_append, List.reverse_append, List.reverse_singleton,
        List.singleton_append,
        List.dropWhile_cons_of_pos (by decide : isSpaceJS '\n' = true),
        hrev, List.dropWhile_cons_of_neg (by simp [he]), ← hrev,
        List.reverse_reverse]

lemma containsSub_of_findSub (pat s pre rest : List Char)
    (h : findSub pat s = some (pre, rest)) : containsSub pat s = true := by
  obtain ⟨hs, hp⟩ := findSub_some pat s pre rest h
  have hd := isPrefixOf_append_decomp pat rest hp
  rw [hs, hd]
  exact contains_of_mid pat pre _

lemma lazyCit_block (A L1 term after : List Char)
    (hAne : A ≠ []) (hAlast : A.getLast? ≠ some '\n')
    (hpair : containsSub ['\n', '#'] ('\n' :: A) = false)
    (hLnl : '\n' ∉ L1) (hLhead : L1.head? = some '-')
    (hta : term = [] → after = [])
    (hterm : term ≠ [] → citTermAt (term ++ after) = some term) :
    lazyCit ('\n' :: (A ++ '\n' :: (L1 ++ '\n' :: (term ++ after)))) =
      ('\n' :: (A ++ '\n' :: (L1 ++ ['\n'])), term, after) := by
  have hy : lazyCit (term ++ after) = ([], term, after) := by
    by_cases ht0 : term = []
    · subst ht0
      have h0 := hta rfl
      subst h0
      rfl
    · exact lazyCit_term term after (hterm ht0)
  have hform : '\n' :: (A ++ '\n' :: (L1 ++ '\n' :: (term ++ after))) =
      (('\n' :: A) ++ (('\n' :: L1) ++ ['\n'])) ++ (term ++ after) := by
    simp
  rw [hform]
  have hside : ∀ x2, x2 ≠ [] →
      List.IsSuffix x2 (('\n' :: A) ++ (('\n' :: L1) ++ ['\n'])) →
      citTermAt (x2 ++ (term ++ after)) = none := by
    intro x2 hne hsuf
    rcases suffix_append_cases x2 _ _ hsuf with hsv | ⟨u2, hu2suf, hu2ne, hx2⟩
    · rcases suffix_append_cases x2 _ _ hsv with hsv2 | ⟨u3, hu3suf, hu3ne, hx3⟩
      · have hx1 : x2 = ['\n'] := by
          obtain ⟨t, ht⟩ := hsv2
          cases t with
          | nil => simpa using ht
          | cons e t' =>
            exfalso
            have ht2 : e :: (t' ++ x2) = ['\n'] := by simpa using ht
            injection ht2 with h1 h2
            exact hne (List.append_eq_nil.mp h2).2
        subst hx1
        by_cases ht0 : term = []
        · rw [ht0, hta ht0]
          decide
        · obtain ⟨hs9, w9, r9, hsEq9, _, _, _, _, _⟩ :=
            citTermAt_some _ _ (hterm ht0)
          rw [show ['\n'] ++ (term ++ after) = '\n' :: (term ++ after) from rfl,
            hsEq9, citTermAt_cons_newline,
            List.takeWhile_cons_of_neg (by decide), if_pos rfl]
      · rcases u3 with _ | ⟨c, w⟩
        · exact absurd rfl hu3ne
        · by_cases hc : c = '\n'
          · subst hc
            have hwhole := suffix_head_unique '\n' L1 ('\n' :: w) hLnl hu3suf rfl
            injection hwhole with h1 h2
            subst h2
            rw [hx3]
            rcases hL : w with _ | ⟨lc, L1'⟩
            · rw [hL] at hLhead; simp at hLhead
            · have hlc : lc = '-' := by
                rw [hL] at hLhead; simpa using hLhead
              subst hlc
              rw [show (('\n' :: '-' :: L1') ++ ['\n']) ++ (term ++ after) =
                '\n' :: ('-' :: (L1' ++ '\n' :: (term ++ after))) by simp,
                citTermAt_cons_newline,
                List.takeWhile_cons_of_neg (by decide), if_pos rfl]
          · rw [hx3]
            rw [show ((c :: w) ++ ['\n']) ++ (term ++ after) =
              c :: (w ++ '\n' :: (term ++ after)) by simp]
            exact citTermAt_cons_of_ne c _ hc
    · rw [hx2]
      rw [show (u2 ++ (('\n' :: L1) ++ ['\n'])) ++ (term ++ after) =
          u2 ++ ((('\n' :: L1) ++ ['\n']) ++ (term ++ after)) by simp]
      exact noTerm_in_block A _ hAne hAlast hpair u2 hu2ne hu2suf
  rw [lazyCit_skip _ _ hside, hy]
  simp

/-- C4 counterexample: the upsert is not idempotent.  On the note
`## Citations<nl>  # w` the matched citations body is `<nl>  # w` (the
indented hash line is not a terminator because the regex needs the hash
right after the newline), but `trim()` lifts `# w` next to the emitted
newline, so the rewritten note contains a fresh `<nl># w` terminator and a
second application of the same link appends a duplicate `- L` line. -/
theorem upsertCitation_not_idempotent_cex :
    upsertCitation
        (upsertCitation ("## Citations\n  # w".toList) ("L".toList))
        ("L".toList) ≠
      upsertCitation ("## Citations\n  # w".toList) ("L".toList) := by
  decide

/-- C4 (amended): on a note whose `## Citations` region (leftmost heading
occurrence, lazily matched body `cit`, terminator `term`, tail `after`) has a
nonempty trimmed body that keeps no `<nl>#` pair next to the emitted newline,
and for trimmed, newline-free, nonempty link lines: a link already contained
in the matched region leaves the note unchanged; a missing link is appended
as `- <link>` at the end of the region after the trimmed prior body; the
update is then idempotent for the same link; and a second distinct link is
inserted after the first, preserving the order of all prior lines. -/
theorem upsertCitation_spec
    (note pre rest cit term after l1 l2 : List Char)
    (h1 : findSub citHeading note = some (pre, rest))
    (h2 : lazyCit (rest.drop citHeading.length) = (cit, term, after))
    (hTne : trimL cit ≠ [])
    (hclean : containsSub ['\n', '#'] ('\n' :: trimL cit) = false)
    (hl1t : trimL l1 = l1) (hl1ne : l1 ≠ []) (hl1nl : '\n' ∉ l1)
    (hnotin1 : containsSub l1 (citHeading ++ cit ++ term) = false) :
    (∀ lb, containsSub lb (citHeading ++ cit ++ term) = true →
      upsertCitation note lb = note) ∧
    upsertCitation note l1 =
      pre ++ citHeading ++ '\n' :: (trimL cit ++ '\n' ::
        (("- ".toList ++ l1) ++ '\n' :: (term ++ after))) ∧
    upsertCitation (upsertCitation note l1) l1 = upsertCitation note l1 ∧
    (containsSub l2 (citHeading ++ ('\n' :: (trimL cit ++ '\n' ::
        (("- ".toList ++ l1) ++ ['\n']))) ++ term) = false →
      upsertCitation (upsertCitation note l1) l2 =
        pre ++ citHeading ++ '\n' :: ((trimL cit ++ '\n' ::
          ("- ".toList ++ l1)) ++ '\n' :: (("- ".toList ++ l2) ++ '\n' ::
          (term ++ after)))) := by
  have hdash : "- ".toList = ['-', ' '] := rfl
  have hcont : containsSub citHeading note = true :=
    containsSub_of_findSub _ _ _ _ h1
  obtain ⟨hsnote, hpre⟩ := findSub_some _ _ _ _ h1
  obtain ⟨hsplit, htaE, htermE⟩ := lazyCit_spec _ _ _ _ h2
  have happ1 : ∀ lb, upsertCitation note lb =
      (if containsSub lb (citHeading ++ cit ++ term) = true then note
       else pre ++ citHeading ++ '\n' :: (trimL cit ++ '\n' ::
         (("- ".toList ++ lb) ++ '\n' :: (term ++ after)))) := by
    intro lb
    unfold upsertCitation
    rw [if_pos hcont, h1]
    simp only [h2]
  have hres1 : upsertCitation note l1 =
      pre ++ citHeading ++ '\n' :: (trimL cit ++ '\n' ::
        (("- ".toList ++ l1) ++ '\n' :: (term ++ after))) := by
    rw [happ1 l1, if_neg (by rw [hnotin1]; exact fun hh => Bool.false_ne_true hh)]
  have hAh : ∀ c, (trimL cit).head? = some c → isSpaceJS c = false :=
    fun c hc => trimL_head_spec cit c hc
  have hAlast : (trimL cit).getLast? ≠ some '\n' := by
    intro h
    have h9 := trimL_last_spec cit '\n' h
    rw [show isSpaceJS '\n' = true from by decide] at h9
    cases h9
  have hLnl : '\n' ∉ ("- ".toList ++ l1) := by
    intro h
    rcases List.mem_append.mp h with h | h
    · rw [hdash] at h
      simp at h
    · exact hl1nl h
  have hLhead : ("- ".toList ++ l1).head? = some '-' := rfl
  have hlazy2 : lazyCit ('\n' :: (trimL cit ++ '\n' ::
      (("- ".toList ++ l1) ++ '\n' :: (term ++ after)))) =
      ('\n' :: (trimL cit ++ '\n' :: (("- ".toList ++ l1) ++ ['\n'])),
        term, after) :=
    lazyCit_block (trimL cit) ("- ".toList ++ l1) term after hTne hAlast
      hclean hLnl hLhead htaE htermE
  have hres2form : pre ++ citHeading ++ '\n' :: (trimL cit ++ '\n' ::
      (("- ".toList ++ l1) ++ '\n' :: (term ++ after))) =
      pre ++ (citHeading ++ ('\n' :: (trimL cit ++ '\n' ::
        (("- ".toList ++ l1) ++ '\n' :: (term ++ after))))) :=
    List.append_assoc _ _ _
  have hfind2 : findSub citHeading
      (pre ++ (citHeading ++ ('\n' :: (trimL cit ++ '\n' ::
        (("- ".toList ++ l1) ++ '\n' :: (term ++ after)))))) =
      some (pre, citHeading ++ ('\n' :: (trimL cit ++ '\n' ::
        (("- ".toList ++ l1) ++ '\n' :: (term ++ after))))) := by
    apply findSub_replay citHeading pre rest
    · rw [← hsnote]; exact h1
    · exact hpre
    · exact isPrefixOf_self_append _ _
  have hfind2' : findSub citHeading
      (pre ++ citHeading ++ '\n' :: (trimL cit ++ '\n' ::
        (("- ".toList ++ l1) ++ '\n' :: (term ++ after)))) =
      some (pre, citHeading ++ ('\n' :: (trimL cit ++ '\n' ::
        (("- ".toList ++ l1) ++ '\n' :: (term ++ after))))) := by
    rw [hres2form]; exact hfind2
  have hcont2 : containsSub citHeading
      (pre ++ citHeading ++ '\n' :: (trimL cit ++ '\n' ::
        (("- ".toList ++ l1) ++ '\n' :: (term ++ after)))) = true := by
    rw [hres2form]
    exact contains_of_mid _ _ _
  have htrimB1 : trimL ('\n' :: (trimL cit ++ '\n' ::
      (("- ".toList ++ l1) ++ ['\n']))) =
      trimL cit ++ '\n' :: ("- ".toList ++ l1) := by
    rw [show '\n' :: (trimL cit ++ '\n' :: (("- ".toList ++ l1) ++ ['\n'])) =
        '\n' :: ((trimL cit ++ '\n' :: ("- ".toList ++ l1)) ++ ['\n']) by simp]
    apply trimL_newline_wrap
    · intro h0
      exact hTne (List.append_eq_nil.mp h0).1
    · intro c hc
      rcases hA9 : trimL cit with _ | ⟨a, A'⟩
      · exact absurd hA9 hTne
      · rw [hA9, List.cons_append] at hc
        have hca : c = a := by
          have := hc.symm
          simpa using this
        rw [hca]
        exact hAh a (by rw [hA9]; rfl)
    · intro c hc
      have hgl1 : (trimL cit ++ '\n' :: ("- ".toList ++ l1)).getLast? =
          l1.getLast? := by
        rw [List.getLast?_append]
        have h9 : ('\n' :: ("- ".toList ++ l1)).getLast? = l1.getLast? := by
          rcases hl : l1 with _ | ⟨c1, l1'⟩
          · exact absurd hl hl1ne
          · show ('\n' :: ('-' :: ' ' :: (c1 :: l1'))).getLast? = _
            rw [List.getLast?_cons_cons, List.getLast?_cons_cons,
              List.getLast?_cons_cons]
        rw [h9]
        cases hgl : l1.getLast? with
        | none => exact absurd (List.getLast?_eq_none_iff.mp hgl) hl1ne
        | some c9 => simp
      rw [hgl1] at hc
      exact trimL_last_spec l1 c (by rw [hl1t]; exact hc)
  have happ2 : ∀ lb, upsertCitation
      (pre ++ citHeading ++ '\n' :: (trimL cit ++ '\n' ::
        (("- ".toList ++ l1) ++ '\n' :: (term ++ after)))) lb =
      (if containsSub lb (citHeading ++ ('\n' :: (trimL cit ++ '\n' ::
          (("- ".toList ++ l1) ++ ['\n']))) ++ term) = true then
        pre ++ citHeading ++ '\n' :: (trimL cit ++ '\n' ::
          (("- ".toList ++ l1) ++ '\n' :: (term ++ after)))
       else pre ++ citHeading ++ '\n' :: ((trimL cit ++ '\n' ::
          ("- ".toList ++ l1)) ++ '\n' :: (("- ".toList ++ lb) ++ '\n' ::
          (term ++ after)))) := by
    intro lb
    unfold upsertCitation
    rw [if_pos hcont2, hfind2']
    simp only [List.drop_left, hlazy2, htrimB1]
  have hinL1 : containsSub l1 (citHeading ++ ('\n' :: (trimL cit ++ '\n' ::
      (("- ".toList ++ l1) ++ ['\n']))) ++ term) = true := by
    rw [show citHeading ++ ('\n' :: (trimL cit ++ '\n' ::
        (("- ".toList ++ l1) ++ ['\n']))) ++ term =
      (citHeading ++ '\n' :: (trimL cit ++ ['\n', '-', ' '])) ++
        (l1 ++ '\n' :: term) by simp [hdash]]
    exact contains_of_mid l1 _ _
  refine ⟨fun lb hlb => by rw [happ1 lb, if_pos hlb], hres1, ?_, ?_⟩
  · rw [hres1, happ2 l1, if_pos hinL1]
  · intro hnotin2
    rw [hres1, happ2 l2,
      if_neg (by rw [hnotin2]; exact fun hh => Bool.false_ne_true hh)]

/-- Witness for C4 on a concrete note with a body line, a following
heading, and two distinct link-back lines. -/
theorem upsertCitation_spec_witness :
    (∀ lb, containsSub lb (citHeading ++ "\nBody text\n".toList ++
        "\n## ".toList) = true →
      upsertCitation "Intro\n## Citations\nBody text\n\n## Next\nTail".toList
        lb = "Intro\n## Citations\nBody text\n\n## Next\nTail".toList) ∧
    upsertCitation "Intro\n## Citations\nBody text\n\n## Next\nTail".toList
        "[[Source]]".toList =
      "Intro\n".toList ++ citHeading ++ '\n' ::
        (trimL "\nBody text\n".toList ++ '\n' ::
          (("- ".toList ++ "[[Source]]".toList) ++ '\n' ::
            ("\n## ".toList ++ "Next\nTail".toList))) ∧
    upsertCitation (upsertCitation
        "Intro\n## Citations\nBody text\n\n## Next\nTail".toList
        "[[Source]]".toList) "[[Source]]".toList =
      upsertCitation "Intro\n## Citations\nBody text\n\n## Next\nTail".toList
        "[[Source]]".toList ∧
    (containsSub "[[Other]]".toList (citHeading ++ ('\n' ::
        (trimL "\nBody text\n".toList ++ '\n' ::
          (("- ".toList ++ "[[Source]]".toList) ++ ['\n']))) ++
        "\n## ".toList) = false →
      upsertCitation (upsertCitation
          "Intro\n## Citations\nBody text\n\n## Next\nTail".toList
          "[[Source]]".toList) "[[Other]]".toList =
        "Intro\n".toList ++ citHeading ++ '\n' ::
          ((trimL "\nBody text\n".toList ++ '\n' ::
            ("- ".toList ++ "[[Source]]".toList)) ++ '\n' ::
            (("- ".toList ++ "[[Other]]".toList) ++ '\n' ::
              ("\n## ".toList ++ "Next\nTail".toList)))) :=
  upsertCitation_spec
    "Intro\n## Citations\nBody text\n\n## Next\nTail".toList
    "Intro\n".toList
    "## Citations\nBody text\n\n## Next\nTail".toList
    "\nBody text\n".toList "\n## ".toList "Next\nTail".toList
    "[[Source]]".toList "[[Other]]".toList
    (by decide) (by decide) (by decide) (by decide) (by decide) (by decide)
    (by decide) (by decide)

/-! ### C3: `updateBibliographyInDocument` (part_002 lines 110-130).  Regex
`## Bibliography<nl>[sS]*?(?=(<nl>##<ws>)|(<nl>---(<ws>|$))|$)` — the literal
heading line, a lazy body, and a zero-width lookahead at a following `##`
heading, a `---` rule, or the end of the note. -/

def bibHeading : List Char := "## Bibliography\n".toList

/-- The lookahead `(?=\n##\s|\n---(?:\s|$)|$)` tested at one position. -/
def bibLookAt : List Char → Bool
  | [] => true
  | c :: r =>
    c = '\n' &&
      (match r with
       | '#' :: '#' :: d :: _ => isSpaceJS d
       | '-' :: '-' :: '-' :: [] => true
       | '-' :: '-' :: '-' :: d :: _ => isSpaceJS d
       | _ => false)

/-- Lazy scan `[\s\S]*?` up to the first position where the lookahead
matches: returns the body and the unconsumed rest. -/
def lazyBib : List Char → List Char × List Char
  | [] => ([], [])
  | c :: r =>
    if bibLookAt (c :: r) then ([], c :: r)
    else
      let (b, rest) := lazyBib r
      (c :: b, rest)

/-- Suffix scan: no lookahead match starts inside `x` when `y` follows it. -/
def noBibStop (y : List Char) : List Char → Bool
  | [] => true
  | c :: r => !bibLookAt ((c :: r) ++ y) && noBibStop y r

/-- JS `GetSubstitution` for a string replacement used with the bibliography
regex, which has no capture groups and no named groups: scanning the
replacement template left to right, `$$` emits `$`, `$&` the matched text,
`$` followed by a backtick the text before the match, `$` followed by an
apostrophe the text after the match; every other `$` sequence (such as `$1`
or a named reference, there being no groups) stays literal. -/
def substDollar (matched before after : List Char) : List Char → List Char
  | [] => []
  | c :: r =>
    if c = '$' then
      match r with
      | [] => ['$']
      | d :: r2 =>
        if d = '$' then '$' :: substDollar matched before after r2
        else if d = '&' then matched ++ substDollar matched before after r2
        else if d = Char.ofNat 96 then
          before ++ substDollar matched before after r2
        else if d = Char.ofNat 39 then
          after ++ substDollar matched before after r2
        else '$' :: substDollar matched before after (d :: r2)
    else c :: substDollar matched before after r

/-- The pure content update of `updateBibliographyInDocument`: replace the
matched region with the string replacement `## Bibliography\n<list>\n`
(subject to JS `$`-pattern substitution over the rendered list), or append
`\n\n## Bibliography\n<list>` (template-literal interpolation, literal)
when the regex does not match. -/
def updateBibliography (content bibliographyList : List Char) : List Char :=
  match findSub bibHeading content with
  | some (pre, rest) =>
    let scan := lazyBib (rest.drop bibHeading.length)
    pre ++ substDollar (bibHeading ++ scan.1) pre scan.2
      (bibHeading ++ (bibliographyList ++ ['\n'])) ++ scan.2
  | none => content ++ "\n\n## Bibliography\n".toList ++ bibliographyList

lemma bibLookAt_head (c : Char) (r : List Char)
    (h : bibLookAt (c :: r) = true) : c = '\n' := by
  by_contra hc
  have h2 : bibLookAt (c :: r) = false := by
    simp [bibLookAt, hc]
  rw [h2] at h; cases h

lemma bibLookAt_nl_nl (z : List Char) : bibLookAt ('\n' :: '\n' :: z) = false :=
  rfl

lemma lazyBib_spec (s b a : List Char) (h : lazyBib s = (b, a)) :
    s = b ++ a ∧ (a = [] ∨ bibLookAt a = true) := by
  induction s generalizing b a with
  | nil =>
    simp only [lazyBib, Prod.mk.injEq] at h
    obtain ⟨h1, h2⟩ := h
    subst h1; subst h2
    exact ⟨rfl, Or.inl rfl⟩
  | cons c r ih =>
    simp only [lazyBib] at h
    split at h
    next hbl =>
      simp only [Prod.mk.injEq] at h
      obtain ⟨h1, h2⟩ := h
      subst h1; subst h2
      exact ⟨rfl, Or.inr hbl⟩
    next hbl =>
      simp only [Prod.mk.injEq] at h
      obtain ⟨h1, h2⟩ := h
      rcases ih (lazyBib r).1 (lazyBib r).2 rfl with ⟨hs, ha⟩
      subst h1; subst h2
      exact ⟨by rw [List.cons_append, ← hs], ha⟩

lemma lazyBib_stop (a : List Char) (h : bibLookAt a = true) :
    lazyBib a = ([], a) := by
  cases a with
  | nil => rfl
  | cons c r =>
    simp only [lazyBib]
    rw [if_pos h]

lemma lazyBib_skip (x y : List Char)
    (hx : ∀ x2, x2 ≠ [] → List.IsSuffix x2 x → bibLookAt (x2 ++ y) = false) :
    lazyBib (x ++ y) = (x ++ (lazyBib y).1, (lazyBib y).2) := by
  induction x with
  | nil => simp
  | cons c x' ih =>
    have hfalse : bibLookAt (c :: (x' ++ y)) = false := by
      have h9 := hx (c :: x') (by simp) (List.suffix_refl _)
      simpa using h9
    have ihx := ih (fun x2 hne hsuf =>
      hx x2 hne (hsuf.trans (List.suffix_cons c x')))
    rw [List.cons_append]
    simp only [lazyBib]
    rw [if_neg (by rw [hfalse]; exact fun hh => Bool.false_ne_true hh), ihx]
    simp

lemma noBibStop_spec (y x : List Char) (h : noBibStop y x = true) :
    ∀ x2, x2 ≠ [] → List.IsSuffix x2 x → bibLookAt (x2 ++ y) = false := by
  induction x with
  | nil =>
    intro x2 hne hsuf
    exact absurd (List.suffix_nil.mp hsuf) hne
  | cons c r ih =>
    rw [noBibStop, Bool.and_eq_true] at h
    intro x2 hne hsuf
    obtain ⟨t, ht⟩ := hsuf
    cases t with
    | nil =>
      have hx2 : x2 = c :: r := by simpa using ht
      subst hx2
      simpa using h.1
    | cons d t' =>
      have ht2 : d :: (t' ++ x2) = c :: r := by simpa using ht
      injection ht2 with h1 h2
      exact ih h.2 x2 hne ⟨t', h2⟩

lemma substDollar_id (m p a T : List Char) (h : '$' ∉ T) :
    substDollar m p a T = T := by
  induction T with
  | nil => rfl
  | cons c r ih =>
    have hc : c ≠ '$' := fun he => h (he ▸ List.mem_cons_self c r)
    have hstep : substDollar m p a (c :: r) = c :: substDollar m p a r := by
      rw [substDollar.eq_def]
      exact if_neg hc
    rw [hstep, ih (fun hm => h (List.mem_cons_of_mem c hm))]

/-- C3 counterexample: the bibliography update is not idempotent.  On a note
without a `## Bibliography` section the first application appends
`\n\n## Bibliography\n<list>`; the second application then takes the replace
branch, whose replacement text ends with an extra newline, so the outputs of
the first and second application differ. -/
theorem updateBibliography_not_idempotent_cex :
    updateBibliography
        (updateBibliography ("Hello".toList) ("X".toList)) ("X".toList) ≠
      updateBibliography ("Hello".toList) ("X".toList) := by
  decide

/-- C3 (amended): when the note contains `## Bibliography\n` (leftmost
occurrence after `pre`, lazily matched body `body`, lookahead rest `after`)
and the rendered list contains no `$` (so the JS string-replacement
`$`-pattern substitution leaves it verbatim), the update replaces exactly the
heading-plus-body region with `## Bibliography\n<list>\n`, keeping `pre` and
`after`; it is idempotent on that branch whenever no lookahead match starts
inside the rendered list followed by the emitted newline; when the regex does
not match, the update appends `\n\n## Bibliography\n<list>` at the end
(whence a first append followed by a replace differ by one trailing newline,
see the counterexample); and a list containing `$$` is rewritten by the
substitution, shown concretely. -/
theorem updateBibliography_spec
    (content pre rest body after bibliographyList : List Char)
    (h1 : findSub bibHeading content = some (pre, rest))
    (h2 : lazyBib (rest.drop bibHeading.length) = (body, after))
    (hstop : noBibStop ('\n' :: after) bibliographyList = true)
    (hdol : '$' ∉ bibliographyList) :
    content = pre ++ (bibHeading ++ (body ++ after)) ∧
    updateBibliography content bibliographyList =
      pre ++ bibHeading ++ bibliographyList ++ '\n' :: after ∧
    updateBibliography (updateBibliography content bibliographyList)
        bibliographyList =
      updateBibliography content bibliographyList ∧
    (∀ c2, findSub bibHeading c2 = none →
      updateBibliography c2 bibliographyList =
        c2 ++ "\n\n## Bibliography\n".toList ++ bibliographyList) ∧
    updateBibliography ("## Bibliography\nold".toList) ("$$".toList) =
      "## Bibliography\n$\n".toList := by
  obtain ⟨hsnote, hpre⟩ := findSub_some _ _ _ _ h1
  have hrest := isPrefixOf_append_decomp _ _ hpre
  obtain ⟨hsplit, hBL⟩ := lazyBib_spec _ _ _ h2
  have hdec : content = pre ++ (bibHeading ++ (body ++ after)) := by
    rw [hsnote, hrest, hsplit]
  have hsub : ∀ m p2 a2, substDollar m p2 a2
      (bibHeading ++ (bibliographyList ++ ['\n'])) =
      bibHeading ++ (bibliographyList ++ ['\n']) := by
    intro m p2 a2
    apply substDollar_id
    intro hm
    rcases List.mem_append.mp hm with h9 | h9
    · revert h9; decide
    · rcases List.mem_append.mp h9 with h9 | h9
      · exact hdol h9
      · revert h9; decide
  have happ : updateBibliography content bibliographyList =
      pre ++ bibHeading ++ bibliographyList ++ '\n' :: after := by
    unfold updateBibliography
    rw [h1]
    simp only [h2, hsub]
    simp [List.append_assoc]
  have hres2form : pre ++ bibHeading ++ bibliographyList ++ '\n' :: after =
      pre ++ (bibHeading ++ (bibliographyList ++ '\n' :: after)) := by
    simp
  have hfind2 : findSub bibHeading
      (pre ++ bibHeading ++ bibliographyList ++ '\n' :: after) =
      some (pre, bibHeading ++ (bibliographyList ++ '\n' :: after)) := by
    rw [hres2form]
    apply findSub_replay bibHeading pre rest
    · rw [← hsnote]; exact h1
    · exact hpre
    · exact isPrefixOf_self_append _ _
  have hnlafter : bibLookAt ('\n' :: after) = false := by
    rcases hBL with h0 | hT
    · subst h0; decide
    · rcases hA : after with _ | ⟨a0, a'⟩
      · decide
      · have ha0 : a0 = '\n' := bibLookAt_head a0 a' (by rw [← hA]; exact hT)
        subst ha0
        exact bibLookAt_nl_nl a'
  have hafterstop : lazyBib after = ([], after) := by
    rcases hBL with h0 | hT
    · rw [h0]; rfl
    · exact lazyBib_stop after hT
  have hscan2 : lazyBib ((bibliographyList ++ ['\n']) ++ after) =
      ((bibliographyList ++ ['\n']) ++ (lazyBib after).1,
        (lazyBib after).2) := by
    apply lazyBib_skip
    intro x2 hne hsuf
    rcases suffix_append_cases x2 _ _ hsuf with hs1 | ⟨u2, hu2, hu2ne, hx2⟩
    · have hx1 : x2 = ['\n'] := by
        obtain ⟨t, ht⟩ := hs1
        cases t with
        | nil => simpa using ht
        | cons e t' =>
          exfalso
          have ht2 : e :: (t' ++ x2) = ['\n'] := by simpa using ht
          injection ht2 with ha hb
          exact hne (List.append_eq_nil.mp hb).2
      subst hx1
      exact hnlafter
    · rw [hx2]
      rw [show (u2 ++ ['\n']) ++ after = u2 ++ '\n' :: after by simp]
      exact noBibStop_spec _ _ hstop u2 hu2ne hu2
  have hidem : updateBibliography (pre ++ bibHeading ++ bibliographyList ++
      '\n' :: after) bibliographyList =
      pre ++ bibHeading ++ bibliographyList ++ '\n' :: after := by
    unfold updateBibliography
    rw [hfind2]
    simp only [List.drop_left]
    rw [show bibliographyList ++ '\n' :: after =
        (bibliographyList ++ ['\n']) ++ after by simp]
    rw [hscan2]
    simp only [hafterstop, hsub]
    simp [List.append_assoc]
  refine ⟨hdec, happ, ?_, fun c2 hn => ?_, by decide⟩
  · rw [happ, hidem]
  · simp only [updateBibliography, hn]

/-- Witness for C3 on a note with an existing bibliography followed by a
`## Notes` heading. -/
theorem updateBibliography_spec_witness :
    "Top\n## Bibliography\nold1\nold2\n\n## Notes\nTail".toList =
      "Top\n".toList ++ (bibHeading ++ ("old1\nold2\n".toList ++
        "\n## Notes\nTail".toList)) ∧
    updateBibliography
        "Top\n## Bibliography\nold1\nold2\n\n## Notes\nTail".toList
        "- new".toList =
      "Top\n".toList ++ bibHeading ++ "- new".toList ++ '\n' ::
        "\n## Notes\nTail".toList ∧
    updateBibliography (updateBibliography
        "Top\n## Bibliography\nold1\nold2\n\n## Notes\nTail".toList
        "- new".toList) "- new".toList =
      updateBibliography
        "Top\n## Bibliography\nold1\nold2\n\n## Notes\nTail".toList
        "- new".toList ∧
    (∀ c2, findSub bibHeading c2 = none →
      updateBibliography c2 "- new".toList =
        c2 ++ "\n\n## Bibliography\n".toList ++ "- new".toList) ∧
    updateBibliography ("## Bibliography\nold".toList) ("$$".toList) =
      "## Bibliography\n$\n".toList :=
  updateBibliography_spec
    "Top\n## Bibliography\nold1\nold2\n\n## Notes\nTail".toList
    "Top\n".toList
    "## Bibliography\nold1\nold2\n\n## Notes\nTail".toList
    "old1\nold2\n".toList "\n## Notes\nTail".toList "- new".toList
    (by decide) (by decide) (by decide) (by decide)

/-- One-level brace well-formedness of a brace-regex capture body: the flag
tells whether the scan is inside a `\x7b...\x7d` group; a top-level `\x7d`, a
nested `\x7b`, or an unclosed group is rejected. -/
def oneLevel : Bool → List Char → Bool
  | b, [] => !b
  | b, c :: r =>
    if c = '\x7d' then b && oneLevel false r
    else if c = '\x7b' then !b && oneLevel true r
    else oneLevel b r

lemma braceValue_oneLevel (v : List Char) : ∀ (b : Bool) (rest : List Char),
    oneLevel b v = true →
    braceValue (if b then 1 else 0) (v ++ '\x7d' :: rest) = some v := by
  induction v with
  | nil =>
    intro b rest h
    cases b with
    | false => simp [braceValue]
    | true => simp [oneLevel] at h
  | cons c v' ih =>
    intro b rest h
    rw [oneLevel] at h
    by_cases hc : c = '\x7d'
    · subst hc
      rw [if_pos rfl, Bool.and_eq_true] at h
      cases b with
      | false => cases h.1
      | true =>
        have h5 := ih false rest h.2
        rw [if_neg (Bool.false_ne_true)] at h5
        rw [List.cons_append]
        simp [braceValue, h5]
    · by_cases hb : c = '\x7b'
      · subst hb
        rw [if_neg (by decide), if_pos rfl, Bool.and_eq_true] at h
        cases b with
        | true => simp at h
        | false =>
          have h5 := ih true rest h.2
          rw [if_pos rfl] at h5
          rw [List.cons_append]
          simp [braceValue, h5]
      · rw [if_neg hc, if_neg hb] at h
        have := ih b rest h
        rw [List.cons_append]
        cases b with
        | false => simpa [braceValue, hc, hb] using this
        | true => simpa [braceValue, hc, hb] using this

lemma matchBraceAt_some_mem (field s v : List Char)
    (h : matchBraceAt field s = some v) : '\x7b' ∈ s ∧ '=' ∈ s := by
  unfold matchBraceAt at h
  split at h
  next hf =>
    split at h
    next r2 heq =>
      split at h
      next r4 heq2 =>
        have h1 : '\x7b' ∈ r2 := by
          have : '\x7b' ∈ r2.dropWhile isSpaceJS := by rw [heq2]; simp
          exact List.Sublist.mem this (List.dropWhile_sublist _)
        have h2 : '=' ∈ (s.drop field.length) := by
          have h3 : '=' ∈ (s.drop field.length).dropWhile isSpaceJS := by
            rw [heq]; simp
          exact List.Sublist.mem h3 (List.dropWhile_sublist _)
        have h4 : '\x7b' ∈ (s.drop field.length) := by
          have h5 : '\x7b' ∈ (s.drop field.length).dropWhile isSpaceJS := by
            rw [heq]
            exact List.mem_cons_of_mem _ h1
          exact List.Sublist.mem h5 (List.dropWhile_sublist _)
        exact ⟨List.drop_subset _ _ h4, List.drop_subset _ _ h2⟩
      next => cases h
    next => cases h
  next => cases h

lemma matchQuoteAt_some_mem (field s v : List Char)
    (h : matchQuoteAt field s = some v) : '=' ∈ s := by
  unfold matchQuoteAt at h
  split at h
  next hf =>
    split at h
    next r2 heq =>
      have h3 : '=' ∈ (s.drop field.length).dropWhile isSpaceJS := by
        rw [heq]; simp
      exact List.drop_subset _ _
        (List.Sublist.mem h3 (List.dropWhile_sublist _))
    next => cases h
  next => cases h

lemma searchBrace_none_of_no_brace (field s : List Char) (h : '\x7b' ∉ s) :
    searchBrace field s = none := by
  induction s with
  | nil => rfl
  | cons c r ih =>
    rw [searchBrace]
    rcases hm : matchBraceAt field (c :: r) with _ | v
    · exact ih (fun hmem => h (List.mem_cons_of_mem c hmem))
    · exact absurd (matchBraceAt_some_mem field _ v hm).1 h

lemma searchBrace_none_of_no_eq (field s : List Char) (h : '=' ∉ s) :
    searchBrace field s = none := by
  induction s with
  | nil => rfl
  | cons c r ih =>
    rw [searchBrace]
    rcases hm : matchBraceAt field (c :: r) with _ | v
    · exact ih (fun hmem => h (List.mem_cons_of_mem c hmem))
    · exact absurd (matchBraceAt_some_mem field _ v hm).2 h

lemma searchQuote_none_of_no_eq (field s : List Char) (h : '=' ∉ s) :
    searchQuote field s = none := by
  induction s with
  | nil => rfl
  | cons c r ih =>
    rw [searchQuote]
    rcases hm : matchQuoteAt field (c :: r) with _ | v
    · exact ih (fun hmem => h (List.mem_cons_of_mem c hmem))
    · exact absurd (matchQuoteAt_some_mem field _ v hm) h

lemma matchBraceAt_head (field v rest : List Char)
    (hfield : toLowerL field = field) (hv : oneLevel false v = true) :
    matchBraceAt field (field ++ (" = \x7b".toList ++ (v ++ '\x7d' :: rest))) =
      some v := by
  unfold matchBraceAt
  rw [List.take_left, hfield, if_pos rfl, List.drop_left]
  have heq1 : ((" = \x7b".toList ++ (v ++ '\x7d' :: rest)).dropWhile isSpaceJS)
      = '=' :: (' ' :: '\x7b' :: (v ++ '\x7d' :: rest)) := by
    show ((' ' :: '=' :: ' ' :: '\x7b' :: (v ++ '\x7d' :: rest)).dropWhile
      isSpaceJS) = _
    rw [List.dropWhile_cons_of_pos (by decide),
      List.dropWhile_cons_of_neg (by decide)]
  rw [heq1]
  have heq2 : (' ' :: '\x7b' :: (v ++ '\x7d' :: rest)).dropWhile isSpaceJS =
      '\x7b' :: (v ++ '\x7d' :: rest) := by
    rw [List.dropWhile_cons_of_pos (by decide),
      List.dropWhile_cons_of_neg (by decide)]
  simp only [heq2]
  have h5 := braceValue_oneLevel v false rest hv
  rw [if_neg Bool.false_ne_true] at h5
  simp only [h5]

lemma matchQuoteAt_head (field q rest2 : List Char)
    (hfield : toLowerL field = field) (hq : '"' ∉ q) :
    matchQuoteAt field
        (field ++ (" = ".toList ++ '"' :: (q ++ '"' :: rest2))) =
      some q := by
  unfold matchQuoteAt
  rw [List.take_left, hfield, if_pos rfl, List.drop_left]
  have heq1 : ((" = ".toList ++ ('"' :: (q ++ '"' :: rest2))).dropWhile
      isSpaceJS) = '=' :: (' ' :: '"' :: (q ++ '"' :: rest2)) := by
    show ((' ' :: '=' :: ' ' :: '"' :: (q ++ '"' :: rest2)).dropWhile
      isSpaceJS) = _
    rw [List.dropWhile_cons_of_pos (by decide),
      List.dropWhile_cons_of_neg (by decide)]
  rw [heq1]
  have heq2 : (' ' :: '"' :: (q ++ '"' :: rest2)).dropWhile isSpaceJS =
      '"' :: (q ++ '"' :: rest2) := by
    rw [List.dropWhile_cons_of_pos (by decide),
      List.dropWhile_cons_of_neg (by decide)]
  simp only [heq2]
  have hall : ∀ c ∈ q, (c != '"') = true := by
    intro c hc
    simp only [bne_iff_ne, ne_eq]
    exact fun he => hq (he ▸ hc)
  have hdw : (q ++ '"' :: rest2).dropWhile (fun c => c != '"') =
      '"' :: rest2 := by
    rw [dropWhile_append_of_all _ _ _ hall,
      List.dropWhile_cons_of_neg (by decide)]
  have htw : (q ++ '"' :: rest2).takeWhile (fun c => c != '"') = q := by
    rw [takeWhile_append_of_all _ _ _ hall,
      List.takeWhile_cons_of_neg (by decide), List.append_nil]
  simp only [hdw, htw]

/-- C5 counterexample: only the bibtex-converter extraction captures a
one-level nested brace value in full; the citation-formatter extraction,
whose single regex stops the capture at the first `\x7d` or `"`, truncates
`\x7ba\x7bb\x7dc\x7d` to `a\x7bb`. -/
theorem extractFieldSimple_nested_cex :
    extractFieldSimple ("title".toList) ("title = \x7ba\x7bb\x7dc\x7d".toList) =
      some ("a\x7bb".toList) ∧
    extractField ("title".toList) ("title = \x7ba\x7bb\x7dc\x7d".toList) =
      some ("a\x7bb\x7dc".toList) := by
  decide

/-- C5 (amended, for the bibtex-converter `extractField` of part_003): a
lowercase field assignment `field = \x7bv\x7d` whose value is one-level brace
well-formed is captured in full (trimmed); with no brace in the text, a
quoted assignment `field = "q"` is captured (trimmed); with no `=` in the
text, the result is `none` (no error); and the brace regex wins over an
earlier quote form. -/
theorem extractField_braces_spec
    (field v q rest rest2 bib : List Char)
    (hfield : toLowerL field = field) (hfne : field ≠ [])
    (hv : oneLevel false v = true)
    (hq : '"' ∉ q)
    (hnb : '\x7b' ∉ field ++ (" = ".toList ++ '"' :: (q ++ '"' :: rest2))) :
    extractField field (field ++ (" = \x7b".toList ++ (v ++ '\x7d' :: rest))) =
      some (trimL v) ∧
    extractField field (field ++ (" = ".toList ++ '"' :: (q ++ '"' :: rest2)))
      = some (trimL q) ∧
    ('=' ∉ bib → extractField field bib = none) ∧
    extractField ("title".toList)
        ("title = \x22Q\x22 junk title = \x7bV\x7d".toList) =
      some ("V".toList) := by
  obtain ⟨fc, f', hf⟩ : ∃ fc f', field = fc :: f' := by
    cases field with
    | nil => exact absurd rfl hfne
    | cons a b => exact ⟨a, b, rfl⟩
  refine ⟨?_, ?_, ?_, by decide⟩
  · have hm := matchBraceAt_head field v rest hfield hv
    have hs : searchBrace field
        (field ++ (" = \x7b".toList ++ (v ++ '\x7d' :: rest))) = some v := by
      rw [hf, List.cons_append] at hm ⊢
      rw [searchBrace]
      simp only [hm]
    simp only [extractField, hs]
  · have hm := matchQuoteAt_head field q rest2 hfield hq
    have hsb := searchBrace_none_of_no_brace field _ hnb
    have hs : searchQuote field
        (field ++ (" = ".toList ++ '"' :: (q ++ '"' :: rest2))) = some q := by
      rw [hf, List.cons_append] at hm ⊢
      rw [searchQuote]
      simp only [hm]
    simp only [extractField, hsb, hs]
  · intro hne
    simp only [extractField, searchBrace_none_of_no_eq field bib hne,
      searchQuote_none_of_no_eq field bib hne]

/-- Witness for C5 at a nested one-level value, a quoted value, and a text
without `=`. -/
theorem extractField_braces_spec_witness :
    extractField ("title".toList)
        ("title".toList ++ (" = \x7b".toList ++
          ("a\x7bb\x7dc".toList ++ '\x7d' :: ", y=2".toList))) =
      some (trimL ("a\x7bb\x7dc".toList)) ∧
    extractField ("title".toList)
        ("title".toList ++ (" = ".toList ++ '"' ::
          ("Q".toList ++ '"' :: "z".toList))) =
      some (trimL ("Q".toList)) ∧
    ('=' ∉ ("no equals here".toList) →
      extractField ("title".toList) ("no equals here".toList) = none) ∧
    extractField ("title".toList)
        ("title = \x22Q\x22 junk title = \x7bV\x7d".toList) =
      some ("V".toList) :=
  extractField_braces_spec ("title".toList) ("a\x7bb\x7dc".toList)
    ("Q".toList) (", y=2".toList) ("z".toList) ("no equals here".toList)
    (by decide) (by decide) (by decide) (by decide) (by decide)

/-! ### C2: `bibtexToMetadata` (part_003 lines 7-68) and the metadata round
trip -/

/-- The `fields` list of `bibtexToMetadata` (part_003 lines 33-39), in
extraction order. -/
def fieldsBM : List (List Char) :=
  ["author", "title", "year", "publisher", "journal",
   "volume", "number", "pages", "address", "edition",
   "booktitle", "editor", "doi", "isbn", "issn",
   "url", "note", "series", "chapter", "organization",
   "school", "institution", "howpublished", "month"].map String.toList

/-- `bibtex.match(/^@(\w+)\{/)`: the anchored entry-type header. -/
def matchEntryType (s : List Char) : Option (List Char) :=
  match s with
  | '@' :: r =>
    let w := r.takeWhile isWordChar
    if w = [] then none
    else
      match r.dropWhile isWordChar with
      | '\x7b' :: _ => some w
      | _ => none
  | _ => none

/-- One `field: "escaped"` metadata line; `none` for an absent or empty
(falsy) value. -/
def bmFieldLine (bibtex field : List Char) : Option (List Char) :=
  match extractField field bibtex with
  | some v =>
    if v = [] then none
    else some (field ++ ": \x22".toList ++ (escapeValue v ++ ['\x22']))
  | none => none

/-- `bibtexToMetadata` (part_003 lines 7-68): entry type (lower-cased, `misc`
fallback), normalized citekey (`none` models the `extractCiteKey` throw),
then one quoted, escaped line per present truthy field. -/
def bibtexToMetadata (bibtex : List Char) : Option (List Char) :=
  (extractCiteKey bibtex).map fun citeKey =>
    let entryType :=
      match matchEntryType bibtex with
      | some w => toLowerL w
      | none => "misc".toList
    List.intercalate ['\n']
      (("type: ".toList ++ entryType) :: ("citekey: ".toList ++ citeKey) ::
        (fieldsBM.filterMap (bmFieldLine bibtex)))

/-- C2 counterexample: on an entry whose only field is `booktitle`, the
unanchored case-insensitive regex for `title` matches inside
`booktitle = \x7bB\x7d`, so the round trip invents a `title` field: the
reconstructed entry's field set differs from the original's. -/
theorem bibtex_metadata_roundtrip_cex :
    bibtexToMetadata ("@book\x7bK,\n  booktitle = \x7bB\x7d,\n\x7d".toList) =
      some
        ("type: book\ncitekey: K\ntitle: \x22B\x22\nbooktitle: \x22B\x22".toList) ∧
    (bibtexToMetadata
        ("@book\x7bK,\n  booktitle = \x7bB\x7d,\n\x7d".toList)).bind
        metadataToBibtex =
      some ("@book\x7bK,\n  title = \x7bB\x7d,\n  booktitle = \x7bB\x7d,\n\x7d".toList) := by
  decide

/-- A value character acceptable for the round trip: none of the escaped
specials, no brace, no `=`, no quote of either kind. -/
def goodChar (c : Char) : Bool :=
  !(c = '\\' || c = '\x22' || c = '\n' || c = '\t' || c = '\r' ||
    c = '\x7b' || c = '\x7d' || c = '=' || c = Char.ofNat 39)

/-- A value acceptable for the round trip: nonempty, trim-fixed, good
characters only. -/
def goodVal (v : List Char) : Bool :=
  !v.isEmpty && trimL v == v && v.all goodChar

/-- The canonical serialization of a `title`/`booktitle` entry, exactly the
output format of `metadataToBibtex`. -/
def serTB (t k ti b : List Char) : List Char :=
  '@' :: (t ++ '\x7b' :: (k ++ (",\n  title = \x7b".toList ++
    (ti ++ ("\x7d,\n  booktitle = \x7b".toList ++ (b ++ "\x7d,\n\x7d".toList))))))

/-- The corresponding metadata block, exactly the output format of
`bibtexToMetadata`. -/
def metaTB (t k ti b : List Char) : List Char :=
  "type: ".toList ++ (t ++ ("\ncitekey: ".toList ++ (k ++
    ("\ntitle: \x22".toList ++ (ti ++ ("\x22\nbooktitle: \x22".toList ++
      (b ++ ['\x22'])))))))

/-- No brace-regex match for `field` can start inside `x` when `y` follows. -/
def noBraceMatch (field x y : List Char) : Prop :=
  ∀ x2, x2 ≠ [] → List.IsSuffix x2 x → matchBraceAt field (x2 ++ y) = none

/-- Suffix check on a structural literal: every tail shorter than the field
name has a character whose lower case is outside the name (so a window
crossing the literal's end cannot spell the name), and every window of name
length inside the literal either differs from the name or is not followed
(after whitespace within the literal) by `=`. -/
def litNoMatch (field : List Char) : List Char → Bool
  | [] => true
  | c :: r =>
    (if (c :: r).length < field.length then
      (c :: r).any (fun d => !(field.contains (Char.toLower d)))
     else
      !(toLowerL ((c :: r).take field.length) == field &&
        ((((c :: r).drop field.length).dropWhile isSpaceJS).head? ==
          some '='))) &&
    litNoMatch field r

lemma matchBraceAt_none_of_window (field s : List Char)
    (h : toLowerL (s.take field.length) ≠ field) :
    matchBraceAt field s = none := by
  unfold matchBraceAt
  rw [if_neg h]

lemma matchBraceAt_none_of_no_eq_head (field s : List Char)
    (h : ((s.drop field.length).dropWhile isSpaceJS).head? ≠ some '=') :
    matchBraceAt field s = none := by
  unfold matchBraceAt
  split
  · split
    next r2 heq => exact absurd (by rw [heq]; rfl) h
    next => rfl
  · rfl

lemma window_ne_of_mem (field s : List Char) (c : Char)
    (hc : c ∈ s.take field.length) (hf : Char.toLower c ∉ field) :
    toLowerL (s.take field.length) ≠ field := by
  intro he
  exact hf (he ▸ List.mem_map_of_mem Char.toLower hc)

lemma searchBrace_skip (field x y : List Char)
    (h : noBraceMatch field x y) :
    searchBrace field (x ++ y) = searchBrace field y := by
  induction x with
  | nil => simp
  | cons c x' ih =>
    have hnone : matchBraceAt field (c :: (x' ++ y)) = none := by
      have h9 := h (c :: x') (by simp) (List.suffix_refl _)
      simpa using h9
    rw [List.cons_append, searchBrace]
    simp only [hnone]
    exact ih (fun x2 hne hsuf => h x2 hne (hsuf.trans (List.suffix_cons c x')))

lemma searchBrace_none_all (field s : List Char)
    (h : noBraceMatch field s []) : searchBrace field s = none := by
  have h9 := searchBrace_skip field s [] h
  rw [List.append_nil] at h9
  rw [h9]
  rfl

lemma noBraceMatch_append (field x1 x2 y : List Char)
    (h1 : noBraceMatch field x1 (x2 ++ y)) (h2 : noBraceMatch field x2 y) :
    noBraceMatch field (x1 ++ x2) y := by
  intro x3 hne hsuf
  rcases suffix_append_cases x3 _ _ hsuf with hs | ⟨u2, hu2, hu2ne, hx3⟩
  · exact h2 x3 hne hs
  · rw [hx3, List.append_assoc]
    exact h1 u2 hu2ne hu2

lemma noBraceMatch_soft (field w y : List Char)
    (hw : ∀ c ∈ w, c ≠ '=') (c0 : Char)
    (hy : y.head? = some c0) (hc0ws : isSpaceJS c0 = false)
    (hc0eq : c0 ≠ '=') (hc0f : Char.toLower c0 ∉ field) :
    noBraceMatch field w y := by
  intro x2 hne hsuf
  have hx2w : ∀ c ∈ x2, c ≠ '=' :=
    fun c hc => hw c (List.Sublist.mem hc hsuf.sublist)
  have hyc : y = c0 :: y.tail := by
    cases y with
    | nil => cases hy
    | cons a t =>
      have ha : a = c0 := by simpa using hy
      rw [ha]
      rfl
  by_cases hlen : x2.length < field.length
  · apply matchBraceAt_none_of_window
    apply window_ne_of_mem field (x2 ++ y) c0 _ hc0f
    rw [List.take_append_eq_append_take]
    apply List.mem_append_right
    rcases hm : field.length - x2.length with _ | n
    · omega
    · rw [hyc]
      simp
  · apply matchBraceAt_none_of_no_eq_head
    rw [List.drop_append_of_le_length (by omega)]
    rcases hdz : (x2.drop field.length).dropWhile isSpaceJS with _ | ⟨d, z'⟩
    · rw [List.dropWhile_append, hdz]
      simp only [List.isEmpty_nil, if_true]
      rw [hyc, List.dropWhile_cons_of_neg (by rw [hc0ws]; simp)]
      simpa using hc0eq
    · rw [List.dropWhile_append, hdz]
      simp only [List.isEmpty_cons, if_false]
      have hd : d ∈ x2.drop field.length := by
        have h8 : d ∈ (x2.drop field.length).dropWhile isSpaceJS := by
          rw [hdz]; simp
        exact List.Sublist.mem h8 (List.dropWhile_sublist _)
      have h7 : d ≠ '=' := hx2w d (List.drop_subset _ _ hd)
      simpa using h7

lemma litNoMatch_spec (field lit : List Char)
    (h : litNoMatch field lit = true) :
    ∀ x2, x2 ≠ [] → List.IsSuffix x2 lit →
      (if x2.length < field.length then
        ∃ d ∈ x2, Char.toLower d ∉ field
       else
        (toLowerL (x2.take field.length) = field →
          (((x2.drop field.length).dropWhile isSpaceJS).head? ≠
            some '='))) := by
  induction lit with
  | nil =>
    intro x2 hne hsuf
    exact absurd (List.suffix_nil.mp hsuf) hne
  | cons c r ih =>
    rw [litNoMatch, Bool.and_eq_true] at h
    intro x2 hne hsuf
    obtain ⟨t, ht⟩ := hsuf
    cases t with
    | nil =>
      have hx2 : x2 = c :: r := by simpa using ht
      subst hx2
      have h1 := h.1
      split at h1
      next hlen =>
        rw [if_pos hlen]
        rw [List.any_eq_true] at h1
        obtain ⟨d, hd, hdf⟩ := h1
        refine ⟨d, hd, ?_⟩
        intro hmem
        rw [Bool.not_eq_eq_eq_not, Bool.not_true] at hdf
        simp at hdf
        exact hdf hmem
      next hlen =>
        rw [if_neg hlen]
        intro hwin heq
        rw [Bool.not_eq_eq_eq_not, Bool.not_true, Bool.and_eq_false_iff] at h1
        rcases h1 with h1 | h1
        · rw [beq_eq_false_iff_ne] at h1
          exact h1 hwin
        · rw [beq_eq_false_iff_ne] at h1
          exact h1 heq
    | cons e t' =>
      have ht2 : e :: (t' ++ x2) = c :: r := by simpa using ht
      injection ht2 with h1 h2
      exact ih h.2 x2 hne ⟨t', h2⟩

lemma noBraceMatch_lit (field lit y : List Char)
    (hlit : litNoMatch field lit = true)
    (hy : y = [] ∨ ∃ c0, y.head? = some c0 ∧ isSpaceJS c0 = false ∧
      c0 ≠ '=') :
    noBraceMatch field lit y := by
  intro x2 hne hsuf
  have hP := litNoMatch_spec field lit hlit x2 hne hsuf
  by_cases hlen : x2.length < field.length
  · rw [if_pos hlen] at hP
    obtain ⟨d, hd, hdf⟩ := hP
    apply matchBraceAt_none_of_window
    apply window_ne_of_mem field _ d _ hdf
    rw [List.take_append_eq_append_take]
    exact List.mem_append_left _
      (by rw [List.take_of_length_le (le_of_lt hlen)]; exact hd)
  · rw [if_neg hlen] at hP
    by_cases hwin : toLowerL ((x2 ++ y).take field.length) = field
    · have htake : (x2 ++ y).take field.length = x2.take field.length :=
        List.take_append_of_le_length (by omega)
      apply matchBraceAt_none_of_no_eq_head
      have hP2 := hP (by rw [← htake]; exact hwin)
      rw [List.drop_append_of_le_length (by omega), List.dropWhile_append]
      rcases hdz : (x2.drop field.length).dropWhile isSpaceJS with _ | ⟨d, z'⟩
      · simp only [List.isEmpty_nil, if_true]
        rcases hy with hy0 | ⟨c0, hyh, hc0ws, hc0eq⟩
        · subst hy0; simp
        · have hyc : y = c0 :: y.tail := by
            cases y with
            | nil => cases hyh
            | cons a t =>
              have ha : a = c0 := by simpa using hyh
              rw [ha]
              rfl
          rw [hyc, List.dropWhile_cons_of_neg (by rw [hc0ws]; simp)]
          simpa using hc0eq
      · simp only [List.isEmpty_cons, if_false]
        rw [hdz] at hP2
        simpa using hP2
    · exact matchBraceAt_none_of_window field _ hwin

lemma oneLevel_of_clean (v : List Char) (hb : '\x7b' ∉ v)
    (hc : '\x7d' ∉ v) : oneLevel false v = true := by
  induction v with
  | nil => rfl
  | cons c r ih =>
    rw [oneLevel,
      if_neg (fun (he : c = '\x7d') => hc (he ▸ List.mem_cons_self c r)),
      if_neg (fun (he : c = '\x7b') => hb (he ▸ List.mem_cons_self c r))]
    exact ih (fun hm => hb (List.mem_cons_of_mem c hm))
      (fun hm => hc (List.mem_cons_of_mem c hm))

lemma replaceSub1_id (a : Char) (rep l : List Char) (h : a ∉ l) :
    replaceSub1 a rep l = l := by
  induction l with
  | nil => rfl
  | cons c r ih =>
    rw [replaceSub1, if_neg (fun (he : c = a) => h (he ▸ List.mem_cons_self c r)),
      ih (fun hm => h (List.mem_cons_of_mem c hm))]

lemma replaceSub2_id (a b : Char) (rep l : List Char) (h : a ∉ l) :
    replaceSub2 a b rep l = l := by
  induction l with
  | nil => rfl
  | cons c r ih =>
    cases r with
    | nil =>
      rfl
    | cons d r' =>
      rw [replaceSub2,
        if_neg (fun (he : c = a ∧ d = b) => h (he.1 ▸ List.mem_cons_self c _)),
        ih (fun hm => h (List.mem_cons_of_mem c hm))]

lemma escapeValue_id (v : List Char) (h : ∀ c ∈ v, goodChar c = true) :
    escapeValue v = v := by
  have hmem : ∀ (a : Char), goodChar a = false → a ∉ v :=
    fun a ha hm => by rw [h a hm] at ha; cases ha
  unfold escapeValue
  rw [replaceSub1_id _ _ v (hmem '\\' (by decide)),
    replaceSub1_id _ _ v (hmem '"' (by decide)),
    replaceSub1_id _ _ v (hmem '\n' (by decide)),
    replaceSub1_id _ _ v (hmem '\r' (by decide)),
    replaceSub1_id _ _ v (hmem '\t' (by decide))]

lemma unescapeValue_id (v : List Char) (h : '\\' ∉ v) :
    unescapeValue v = v := by
  unfold unescapeValue
  rw [replaceSub2_id _ _ _ v h, replaceSub2_id _ _ _ v h,
    replaceSub2_id _ _ _ v h, replaceSub2_id _ _ _ v h,
    replaceSub2_id _ _ _ v h]

lemma trimL_eq_self (x : List Char)
    (hh : ∀ c, x.head? = some c → isSpaceJS c = false)
    (hl : ∀ c, x.getLast? = some c → isSpaceJS c = false) :
    trimL x = x := by
  cases x with
  | nil => rfl
  | cons d x' =>
    have hd : isSpaceJS d = false := hh d rfl
    unfold trimL
    rw [List.dropWhile_cons_of_neg (by rw [hd]; simp)]
    rcases hrev : (d :: x').reverse with _ | ⟨e, rev'⟩
    · simp at hrev
    · have hgl : (d :: x').getLast? = some e := by
        rw [← List.head?_reverse, hrev]; rfl
      have he : isSpaceJS e = false := hl e hgl
      rw [List.dropWhile_cons_of_neg (by rw [he]; simp), ← hrev,
        List.reverse_reverse]

lemma trimL_cons_ws (c : Char) (x : List Char) (hc : isSpaceJS c = true) :
    trimL (c :: x) = trimL x := by
  unfold trimL
  rw [List.dropWhile_cons_of_pos hc]

lemma splitNL_no_nl (x : List Char) (h : '\n' ∉ x) : splitNL x = [x] := by
  induction x with
  | nil => rfl
  | cons c r ih =>
    rw [splitNL, if_neg (fun (he : c = '\n') => h (he ▸ List.mem_cons_self c r)),
      ih (fun hm => h (List.mem_cons_of_mem c hm))]

lemma splitNL_append_nl (x y : List Char) (h : '\n' ∉ x) :
    splitNL (x ++ '\n' :: y) = x :: splitNL y := by
  induction x with
  | nil =>
    rw [List.nil_append, splitNL, if_pos rfl]
  | cons c r ih =>
    rw [List.cons_append, splitNL,
      if_neg (fun (he : c = '\n') => h (he ▸ List.mem_cons_self c r)),
      ih (fun hm => h (List.mem_cons_of_mem c hm))]

lemma parseLine_concat (key rest : List Char) (hk : ':' ∉ key) :
    parseLine (key ++ ':' :: rest) =
      some (toLowerL (trimL key), trimL rest) := by
  have htk : (key ++ ':' :: rest).takeWhile (fun c => c ≠ ':') = key := by
    rw [takeWhile_append_of_all _ _ _
        (fun c hc => by simp; exact fun he => hk (he ▸ hc)),
      List.takeWhile_cons_of_neg (by simp), List.append_nil]
  unfold parseLine
  rw [htk]
  rw [if_neg (by
    intro hlen
    rw [List.length_append, List.length_cons] at hlen
    omega)]
  have hdrop : (key ++ ':' :: rest).drop (key.length + 1) = rest := by
    rw [show key.length + 1 = (key ++ [':']).length by simp,
      show key ++ ':' :: rest = (key ++ [':']) ++ rest by simp,
      List.drop_left]
  rw [hdrop]

lemma matchQuoteAt_some_quote (field s v : List Char)
    (h : matchQuoteAt field s = some v) : '\x22' ∈ s := by
  unfold matchQuoteAt at h
  split at h
  next hf =>
    split at h
    next r2 heq =>
      split at h
      next r4 heq2 =>
        have h1 : '\x22' ∈ r2 := by
          have h2 : '\x22' ∈ r2.dropWhile isSpaceJS := by rw [heq2]; simp
          exact List.Sublist.mem h2 (List.dropWhile_sublist _)
        have h3 : '\x22' ∈ (s.drop field.length).dropWhile isSpaceJS := by
          rw [heq]
          exact List.mem_cons_of_mem _ h1
        exact List.drop_subset _ _
          (List.Sublist.mem h3 (List.dropWhile_sublist _))
      next => cases h
    next => cases h
  next => cases h

lemma searchQuote_none_of_no_quote (field s : List Char)
    (h : '\x22' ∉ s) : searchQuote field s = none := by
  induction s with
  | nil => rfl
  | cons c r ih =>
    rw [searchQuote]
    rcases hm : matchQuoteAt field (c :: r) with _ | v
    · exact ih (fun hmem => h (List.mem_cons_of_mem c hmem))
    · exact absurd (matchQuoteAt_some_quote field _ v hm) h

lemma matchEntryType_header (t rest : List Char)
    (ht : ∀ c ∈ t, isWordChar c = true) (htne : t ≠ []) :
    matchEntryType ('@' :: (t ++ '\x7b' :: rest)) = some t := by
  have htw : (t ++ '\x7b' :: rest).takeWhile isWordChar = t := by
    rw [takeWhile_append_of_all _ _ _ ht,
      List.takeWhile_cons_of_neg (by decide), List.append_nil]
  have hdw : (t ++ '\x7b' :: rest).dropWhile isWordChar = '\x7b' :: rest := by
    rw [dropWhile_append_of_all _ _ _ ht,
      List.dropWhile_cons_of_neg (by decide)]
  simp only [matchEntryType, htw, hdw]
  rw [if_neg htne]

lemma matchCiteKeyHeader_header (t k rest : List Char)
    (ht : ∀ c ∈ t, isWordChar c = true) (htne : t ≠ [])
    (hk : ∀ c ∈ k, c ≠ ',') (hkne : k ≠ []) :
    matchCiteKeyHeader ('@' :: (t ++ '\x7b' :: (k ++ ',' :: rest))) =
      some k := by
  have htw : (t ++ '\x7b' :: (k ++ ',' :: rest)).takeWhile isWordChar = t := by
    rw [takeWhile_append_of_all _ _ _ ht,
      List.takeWhile_cons_of_neg (by decide), List.append_nil]
  have hdw : (t ++ '\x7b' :: (k ++ ',' :: rest)).dropWhile isWordChar =
      '\x7b' :: (k ++ ',' :: rest) := by
    rw [dropWhile_append_of_all _ _ _ ht,
      List.dropWhile_cons_of_neg (by decide)]
  have hkw : (k ++ ',' :: rest).takeWhile (fun c => c ≠ ',') = k := by
    rw [takeWhile_append_of_all _ _ _
        (fun c hc => by simp; exact hk c hc),
      List.takeWhile_cons_of_neg (by simp), List.append_nil]
  have hkd : (k ++ ',' :: rest).dropWhile (fun c => c ≠ ',') =
      ',' :: rest := by
    rw [dropWhile_append_of_all _ _ _
        (fun c hc => by simp; exact hk c hc),
      List.dropWhile_cons_of_neg (by simp)]
  simp only [matchCiteKeyHeader, htw, hdw, hkw, hkd]
  rw [if_neg htne, if_neg hkne]

lemma noBraceMatch_append_nil (field x1 x2 : List Char)
    (h1 : noBraceMatch field x1 x2) (h2 : noBraceMatch field x2 []) :
    noBraceMatch field (x1 ++ x2) [] :=
  noBraceMatch_append field x1 x2 [] (by rwa [List.append_nil]) h2

lemma goodVal_facts (v : List Char) (h : goodVal v = true) :
    v ≠ [] ∧ trimL v = v ∧ ∀ c ∈ v, goodChar c = true := by
  rw [goodVal, Bool.and_eq_true, Bool.and_eq_true] at h
  refine ⟨?_, ?_, ?_⟩
  · intro h0
    rw [h0] at h
    simp at h
  · exact beq_iff_eq.mp h.1.2
  · exact fun c hc => List.all_eq_true.mp h.2 c hc

lemma goodVal_head (v : List Char) (h : goodVal v = true) :
    ∃ c0, v.head? = some c0 ∧ isSpaceJS c0 = false ∧ c0 ≠ '=' := by
  obtain ⟨hne, htr, hcl⟩ := goodVal_facts v h
  cases hv : v with
  | nil => exact absurd hv hne
  | cons c0 v' =>
    refine ⟨c0, rfl, ?_, ?_⟩
    · have h9 : (trimL v).head? = some c0 := by rw [htr, hv]; rfl
      exact trimL_head_spec v c0 h9
    · have h9 := hcl c0 (by rw [hv]; simp)
      intro he
      rw [he] at h9
      cases h9

lemma goodVal_no_eq (v : List Char) (h : goodVal v = true) :
    ∀ c ∈ v, c ≠ '=' := by
  obtain ⟨-, -, hcl⟩ := goodVal_facts v h
  intro c hc he
  have h9 := hcl c hc
  rw [he] at h9
  cases h9

lemma serTB_no_quote (t k ti b : List Char)
    (ht : ∀ c ∈ t, isWordChar c = true)
    (hk : ∀ c ∈ k, isWordChar c = true ∨ c = '-')
    (hti : goodVal ti = true) (hb : goodVal b = true) :
    '\x22' ∉ serTB t k ti b := by
  obtain ⟨-, -, hticl⟩ := goodVal_facts ti hti
  obtain ⟨-, -, hbcl⟩ := goodVal_facts b hb
  intro hmem
  simp only [serTB, List.mem_cons, List.mem_append] at hmem
  rcases hmem with h | h
  · cases h
  rcases h with h | h
  · have h9 := ht _ h
    rw [show isWordChar '\x22' = false from by decide] at h9
    cases h9
  rcases h with h | h
  · cases h
  rcases h with h | h
  · rcases hk _ h with h9 | h9
    · rw [show isWordChar '\x22' = false from by decide] at h9
      cases h9
    · cases h9
  rcases h with h | h
  · revert h; decide
  rcases h with h | h
  · have h9 := hticl _ h
    rw [show goodChar '\x22' = false from by decide] at h9
    cases h9
  rcases h with h | h
  · revert h; decide
  rcases h with h | h
  · have h9 := hbcl _ h
    rw [show goodChar '\x22' = false from by decide] at h9
    cases h9
  · revert h; decide

lemma head?_append_of_head (l1 l2 : List Char) (c : Char)
    (h : l1.head? = some c) : (l1 ++ l2).head? = some c := by
  cases l1 with
  | nil => cases h
  | cons a t => simpa using h

lemma wordish_not_ws_eq (c : Char)
    (h : isWordChar c = true ∨ c = '-') :
    isSpaceJS c = false ∧ c ≠ '=' := by
  rcases h with h | h
  · constructor
    · by_contra hw
      simp only [Bool.not_eq_false] at hw
      rw [isSpaceJS] at hw
      simp only [Bool.or_eq_true, beq_iff_eq] at hw
      rcases hw with ((((h1|h1)|h1)|h1)|h1)|h1 <;> (subst h1; revert h; decide)
    · intro he
      subst he
      rw [show isWordChar '=' = false from by decide] at h
      cases h
  · subst h
    exact ⟨by decide, by decide⟩

lemma wordish_head_facts (w : List Char)
    (hw : ∀ c ∈ w, isWordChar c = true ∨ c = '-') (hne : w ≠ []) :
    ∃ c0, w.head? = some c0 ∧ isSpaceJS c0 = false ∧ c0 ≠ '=' := by
  cases w with
  | nil => exact absurd rfl hne
  | cons c0 w' =>
    obtain ⟨h1, h2⟩ := wordish_not_ws_eq c0 (hw c0 (by simp))
    exact ⟨c0, rfl, h1, h2⟩

lemma wordish_no_eq (w : List Char)
    (hw : ∀ c ∈ w, isWordChar c = true ∨ c = '-') :
    ∀ c ∈ w, c ≠ '=' :=
  fun c hc => (wordish_not_ws_eq c (hw c hc)).2

lemma serTB_search_absent (t k ti b f : List Char)
    (ht : ∀ c ∈ t, isWordChar c = true) (htne : t ≠ [])
    (hk : ∀ c ∈ k, isWordChar c = true ∨ c = '-') (hkne : k ≠ [])
    (hti : goodVal ti = true) (hb : goodVal b = true)
    (hl1 : litNoMatch f ("@".toList) = true)
    (hl2 : litNoMatch f ("\x7b".toList) = true)
    (hl3 : litNoMatch f (",\n  title = \x7b".toList) = true)
    (hl4 : litNoMatch f ("\x7d,\n  booktitle = \x7b".toList) = true)
    (hl5 : litNoMatch f ("\x7d,\n\x7d".toList) = true)
    (hs1 : Char.toLower '\x7b' ∉ f) (hs2 : Char.toLower ',' ∉ f)
    (hs3 : Char.toLower '\x7d' ∉ f) :
    searchBrace f (serTB t k ti b) = none := by
  apply searchBrace_none_all
  rw [show serTB t k ti b = "@".toList ++ (t ++ ("\x7b".toList ++ (k ++
      (",\n  title = \x7b".toList ++ (ti ++
        ("\x7d,\n  booktitle = \x7b".toList ++
          (b ++ "\x7d,\n\x7d".toList))))))) from rfl]
  obtain ⟨tc, htc, htcw, htceq⟩ :=
    wordish_head_facts t (fun c hc => Or.inl (ht c hc)) htne
  obtain ⟨kc, hkc, hkcw, hkceq⟩ := wordish_head_facts k hk hkne
  obtain ⟨tic, htic, hticw, hticeq⟩ := goodVal_head ti hti
  obtain ⟨bc, hbc, hbcw, hbceq⟩ := goodVal_head b hb
  apply noBraceMatch_append_nil
  · exact noBraceMatch_lit _ _ _ hl1
      (Or.inr ⟨tc, head?_append_of_head _ _ _ htc, htcw, htceq⟩)
  apply noBraceMatch_append_nil
  · exact noBraceMatch_soft f t _
      (wordish_no_eq t (fun c hc => Or.inl (ht c hc))) '\x7b' rfl
      (by decide) (by decide) hs1
  apply noBraceMatch_append_nil
  · exact noBraceMatch_lit _ _ _ hl2
      (Or.inr ⟨kc, head?_append_of_head _ _ _ hkc, hkcw, hkceq⟩)
  apply noBraceMatch_append_nil
  · exact noBraceMatch_soft f k _ (wordish_no_eq k hk) ',' rfl
      (by decide) (by decide) hs2
  apply noBraceMatch_append_nil
  · exact noBraceMatch_lit _ _ _ hl3
      (Or.inr ⟨tic, head?_append_of_head _ _ _ htic, hticw, hticeq⟩)
  apply noBraceMatch_append_nil
  · exact noBraceMatch_soft f ti _ (goodVal_no_eq ti hti) '\x7d' rfl
      (by decide) (by decide) hs3
  apply noBraceMatch_append_nil
  · exact noBraceMatch_lit _ _ _ hl4
      (Or.inr ⟨bc, head?_append_of_head _ _ _ hbc, hbcw, hbceq⟩)
  apply noBraceMatch_append_nil
  · exact noBraceMatch_soft f b _ (goodVal_no_eq b hb) '\x7d' rfl
      (by decide) (by decide) hs3
  exact noBraceMatch_lit _ _ _ hl5 (Or.inl rfl)

lemma searchBrace_head_some (field s v : List Char) (hne : s ≠ [])
    (h : matchBraceAt field s = some v) : searchBrace field s = some v := by
  cases s with
  | nil => exact absurd rfl hne
  | cons c r =>
    rw [searchBrace]
    simp only [h]

lemma serTB_search_title (t k ti b : List Char)
    (ht : ∀ c ∈ t, isWordChar c = true) (htne : t ≠ [])
    (hk : ∀ c ∈ k, isWordChar c = true ∨ c = '-') (hkne : k ≠ [])
    (hti : goodVal ti = true) :
    searchBrace ("title".toList) (serTB t k ti b) = some ti := by
  obtain ⟨tine, titr, hticl⟩ := goodVal_facts ti hti
  obtain ⟨tc, htc, htcw, htceq⟩ :=
    wordish_head_facts t (fun c hc => Or.inl (ht c hc)) htne
  obtain ⟨kc, hkc, hkcw, hkceq⟩ := wordish_head_facts k hk hkne
  have hcat : (",\n  ".toList : List Char) ++ "title = \x7b".toList =
      ",\n  title = \x7b".toList := rfl
  have hsplit : serTB t k ti b =
      ("@".toList ++ (t ++ ("\x7b".toList ++ (k ++ ",\n  ".toList)))) ++
        ("title = \x7b".toList ++ (ti ++
          ("\x7d,\n  booktitle = \x7b".toList ++
            (b ++ "\x7d,\n\x7d".toList)))) := by
    simp only [serTB, ← hcat, List.cons_append, List.append_assoc,
      List.nil_append]
    rfl
  rw [hsplit]
  rw [searchBrace_skip]
  · apply searchBrace_head_some _ _ _ (by simp)
    rw [show ("title = \x7b".toList ++ (ti ++
        ("\x7d,\n  booktitle = \x7b".toList ++ (b ++ "\x7d,\n\x7d".toList)))) =
      "title".toList ++ (" = \x7b".toList ++ (ti ++ '\x7d' ::
        (",\n  booktitle = \x7b".toList ++ (b ++ "\x7d,\n\x7d".toList))))
      from rfl]
    exact matchBraceAt_head _ _ _ (by decide)
      (oneLevel_of_clean ti
        (fun hm => by
          have h9 := hticl _ hm
          rw [show goodChar '\x7b' = false from by decide] at h9
          cases h9)
        (fun hm => by
          have h9 := hticl _ hm
          rw [show goodChar '\x7d' = false from by decide] at h9
          cases h9))
  · apply noBraceMatch_append
    · exact noBraceMatch_lit _ _ _ (by decide)
        (Or.inr ⟨tc,
          head?_append_of_head _ _ _ (head?_append_of_head _ _ _ htc),
          htcw, htceq⟩)
    apply noBraceMatch_append
    · exact noBraceMatch_soft _ t _
        (wordish_no_eq t (fun c hc => Or.inl (ht c hc))) '\x7b'
        (head?_append_of_head _ _ _ rfl) (by decide) (by decide) (by decide)
    apply noBraceMatch_append
    · exact noBraceMatch_lit _ _ _ (by decide)
        (Or.inr ⟨kc,
          head?_append_of_head _ _ _ (head?_append_of_head _ _ _ hkc),
          hkcw, hkceq⟩)
    apply noBraceMatch_append
    · exact noBraceMatch_soft _ k _ (wordish_no_eq k hk) ','
        (head?_append_of_head _ _ _ rfl) (by decide) (by decide) (by decide)
    exact noBraceMatch_lit _ _ _ (by decide)
      (Or.inr ⟨'t', rfl, by decide, by decide⟩)

lemma serTB_search_booktitle (t k ti b : List Char)
    (ht : ∀ c ∈ t, isWordChar c = true) (htne : t ≠ [])
    (hk : ∀ c ∈ k, isWordChar c = true ∨ c = '-') (hkne : k ≠ [])
    (hti : goodVal ti = true) (hb : goodVal b = true) :
    searchBrace ("booktitle".toList) (serTB t k ti b) = some b := by
  obtain ⟨bne, btr, hbcl⟩ := goodVal_facts b hb
  obtain ⟨tc, htc, htcw, htceq⟩ :=
    wordish_head_facts t (fun c hc => Or.inl (ht c hc)) htne
  obtain ⟨kc, hkc, hkcw, hkceq⟩ := wordish_head_facts k hk hkne
  obtain ⟨tic, htic, hticw, hticeq⟩ := goodVal_head ti hti
  have hcat : ("\x7d,\n  ".toList : List Char) ++ "booktitle = \x7b".toList =
      "\x7d,\n  booktitle = \x7b".toList := rfl
  have hsplit : serTB t k ti b =
      ("@".toList ++ (t ++ ("\x7b".toList ++ (k ++
        (",\n  title = \x7b".toList ++ (ti ++ "\x7d,\n  ".toList)))))) ++
        ("booktitle = \x7b".toList ++ (b ++ "\x7d,\n\x7d".toList)) := by
    simp only [serTB, ← hcat, List.cons_append, List.append_assoc,
      List.nil_append]
    rfl
  rw [hsplit]
  rw [searchBrace_skip]
  · apply searchBrace_head_some _ _ _ (by simp)
    rw [show ("booktitle = \x7b".toList ++ (b ++ "\x7d,\n\x7d".toList)) =
      "booktitle".toList ++ (" = \x7b".toList ++ (b ++ '\x7d' ::
        ",\n\x7d".toList)) from rfl]
    exact matchBraceAt_head _ _ _ (by decide)
      (oneLevel_of_clean b
        (fun hm => by
          have h9 := hbcl _ hm
          rw [show goodChar '\x7b' = false from by decide] at h9
          cases h9)
        (fun hm => by
          have h9 := hbcl _ hm
          rw [show goodChar '\x7d' = false from by decide] at h9
          cases h9))
  · apply noBraceMatch_append
    · exact noBraceMatch_lit _ _ _ (by decide)
        (Or.inr ⟨tc,
          head?_append_of_head _ _ _ (head?_append_of_head _ _ _ htc),
          htcw, htceq⟩)
    apply noBraceMatch_append
    · exact noBraceMatch_soft _ t _
        (wordish_no_eq t (fun c hc => Or.inl (ht c hc))) '\x7b'
        (head?_append_of_head _ _ _ rfl) (by decide) (by decide) (by decide)
    apply noBraceMatch_append
    · exact noBraceMatch_lit _ _ _ (by decide)
        (Or.inr ⟨kc,
          head?_append_of_head _ _ _ (head?_append_of_head _ _ _ hkc),
          hkcw, hkceq⟩)
    apply noBraceMatch_append
    · exact noBraceMatch_soft _ k _ (wordish_no_eq k hk) ','
        (head?_append_of_head _ _ _ rfl) (by decide) (by decide) (by decide)
    apply noBraceMatch_append
    · exact noBraceMatch_lit _ _ _ (by decide)
        (Or.inr ⟨tic,
          head?_append_of_head _ _ _ (head?_append_of_head _ _ _ htic),
          hticw, hticeq⟩)
    apply noBraceMatch_append
    · exact noBraceMatch_soft _ ti _ (goodVal_no_eq ti hti) '\x7d'
        (head?_append_of_head _ _ _ rfl) (by decide) (by decide) (by decide)
    exact noBraceMatch_lit _ _ _ (by decide)
      (Or.inr ⟨'b', rfl, by decide, by decide⟩)

lemma serTB_extract_title (t k ti b : List Char)
    (ht : ∀ c ∈ t, isWordChar c = true) (htne : t ≠ [])
    (hk : ∀ c ∈ k, isWordChar c = true ∨ c = '-') (hkne : k ≠ [])
    (hti : goodVal ti = true) :
    extractField ("title".toList) (serTB t k ti b) = some ti := by
  obtain ⟨-, titr, -⟩ := goodVal_facts ti hti
  simp only [extractField, serTB_search_title t k ti b ht htne hk hkne hti]
  rw [titr]

lemma serTB_extract_booktitle (t k ti b : List Char)
    (ht : ∀ c ∈ t, isWordChar c = true) (htne : t ≠ [])
    (hk : ∀ c ∈ k, isWordChar c = true ∨ c = '-') (hkne : k ≠ [])
    (hti : goodVal ti = true) (hb : goodVal b = true) :
    extractField ("booktitle".toList) (serTB t k ti b) = some b := by
  obtain ⟨-, btr, -⟩ := goodVal_facts b hb
  simp only [extractField,
    serTB_search_booktitle t k ti b ht htne hk hkne hti hb]
  rw [btr]

lemma serTB_extract_absent (t k ti b : List Char)
    (ht : ∀ c ∈ t, isWordChar c = true) (htne : t ≠ [])
    (hk : ∀ c ∈ k, isWordChar c = true ∨ c = '-') (hkne : k ≠ [])
    (hti : goodVal ti = true) (hb : goodVal b = true) :
    ∀ f ∈ fieldsBM, f ≠ "title".toList → f ≠ "booktitle".toList →
      extractField f (serTB t k ti b) = none := by
  have hlits : ∀ f ∈ fieldsBM, f ≠ "title".toList →
      f ≠ "booktitle".toList →
      (litNoMatch f ("@".toList) = true ∧
       litNoMatch f ("\x7b".toList) = true ∧
       litNoMatch f (",\n  title = \x7b".toList) = true ∧
       litNoMatch f ("\x7d,\n  booktitle = \x7b".toList) = true ∧
       litNoMatch f ("\x7d,\n\x7d".toList) = true ∧
       Char.toLower '\x7b' ∉ f ∧ Char.toLower ',' ∉ f ∧
       Char.toLower '\x7d' ∉ f) := by decide
  intro f hf hft hfb
  obtain ⟨l1, l2, l3, l4, l5, s1, s2, s3⟩ := hlits f hf hft hfb
  have hsb := serTB_search_absent t k ti b f ht htne hk hkne hti hb
    l1 l2 l3 l4 l5 s1 s2 s3
  have hsq := searchQuote_none_of_no_quote f _
    (serTB_no_quote t k ti b ht hk hti hb)
  simp only [extractField, hsb, hsq]

lemma bibtexToMetadata_serTB (t k ti b : List Char)
    (ht : ∀ c ∈ t, isWordChar c = true) (htne : t ≠ [])
    (htl : toLowerL t = t)
    (hk : ∀ c ∈ k, isWordChar c = true ∨ c = '-') (hkne : k ≠ [])
    (hknorm : normalizeCiteKey k = k)
    (hti : goodVal ti = true) (hb : goodVal b = true) :
    bibtexToMetadata (serTB t k ti b) = some (metaTB t k ti b) := by
  obtain ⟨tine, titr, hticl⟩ := goodVal_facts ti hti
  obtain ⟨bne, btr, hbcl⟩ := goodVal_facts b hb
  have hknc : ∀ c ∈ k, c ≠ ',' := by
    intro c hc he
    subst he
    rcases hk _ hc with h9 | h9
    · rw [show isWordChar ',' = false from by decide] at h9; cases h9
    · cases h9
  have hty : matchEntryType (serTB t k ti b) = some t :=
    matchEntryType_header t _ ht htne
  have hhdr : matchCiteKeyHeader (serTB t k ti b) = some k :=
    matchCiteKeyHeader_header t k _ ht htne hknc hkne
  have hcite : extractCiteKey (serTB t k ti b) = some k := by
    rw [extractCiteKey, hhdr]
    simp [hknorm]
  have habs := serTB_extract_absent t k ti b ht htne hk hkne hti hb
  have hT : bmFieldLine (serTB t k ti b) ("title".toList) =
      some ("title".toList ++ ": \x22".toList ++ (ti ++ ['\x22'])) := by
    simp only [bmFieldLine, serTB_extract_title t k ti b ht htne hk hkne hti]
    rw [if_neg (by simpa using tine), escapeValue_id ti hticl]
  have hB : bmFieldLine (serTB t k ti b) ("booktitle".toList) =
      some ("booktitle".toList ++ ": \x22".toList ++ (b ++ ['\x22'])) := by
    simp only [bmFieldLine,
      serTB_extract_booktitle t k ti b ht htne hk hkne hti hb]
    rw [if_neg (by simpa using bne), escapeValue_id b hbcl]
  have hA_author : bmFieldLine (serTB t k ti b) ("author".toList) = none := by
    rw [bmFieldLine, habs ("author".toList) (by decide) (by decide) (by decide)]
  have hA_year : bmFieldLine (serTB t k ti b) ("year".toList) = none := by
    rw [bmFieldLine, habs ("year".toList) (by decide) (by decide) (by decide)]
  have hA_publisher : bmFieldLine (serTB t k ti b) ("publisher".toList) = none := by
    rw [bmFieldLine, habs ("publisher".toList) (by decide) (by decide) (by decide)]
  have hA_journal : bmFieldLine (serTB t k ti b) ("journal".toList) = none := by
    rw [bmFieldLine, habs ("journal".toList) (by decide) (by decide) (by decide)]
  have hA_volume : bmFieldLine (serTB t k ti b) ("volume".toList) = none := by
    rw [bmFieldLine, habs ("volume".toList) (by decide) (by decide) (by decide)]
  have hA_number : bmFieldLine (serTB t k ti b) ("number".toList) = none := by
    rw [bmFieldLine, habs ("number".toList) (by decide) (by decide) (by decide)]
  have hA_pages : bmFieldLine (serTB t k ti b) ("pages".toList) = none := by
    rw [bmFieldLine, habs ("pages".toList) (by decide) (by decide) (by decide)]
  have hA_address : bmFieldLine (serTB t k ti b) ("address".toList) = none := by
    rw [bmFieldLine, habs ("address".toList) (by decide) (by decide) (by decide)]
  have hA_edition : bmFieldLine (serTB t k ti b) ("edition".toList) = none := by
    rw [bmFieldLine, habs ("edition".toList) (by decide) (by decide) (by decide)]
  have hA_editor : bmFieldLine (serTB t k ti b) ("editor".toList) = none := by
    rw [bmFieldLine, habs ("editor".toList) (by decide) (by decide) (by decide)]
  have hA_doi : bmFieldLine (serTB t k ti b) ("doi".toList) = none := by
    rw [bmFieldLine, habs ("doi".toList) (by decide) (by decide) (by decide)]
  have hA_isbn : bmFieldLine (serTB t k ti b) ("isbn".toList) = none := by
    rw [bmFieldLine, habs ("isbn".toList) (by decide) (by decide) (by decide)]
  have hA_issn : bmFieldLine (serTB t k ti b) ("issn".toList) = none := by
    rw [bmFieldLine, habs ("issn".toList) (by decide) (by decide) (by decide)]
  have hA_url : bmFieldLine (serTB t k ti b) ("url".toList) = none := by
    rw [bmFieldLine, habs ("url".toList) (by decide) (by decide) (by decide)]
  have hA_note : bmFieldLine (serTB t k ti b) ("note".toList) = none := by
    rw [bmFieldLine, habs ("note".toList) (by decide) (by decide) (by decide)]
  have hA_series : bmFieldLine (serTB t k ti b) ("series".toList) = none := by
    rw [bmFieldLine, habs ("series".toList) (by decide) (by decide) (by decide)]
  have hA_chapter : bmFieldLine (serTB t k ti b) ("chapter".toList) = none := by
    rw [bmFieldLine, habs ("chapter".toList) (by decide) (by decide) (by decide)]
  have hA_organization : bmFieldLine (serTB t k ti b) ("organization".toList) = none := by
    rw [bmFieldLine, habs ("organization".toList) (by decide) (by decide) (by decide)]
  have hA_school : bmFieldLine (serTB t k ti b) ("school".toList) = none := by
    rw [bmFieldLine, habs ("school".toList) (by decide) (by decide) (by decide)]
  have hA_institution : bmFieldLine (serTB t k ti b) ("institution".toList) = none := by
    rw [bmFieldLine, habs ("institution".toList) (by decide) (by decide) (by decide)]
  have hA_howpublished : bmFieldLine (serTB t k ti b) ("howpublished".toList) = none := by
    rw [bmFieldLine, habs ("howpublished".toList) (by decide) (by decide) (by decide)]
  have hA_month : bmFieldLine (serTB t k ti b) ("month".toList) = none := by
    rw [bmFieldLine, habs ("month".toList) (by decide) (by decide) (by decide)]
  rw [bibtexToMetadata, hcite]
  simp only [Option.map_some, hty]
  rw [show fieldsBM = "author".toList :: "title".toList :: "year".toList ::
    "publisher".toList :: "journal".toList :: "volume".toList ::
    "number".toList :: "pages".toList :: "address".toList ::
    "edition".toList :: "booktitle".toList :: "editor".toList ::
    "doi".toList :: "isbn".toList :: "issn".toList :: "url".toList ::
    "note".toList :: "series".toList :: "chapter".toList ::
    "organization".toList :: "school".toList :: "institution".toList ::
    "howpublished".toList :: "month".toList :: [] from rfl]
  simp only [List.filterMap_cons, hA_author, hA_year, hA_publisher, hA_journal, hA_volume, hA_number, hA_pages, hA_address, hA_edition, hA_editor, hA_doi, hA_isbn, hA_issn, hA_url, hA_note, hA_series, hA_chapter, hA_organization, hA_school, hA_institution, hA_howpublished, hA_month, hT, hB, htl]
  rw [show ∀ (g : List Char → List Char) (x : List Char),
      Option.map g (some x) = some (g x) from fun g x => rfl]
  simp only [List.intercalate, List.intersperse, List.join,
    List.flatten_cons, List.flatten_nil]
  simp only [metaTB, List.append_assoc, List.cons_append, List.nil_append,
    List.append_nil, List.singleton_append]
  rfl

lemma wordish_trim (w : List Char)
    (hw : ∀ c ∈ w, isWordChar c = true ∨ c = '-') : trimL w = w :=
  trimL_eq_self w
    (fun c hc => (wordish_not_ws_eq c (hw c (List.mem_of_mem_head? hc))).1)
    (fun c hc => (wordish_not_ws_eq c (hw c (List.mem_of_mem_getLast? hc))).1)

lemma quoted_trim (v : List Char) :
    trimL ('\x22' :: (v ++ ['\x22'])) = '\x22' :: (v ++ ['\x22']) := by
  apply trimL_eq_self
  · intro c hc
    have h9 : c = '\x22' := (by simpa using hc : ('\x22' : Char) = c).symm
    subst h9
    decide
  · intro c hc
    rw [show '\x22' :: (v ++ ['\x22']) = ('\x22' :: v) ++ ['\x22'] by simp,
      List.getLast?_concat] at hc
    have h9 : c = '\x22' := (by simpa using hc : ('\x22' : Char) = c).symm
    subst h9
    decide

lemma processValue_quoted (v : List Char) (hv : '\\' ∉ v) :
    processValue ('\x22' :: (v ++ ['\x22'])) = v := by
  rw [processValue, if_pos ?_]
  · rw [show ('\x22' :: (v ++ ['\x22'])).drop 1 = v ++ ['\x22'] from rfl,
      List.dropLast_concat]
    exact unescapeValue_id v hv
  · refine ⟨by simp, Or.inl ⟨rfl, ?_⟩⟩
    rw [show '\x22' :: (v ++ ['\x22']) = ('\x22' :: v) ++ ['\x22'] by simp,
      List.getLast?_concat]

lemma processValue_wordish (w : List Char)
    (hw : ∀ c ∈ w, isWordChar c = true ∨ c = '-') (hne : w ≠ []) :
    processValue w = w := by
  obtain ⟨c0, hc0, -, -⟩ := wordish_head_facts w hw hne
  rw [processValue, if_neg]
  rintro ⟨-, ⟨hh, -⟩ | ⟨hh, -⟩⟩
  · rw [hc0] at hh
    have h9 := hw c0 (List.mem_of_mem_head? hc0)
    injection hh with hh
    subst hh
    rcases h9 with h9 | h9
    · rw [show isWordChar '\x22' = false from by decide] at h9; cases h9
    · cases h9
  · rw [hc0] at hh
    have h9 := hw c0 (List.mem_of_mem_head? hc0)
    injection hh with hh
    subst hh
    rcases h9 with h9 | h9
    · rw [show isWordChar (Char.ofNat 39) = false from by decide] at h9
      cases h9
    · cases h9

lemma metadataToBibtex_metaTB (t k ti b : List Char)
    (ht : ∀ c ∈ t, isWordChar c = true) (htne : t ≠ [])
    (hk : ∀ c ∈ k, isWordChar c = true ∨ c = '-') (hkne : k ≠ [])
    (hti : goodVal ti = true) (hb : goodVal b = true) :
    metadataToBibtex (metaTB t k ti b) = some (serTB t k ti b) := by
  obtain ⟨tine, titr, hticl⟩ := goodVal_facts ti hti
  obtain ⟨bne, btr, hbcl⟩ := goodVal_facts b hb
  have htw : ∀ c ∈ t, isWordChar c = true ∨ c = '-' :=
    fun c hc => Or.inl (ht c hc)
  have htrimt : trimL t = t := wordish_trim t htw
  have htrimk : trimL k = k := wordish_trim k hk
  have hnoback : ∀ (v : List Char), (∀ c ∈ v, goodChar c = true) →
      '\\' ∉ v := by
    intro v hv hm
    have h9 := hv _ hm
    rw [show goodChar '\\' = false from by decide] at h9
    cases h9
  have hnonl : ∀ (v : List Char), (∀ c ∈ v, goodChar c = true) →
      '\n' ∉ v := by
    intro v hv hm
    have h9 := hv _ hm
    rw [show goodChar '\n' = false from by decide] at h9
    cases h9
  have hwnonl : ∀ (w : List Char),
      (∀ c ∈ w, isWordChar c = true ∨ c = '-') → '\n' ∉ w := by
    intro w hw hm
    rcases hw _ hm with h9 | h9
    · rw [show isWordChar '\n' = false from by decide] at h9; cases h9
    · cases h9
  -- the metadata trims to itself
  have hhead : (metaTB t k ti b).head? = some 't' :=
    head?_append_of_head _ _ _ rfl
  have hlastm : (metaTB t k ti b).getLast? = some '\x22' := by
    simp only [metaTB, List.getLast?_append]
    rfl
  have htrimm : trimL (metaTB t k ti b) = metaTB t k ti b := by
    apply trimL_eq_self
    · intro c hc
      rw [hhead] at hc
      injection hc with hc
      subst hc
      decide
    · intro c hc
      rw [hlastm] at hc
      injection hc with hc
      subst hc
      decide
  -- line split
  have hsplitm : splitNL (metaTB t k ti b) =
      [("type: ".toList ++ t), ("citekey: ".toList ++ k),
       ("title: \x22".toList ++ (ti ++ ['\x22'])),
       ("booktitle: \x22".toList ++ (b ++ ['\x22']))] := by
    rw [show metaTB t k ti b = ("type: ".toList ++ t) ++ '\n' ::
        (("citekey: ".toList ++ k) ++ '\n' ::
          (("title: \x22".toList ++ (ti ++ ['\x22'])) ++ '\n' ::
            ("booktitle: \x22".toList ++ (b ++ ['\x22'])))) from by
      simp only [metaTB, List.append_assoc, List.cons_append]
      rfl]
    rw [splitNL_append_nl _ _ (by
      intro hm
      rcases List.mem_append.mp hm with h9 | h9
      · revert h9; decide
      · exact hwnonl t htw h9)]
    rw [splitNL_append_nl _ _ (by
      intro hm
      rcases List.mem_append.mp hm with h9 | h9
      · revert h9; decide
      · exact hwnonl k hk h9)]
    rw [splitNL_append_nl _ _ (by
      intro hm
      rcases List.mem_append.mp hm with h9 | h9
      · revert h9; decide
      · rcases List.mem_append.mp h9 with h9 | h9
        · exact hnonl ti hticl h9
        · revert h9; decide)]
    rw [splitNL_no_nl _ (by
      intro hm
      rcases List.mem_append.mp hm with h9 | h9
      · revert h9; decide
      · rcases List.mem_append.mp h9 with h9 | h9
        · exact hnonl b hbcl h9
        · revert h9; decide)]
  -- the four parsed lines
  have hp1 : parseLine ("type: ".toList ++ t) =
      some ("type".toList, t) := by
    rw [show "type: ".toList ++ t = "type".toList ++ ':' :: (' ' :: t)
        from rfl,
      parseLine_concat _ _ (by decide), trimL_cons_ws ' ' t (by decide),
      htrimt]
    rfl
  have hp2 : parseLine ("citekey: ".toList ++ k) =
      some ("citekey".toList, k) := by
    rw [show "citekey: ".toList ++ k = "citekey".toList ++ ':' :: (' ' :: k)
        from rfl,
      parseLine_concat _ _ (by decide), trimL_cons_ws ' ' k (by decide),
      htrimk]
    rfl
  have hp3 : parseLine ("title: \x22".toList ++ (ti ++ ['\x22'])) =
      some ("title".toList, '\x22' :: (ti ++ ['\x22'])) := by
    rw [show "title: \x22".toList ++ (ti ++ ['\x22']) =
        "title".toList ++ ':' :: (' ' :: ('\x22' :: (ti ++ ['\x22'])))
        from rfl,
      parseLine_concat _ _ (by decide),
      trimL_cons_ws ' ' _ (by decide), quoted_trim ti]
    rfl
  have hp4 : parseLine ("booktitle: \x22".toList ++ (b ++ ['\x22'])) =
      some ("booktitle".toList, '\x22' :: (b ++ ['\x22'])) := by
    rw [show "booktitle: \x22".toList ++ (b ++ ['\x22']) =
        "booktitle".toList ++ ':' :: (' ' :: ('\x22' :: (b ++ ['\x22'])))
        from rfl,
      parseLine_concat _ _ (by decide),
      trimL_cons_ws ' ' _ (by decide), quoted_trim b]
    rfl
  have hfields : parseFields
      [("type: ".toList ++ t), ("citekey: ".toList ++ k),
       ("title: \x22".toList ++ (ti ++ ['\x22'])),
       ("booktitle: \x22".toList ++ (b ++ ['\x22']))] =
      [("booktitle".toList, b), ("title".toList, ti),
       ("citekey".toList, k), ("type".toList, t)] := by
    simp only [parseFields, parseFieldsAux, hp1, hp2, hp3, hp4,
      processValue_wordish t htw htne, processValue_wordish k hk hkne,
      processValue_quoted ti (hnoback ti hticl),
      processValue_quoted b (hnoback b hbcl)]
  have hlu_author : lookupField
      [("booktitle".toList, b), ("title".toList, ti),
       ("citekey".toList, k), ("type".toList, t)] ("author".toList) = none := rfl
  have hlu_editor : lookupField
      [("booktitle".toList, b), ("title".toList, ti),
       ("citekey".toList, k), ("type".toList, t)] ("editor".toList) = none := rfl
  have hlu_year : lookupField
      [("booktitle".toList, b), ("title".toList, ti),
       ("citekey".toList, k), ("type".toList, t)] ("year".toList) = none := rfl
  have hlu_publisher : lookupField
      [("booktitle".toList, b), ("title".toList, ti),
       ("citekey".toList, k), ("type".toList, t)] ("publisher".toList) = none := rfl
  have hlu_address : lookupField
      [("booktitle".toList, b), ("title".toList, ti),
       ("citekey".toList, k), ("type".toList, t)] ("address".toList) = none := rfl
  have hlu_edition : lookupField
      [("booktitle".toList, b), ("title".toList, ti),
       ("citekey".toList, k), ("type".toList, t)] ("edition".toList) = none := rfl
  have hlu_journal : lookupField
      [("booktitle".toList, b), ("title".toList, ti),
       ("citekey".toList, k), ("type".toList, t)] ("journal".toList) = none := rfl
  have hlu_volume : lookupField
      [("booktitle".toList, b), ("title".toList, ti),
       ("citekey".toList, k), ("type".toList, t)] ("volume".toList) = none := rfl
  have hlu_number : lookupField
      [("booktitle".toList, b), ("title".toList, ti),
       ("citekey".toList, k), ("type".toList, t)] ("number".toList) = none := rfl
  have hlu_pages : lookupField
      [("booktitle".toList, b), ("title".toList, ti),
       ("citekey".toList, k), ("type".toList, t)] ("pages".toList) = none := rfl
  have hlu_chapter : lookupField
      [("booktitle".toList, b), ("title".toList, ti),
       ("citekey".toList, k), ("type".toList, t)] ("chapter".toList) = none := rfl
  have hlu_series : lookupField
      [("booktitle".toList, b), ("title".toList, ti),
       ("citekey".toList, k), ("type".toList, t)] ("series".toList) = none := rfl
  have hlu_organization : lookupField
      [("booktitle".toList, b), ("title".toList, ti),
       ("citekey".toList, k), ("type".toList, t)] ("organization".toList) = none := rfl
  have hlu_school : lookupField
      [("booktitle".toList, b), ("title".toList, ti),
       ("citekey".toList, k), ("type".toList, t)] ("school".toList) = none := rfl
  have hlu_institution : lookupField
      [("booktitle".toList, b), ("title".toList, ti),
       ("citekey".toList, k), ("type".toList, t)] ("institution".toList) = none := rfl
  have hlu_howpublished : lookupField
      [("booktitle".toList, b), ("title".toList, ti),
       ("citekey".toList, k), ("type".toList, t)] ("howpublished".toList) = none := rfl
  have hlu_month : lookupField
      [("booktitle".toList, b), ("title".toList, ti),
       ("citekey".toList, k), ("type".toList, t)] ("month".toList) = none := rfl
  have hlu_doi : lookupField
      [("booktitle".toList, b), ("title".toList, ti),
       ("citekey".toList, k), ("type".toList, t)] ("doi".toList) = none := rfl
  have hlu_isbn : lookupField
      [("booktitle".toList, b), ("title".toList, ti),
       ("citekey".toList, k), ("type".toList, t)] ("isbn".toList) = none := rfl
  have hlu_issn : lookupField
      [("booktitle".toList, b), ("title".toList, ti),
       ("citekey".toList, k), ("type".toList, t)] ("issn".toList) = none := rfl
  have hlu_url : lookupField
      [("booktitle".toList, b), ("title".toList, ti),
       ("citekey".toList, k), ("type".toList, t)] ("url".toList) = none := rfl
  have hlu_note : lookupField
      [("booktitle".toList, b), ("title".toList, ti),
       ("citekey".toList, k), ("type".toList, t)] ("note".toList) = none := rfl
  have hlu_type : lookupField
      [("booktitle".toList, b), ("title".toList, ti),
       ("citekey".toList, k), ("type".toList, t)] ("type".toList) = some t := rfl
  have hlu_citekey : lookupField
      [("booktitle".toList, b), ("title".toList, ti),
       ("citekey".toList, k), ("type".toList, t)] ("citekey".toList) = some k := rfl
  have hlu_title : lookupField
      [("booktitle".toList, b), ("title".toList, ti),
       ("citekey".toList, k), ("type".toList, t)] ("title".toList) = some ti := rfl
  have hlu_booktitle : lookupField
      [("booktitle".toList, b), ("title".toList, ti),
       ("citekey".toList, k), ("type".toList, t)] ("booktitle".toList) = some b := rfl
  have hmb : mbFieldLines
      [("booktitle".toList, b), ("title".toList, ti),
       ("citekey".toList, k), ("type".toList, t)] =
      [("  title = \x7b".toList ++ (ti ++ "\x7d,".toList)),
       ("  booktitle = \x7b".toList ++ (b ++ "\x7d,".toList))] := by
    simp only [mbFieldLines]
    rw [show fieldOrderMB = "author".toList ::
    "title".toList ::
    "booktitle".toList ::
    "editor".toList ::
    "year".toList ::
    "publisher".toList ::
    "address".toList ::
    "edition".toList ::
    "journal".toList ::
    "volume".toList ::
    "number".toList ::
    "pages".toList ::
    "chapter".toList ::
    "series".toList ::
    "organization".toList ::
    "school".toList ::
    "institution".toList ::
    "howpublished".toList ::
    "month".toList ::
    "doi".toList ::
    "isbn".toList ::
    "issn".toList ::
    "url".toList ::
    "note".toList :: [] from rfl]
    simp only [List.filterMap_cons, List.filterMap_nil,
      hlu_author, hlu_editor, hlu_year, hlu_publisher, hlu_address, hlu_edition, hlu_journal, hlu_volume, hlu_number, hlu_pages, hlu_chapter, hlu_series, hlu_organization, hlu_school, hlu_institution, hlu_howpublished, hlu_month, hlu_doi, hlu_isbn, hlu_issn, hlu_url, hlu_note, hlu_title, hlu_booktitle]
    rw [if_pos ⟨tine, by decide, by decide⟩,
      if_pos ⟨bne, by decide, by decide⟩]
    simp [List.append_assoc]
  simp only [metadataToBibtex, htrimm, hsplitm, hfields, hlu_type,
    hlu_citekey, hmb]
  rw [if_neg (not_or.mpr ⟨htne, hkne⟩)]
  simp only [List.intercalate, List.intersperse, List.join,
    List.flatten_cons, List.flatten_nil]
  simp only [serTB, List.append_assoc, List.cons_append, List.nil_append,
    List.append_nil, List.singleton_append]
  rfl

/-- C2 (amended, restricted): for a canonically serialized entry of type `t`
(`\w+`, lower case), normalized citekey `k`, and fields `title`/`booktitle`
with nonempty, trim-fixed values over characters excluding the five escaped
specials, braces, `=` and quotes, the round trip is exact: `bibtexToMetadata`
produces exactly the four metadata lines (type, citekey, title, booktitle:
same type, same citekey, same field set, same values) and `metadataToBibtex`
maps them back to the identical entry text.  (Without `title` present the
round trip is not field-set preserving, see the counterexample: the regex for
`title` matches inside `booktitle = \x7b...\x7d`.) -/
theorem bibtex_metadata_roundtrip
    (t k ti b : List Char)
    (ht : ∀ c ∈ t, isWordChar c = true) (htne : t ≠ [])
    (htl : toLowerL t = t)
    (hk : ∀ c ∈ k, isWordChar c = true ∨ c = '-') (hkne : k ≠ [])
    (hknorm : normalizeCiteKey k = k)
    (hti : goodVal ti = true) (hb : goodVal b = true) :
    bibtexToMetadata (serTB t k ti b) = some (metaTB t k ti b) ∧
    metadataToBibtex (metaTB t k ti b) = some (serTB t k ti b) ∧
    (bibtexToMetadata (serTB t k ti b)).bind metadataToBibtex =
      some (serTB t k ti b) := by
  have h1 := bibtexToMetadata_serTB t k ti b ht htne htl hk hkne hknorm hti hb
  have h2 := metadataToBibtex_metaTB t k ti b ht htne hk hkne hti hb
  refine ⟨h1, h2, ?_⟩
  rw [h1]
  exact h2

/-- Witness for C2 at a concrete inproceedings entry. -/
theorem bibtex_metadata_roundtrip_witness :
    bibtexToMetadata
        (serTB "inproceedings".toList "Smith-2020".toList
          "A Great Paper".toList "Proc. of Things".toList) =
      some (metaTB "inproceedings".toList "Smith-2020".toList
        "A Great Paper".toList "Proc. of Things".toList) ∧
    metadataToBibtex
        (metaTB "inproceedings".toList "Smith-2020".toList
          "A Great Paper".toList "Proc. of Things".toList) =
      some (serTB "inproceedings".toList "Smith-2020".toList
        "A Great Paper".toList "Proc. of Things".toList) ∧
    (bibtexToMetadata
        (serTB "inproceedings".toList "Smith-2020".toList
          "A Great Paper".toList "Proc. of Things".toList)).bind
        metadataToBibtex =
      some (serTB "inproceedings".toList "Smith-2020".toList
        "A Great Paper".toList "Proc. of Things".toList) :=
  bibtex_metadata_roundtrip "inproceedings".toList "Smith-2020".toList
    "A Great Paper".toList "Proc. of Things".toList
    (by decide) (by decide) (by decide) (by decide) (by decide) (by decide)
    (by decide) (by decide)
